import Mathlib

/-!
Verification development for the koji-ansible reconciliation modules
(`library/koji_tag.py` and `library/koji_cg.py`).

The Python modules are shallowly embedded: the remote Koji service state is an
explicit `RemoteState` value, every session RPC that the modules issue is
recorded in a call trace, and the mutating RPCs update the state the way the
remote side does.  Python dicts become association lists (`List (key × value)`)
whose lookup takes the first matching key; dict equality is content equality of
lookups.  `session` method names and module function names are kept.
-/

namespace KojiAnsible

set_option linter.unusedSectionVars false

/-- First-match association-list lookup (Python `d[k]` / `d.get(k)`). -/
def alookup {κ α : Type} [BEq κ] (l : List (κ × α)) (k : κ) : Option α :=
  (l.find? (fun p => p.1 == k)).map Prod.snd

/-- Python `d[k] = v`: update the value in place if the key is present,
otherwise append the new pair (dict insertion order). -/
def aset {κ α : Type} [BEq κ] (l : List (κ × α)) (k : κ) (v : α) : List (κ × α) :=
  if (l.find? (fun p => p.1 == k)).isSome then
    l.map (fun p => if p.1 == k then (k, v) else p)
  else
    l ++ [(k, v)]

/-- Remove a set of keys from a dict (used for `remove_extra` semantics). -/
def dictRemove {κ α : Type} [BEq κ] (l : List (κ × α)) (ks : List κ) : List (κ × α) :=
  l.filter (fun p => !(ks.contains p.1))

/-- Python `d.update(e)`: set every pair of `e` into `d` in order. -/
def dictUpdate {κ α : Type} [BEq κ] (d e : List (κ × α)) : List (κ × α) :=
  e.foldl (fun acc p => aset acc p.1 p.2) d

/-- Python dict equality: the two maps agree on the lookups of every key of
either side (insertion order does not matter). -/
def dictEq {κ α : Type} [BEq κ] [BEq α] (a b : List (κ × α)) : Bool :=
  (a.map Prod.fst).all (fun k => alookup a k == alookup b k) &&
  (b.map Prod.fst).all (fun k => alookup a k == alookup b k)

/-- The scalar/collection attributes that `run_module` always passes to
`ensure_tag` as `**kwargs` (`arches`, `perm`, `locked`, `maven_support`,
`maven_include_all`, `extra`).  `perm` is the permission label
(`params['perm'] or None`), `extra` a Python dict. -/
structure TagKwargs where
  arches : Option String
  perm : Option String
  locked : Bool
  maven_support : Bool
  maven_include_all : Bool
  extra : List (String × Int)
deriving DecidableEq, Repr

/-- What `session.getTag` returns for an existing tag: the id plus the managed
attributes.  `perm` is the permission *name*, as the Koji hub reports it. -/
structure TagInfo where
  id : Nat
  arches : Option String
  perm : Option String
  locked : Bool
  maven_support : Bool
  maven_include_all : Bool
  extra : List (String × Int)
deriving DecidableEq, Repr

/-- One element of the `inheritance` module parameter. -/
structure DeclInh where
  parent : String
  priority : Int
deriving DecidableEq, Repr

/-- One element of the `external_repos` module parameter. -/
structure DeclRepo where
  repo : String
  priority : Int
deriving DecidableEq, Repr

/-- One element of `session.getTagExternalRepos`. -/
structure RemoteRepo where
  external_repo_name : String
  priority : Int
deriving DecidableEq, Repr

/-- One element of `session.listPackages`. -/
structure RemotePkg where
  package_name : String
  owner_name : String
deriving DecidableEq, Repr

/-- The full inheritance-rule record built for `setInheritanceData`
(koji_tag.py lines 236-244). -/
structure InheritanceRule where
  child_id : Nat
  intransitive : Bool
  maxdepth : Option Int
  name : String
  noconfig : Bool
  parent_id : Nat
  pkg_filter : String
  priority : Int
deriving DecidableEq, Repr

/-- The `edits` dict accumulated for `editTag2` (koji_tag.py lines 210-221).
A `none` field means the key is absent from the dict; `remove_extra` is absent
exactly when the list is empty (the code only creates the key to append). -/
structure Edits where
  arches : Option (Option String) := none
  perm : Option (Option String) := none
  locked : Option Bool := none
  maven_support : Option Bool := none
  maven_include_all : Option Bool := none
  extra : Option (List (String × Int)) := none
  remove_extra : List String := []
deriving DecidableEq, Repr

/-- Python `if edits:` — the dict is empty iff no key was ever set. -/
def Edits.isEmpty (e : Edits) : Bool :=
  e.arches.isNone && e.perm.isNone && e.locked.isNone && e.maven_support.isNone &&
  e.maven_include_all.isNone && e.extra.isNone && e.remove_extra.isEmpty

/-- Errors `ensure_tag` can raise: the `ValueError` for a missing inheritance
parent (spec name `UnresolvedParent`) and the `KeyError` from the permission
cache (spec name `UnknownPermission`). -/
inductive KojiErr where
  | unresolvedParent (parent : String)
  | unknownPermission (label : String)
deriving DecidableEq, Repr

/-- The `result` dict of `ensure_tag` / `ensure_external_repos`. -/
structure TagResult where
  changed : Bool
  stdout_lines : List String
deriving DecidableEq, Repr

/-- Session calls issued by `koji_tag.py`, with their arguments.  The two read
calls that claims reason about (`listPackages`, `getAllPerms`) are traced too;
`getTag`, `getInheritanceData` and `getTagExternalRepos` are pure reads of
`RemoteState` and are not traced. -/
inductive Call where
  | createTag (name : String) (kw : TagKwargs) (permId : Option Nat)
  | editTag2 (name : String) (edits : Edits)
  | setInheritanceData (name : String) (rules : List InheritanceRule) (clear : Bool)
  | addExternalRepoToTag (tag : String) (repo : String) (priority : Int)
  | editTagExternalRepo (tag : String) (repo : String) (priority : Int)
  | removeExternalRepoFromTag (tag : String) (repo : String)
  | packageListAdd (tag : String) (pkg : String) (owner : String)
  | packageListSetOwner (tag : String) (pkg : String) (owner : String)
  | packageListRemove (tag : String) (pkg : String) (owner : String)
  | listPackages (tagID : Nat)
  | getAllPerms
deriving DecidableEq, Repr

/-- Which traced calls mutate remote state. -/
def Call.isMutating : Call → Bool
  | .listPackages _ => false
  | .getAllPerms => false
  | _ => true

/-- The remote Koji service state visible through the session interface:
tags by name, per-tag inheritance data, per-tag external repos, per-tag-id
package lists, the next fresh tag id, and the permission catalog that
`getAllPerms` returns. -/
structure RemoteState where
  tags : List (String × TagInfo)
  inher : List (String × List InheritanceRule)
  repos : List (String × List RemoteRepo)
  pkgs : List (Nat × List RemotePkg)
  nextId : Nat
  catalog : List (String × Nat)
deriving DecidableEq, Repr

def getTag (s : RemoteState) (name : String) : Option TagInfo :=
  alookup s.tags name

def getInheritanceData (s : RemoteState) (name : String) : List InheritanceRule :=
  (alookup s.inher name).getD []

def getTagExternalRepos (s : RemoteState) (name : String) : List RemoteRepo :=
  (alookup s.repos name).getD []

def listPackagesOf (s : RemoteState) (tagID : Nat) : List RemotePkg :=
  (alookup s.pkgs tagID).getD []

/-- Reverse catalog lookup: the hub stores a permission id and reports the
corresponding permission name in `getTag` output. -/
def idToName (catalog : List (String × Nat)) (i : Nat) : Option String :=
  (catalog.find? (fun p => p.2 == i)).map Prod.fst

/-- Effect of `createTag(name, parent=None, **kwargs)`: a fresh tag with the
given attributes (perm resolved to an id beforehand by the module), empty
inheritance, no external repos and no packages. -/
def applyCreateTag (s : RemoteState) (name : String) (kw : TagKwargs)
    (permId : Option Nat) : RemoteState :=
  let t : TagInfo :=
    { id := s.nextId, arches := kw.arches, perm := permId.bind (idToName s.catalog),
      locked := kw.locked, maven_support := kw.maven_support,
      maven_include_all := kw.maven_include_all, extra := kw.extra }
  { s with tags := aset s.tags name t, inher := aset s.inher name [],
           repos := aset s.repos name [], pkgs := aset s.pkgs s.nextId [],
           nextId := s.nextId + 1 }

/-- Effect of `editTag2(name, **edits)` on the stored tag record: each edited
attribute is overwritten, `remove_extra` keys are dropped from `extra` and the
edited `extra` dict (when present) is merged in. -/
def applyEdits (t : TagInfo) (e : Edits) : TagInfo :=
  { t with arches := e.arches.getD t.arches, perm := e.perm.getD t.perm,
           locked := e.locked.getD t.locked,
           maven_support := e.maven_support.getD t.maven_support,
           maven_include_all := e.maven_include_all.getD t.maven_include_all,
           extra :=
             let base := dictRemove t.extra e.remove_extra
             match e.extra with
             | some ex => dictUpdate base ex
             | none => base }

def applyEditTag2 (s : RemoteState) (name : String) (e : Edits) : RemoteState :=
  match alookup s.tags name with
  | none => s
  | some t => { s with tags := aset s.tags name (applyEdits t e) }

/-- Effect of `setInheritanceData(name, rules, clear=True)`: the whole rule
set is replaced. -/
def applySetInheritance (s : RemoteState) (name : String)
    (rules : List InheritanceRule) : RemoteState :=
  { s with inher := aset s.inher name rules }

def applyAddRepo (s : RemoteState) (tag : String) (repo : String) (priority : Int) :
    RemoteState :=
  { s with repos := aset s.repos tag (getTagExternalRepos s tag ++ [⟨repo, priority⟩]) }

def applyEditRepo (s : RemoteState) (tag : String) (repo : String) (priority : Int) :
    RemoteState :=
  let cur' := (getTagExternalRepos s tag).map
    (fun r => if r.external_repo_name == repo then { r with priority := priority } else r)
  { s with repos := aset s.repos tag cur' }

def applyRemoveRepo (s : RemoteState) (tag : String) (repo : String) : RemoteState :=
  let cur' := (getTagExternalRepos s tag).filter (fun r => !(r.external_repo_name == repo))
  { s with repos := aset s.repos tag cur' }

/-- Effect of `packageListAdd`: the hub inserts the package, or updates the
owner of an existing entry. -/
def applyPkgAdd (s : RemoteState) (tagID : Nat) (pkg : String) (owner : String) :
    RemoteState :=
  let cur := listPackagesOf s tagID
  let cur' :=
    if (cur.find? (fun p => p.package_name == pkg)).isSome then
      cur.map (fun p => if p.package_name == pkg then { p with owner_name := owner } else p)
    else
      cur ++ [⟨pkg, owner⟩]
  { s with pkgs := aset s.pkgs tagID cur' }

def applyPkgSetOwner (s : RemoteState) (tagID : Nat) (pkg : String) (owner : String) :
    RemoteState :=
  let cur' := (listPackagesOf s tagID).map
    (fun p => if p.package_name == pkg then { p with owner_name := owner } else p)
  { s with pkgs := aset s.pkgs tagID cur' }

def applyPkgRemove (s : RemoteState) (tagID : Nat) (pkg : String) : RemoteState :=
  let cur' := (listPackagesOf s tagID).filter (fun p => !(p.package_name == pkg))
  { s with pkgs := aset s.pkgs tagID cur' }

/-- `dict([(perm['name'], perm['id']) for perm in session.getAllPerms()])` —
later catalog entries override earlier ones, as in a Python dict build. -/
def build_perm_cache (catalog : List (String × Nat)) : List (String × Nat) :=
  catalog.foldl (fun d p => aset d p.1 p.2) []

/-- `get_perm_id` (koji_tag.py lines 121-127).  The global `perm_cache` is
threaded explicitly; the returned Bool says whether this call performed the
`getAllPerms` fetch (it does so exactly when the cache dict is falsy, i.e.
empty).  A missing label raises `KeyError`, the spec's `UnknownPermission`. -/
def get_perm_id (catalog : List (String × Nat)) (pc : List (String × Nat))
    (name : String) : Except KojiErr Nat × List (String × Nat) × Bool :=
  let fetched := pc.isEmpty
  let pc' := if pc.isEmpty then build_perm_cache catalog else pc
  match alookup pc' name with
  | some i => (.ok i, pc', fetched)
  | none => (.error (.unknownPermission name), pc', fetched)

/-- A whole process lifetime of permission resolutions: fold `get_perm_id`
over the requested labels starting from the empty cache, counting fetches. -/
def resolveSeq (catalog : List (String × Nat)) (labels : List String) :
    List (Except KojiErr Nat) × List (String × Nat) × Nat :=
  labels.foldl
    (fun acc l =>
      let (r, pc', fetched) := get_perm_id catalog acc.2.1 l
      (acc.1 ++ [r], pc', acc.2.2 + (if fetched then 1 else 0)))
    ([], [], 0)

/-- Rendering used for `str(edits)` in the change log (the exact Python repr
text is immaterial to the claims; this rendering is deterministic). -/
def editsStr (e : Edits) : String :=
  reprStr e

/-- Rendering used for `'inheritance is %s' % inheritance`. -/
def inhStr (inheritance : List DeclInh) : String :=
  reprStr inheritance

/-- The rule-construction loop of `ensure_tag` (lines 229-245): resolve each
declared parent with `getTag`, raising `ValueError` (`UnresolvedParent`) for a
missing parent, and build the full `InheritanceRule` records in order. -/
def buildRules (s : RemoteState) (child_id : Nat) :
    List DeclInh → Except KojiErr (List InheritanceRule)
  | [] => .ok []
  | rule :: rest =>
    match getTag s rule.parent with
    | none => .error (.unresolvedParent rule.parent)
    | some pt =>
      (buildRules s child_id rest).map
        (fun rs =>
          { child_id := child_id, intransitive := false, maxdepth := none,
            name := rule.parent, noconfig := false, parent_id := pt.id,
            pkg_filter := "", priority := rule.priority } :: rs)

/-- The attribute-diff loop of `ensure_tag` (lines 210-221): every kwarg whose
declared value differs from the remote value goes into `edits` (dict values
compare by content), and `remove_extra` lists the remote extra keys that are
absent from the declared extra dict. -/
def computeEdits (t : TagInfo) (kw : TagKwargs) : Edits :=
  { arches := if t.arches == kw.arches then none else some kw.arches,
    perm := if t.perm == kw.perm then none else some kw.perm,
    locked := if t.locked == kw.locked then none else some kw.locked,
    maven_support := if t.maven_support == kw.maven_support then none else some kw.maven_support,
    maven_include_all :=
      if t.maven_include_all == kw.maven_include_all then none else some kw.maven_include_all,
    extra := if dictEq t.extra kw.extra then none else some kw.extra,
    remove_extra := (t.extra.map Prod.fst).filter (fun k => (alookup kw.extra k).isNone) }

/-- One iteration of the declared-repo loop of `ensure_external_repos`
(lines 142-162).  `current` is the snapshot dict built once at entry; the
decisions read only the snapshot, never the live state. -/
def repoStep (tag_name : String) (check_mode : Bool) (current : List RemoteRepo)
    (acc : TagResult × RemoteState × List Call) (repo : DeclRepo) :
    TagResult × RemoteState × List Call :=
  let res := acc.1
  let st := acc.2.1
  let cs := acc.2.2
  let rn := repo.repo
  let rp := repo.priority
  match current.find? (fun r => r.external_repo_name == rn) with
  | some cur =>
    if rp == cur.priority then acc
    else
      let res' : TagResult :=
        { changed := true,
          stdout_lines := res.stdout_lines ++ [s!"set {rn} repo priority to {rp}"] }
      if check_mode then (res', st, cs)
      else (res', applyEditRepo st tag_name rn rp, cs ++ [Call.editTagExternalRepo tag_name rn rp])
  | none =>
    let res' : TagResult :=
      { changed := true,
        stdout_lines := res.stdout_lines ++ [s!"add {rn} external repo to {tag_name}"] }
    if check_mode then (res', st, cs)
    else (res', applyAddRepo st tag_name rn rp, cs ++ [Call.addExternalRepoToTag tag_name rn rp])

/-- One iteration of the removal loop of `ensure_external_repos`
(lines 167-173). -/
def repoRemoveStep (tag_name : String) (check_mode : Bool)
    (acc : TagResult × RemoteState × List Call) (rn : String) :
    TagResult × RemoteState × List Call :=
  let res := acc.1
  let st := acc.2.1
  let cs := acc.2.2
  let res' : TagResult :=
    { changed := true,
      stdout_lines := res.stdout_lines ++ [s!"removed {rn} repo from {tag_name} tag"] }
  if check_mode then (res', st, cs)
  else (res', applyRemoveRepo st tag_name rn, cs ++ [Call.removeExternalRepoFromTag tag_name rn])

/-- `ensure_external_repos` (koji_tag.py lines 130-174).  Python's
`set(current_names) - set(repo_names)` is iterated here in first-seen snapshot
order (CPython iterates a set in hash order; the claims never depend on the
relative order of two removals). -/
def ensure_external_repos (s : RemoteState) (tag_name : String) (check_mode : Bool)
    (repos : List DeclRepo) : TagResult × RemoteState × List Call :=
  let current := getTagExternalRepos s tag_name
  let init : TagResult × RemoteState × List Call :=
    ({ changed := false, stdout_lines := [] }, s, [])
  let afterLoop := repos.foldl (repoStep tag_name check_mode current) init
  let repo_names := repos.map (fun r => r.repo)
  let current_names := current.map (fun r => r.external_repo_name)
  let repos_to_remove := current_names.filter (fun n => !(repo_names.contains n))
  repos_to_remove.foldl (repoRemoveStep tag_name check_mode) afterLoop

/-- One iteration of the declared (owner, package) loop of the package section
(koji_tag.py lines 273-289).  `current_names` and `ownedBy` come from the
snapshot taken at section entry. -/
def pkgStep (tag_name : String) (tagID : Nat) (check_mode : Bool)
    (current_names : List String) (ownedBy : String → List String) (owner : String)
    (acc : TagResult × RemoteState × List Call) (package : String) :
    TagResult × RemoteState × List Call :=
  let res := acc.1
  let st := acc.2.1
  let cs := acc.2.2
  if !(current_names.contains package) then
    let res' : TagResult :=
      { changed := true, stdout_lines := res.stdout_lines ++ [s!"added pkg {package}"] }
    if check_mode then (res', st, cs)
    else (res', applyPkgAdd st tagID package owner, cs ++ [Call.packageListAdd tag_name package owner])
  else if !((ownedBy owner).contains package) then
    let res' : TagResult :=
      { changed := true, stdout_lines := res.stdout_lines ++ [s!"set {package} owner {owner}"] }
    if check_mode then (res', st, cs)
    else (res', applyPkgSetOwner st tagID package owner,
          cs ++ [Call.packageListSetOwner tag_name package owner])
  else acc

/-- One iteration of the package-removal loop (lines 293-297).  The `owner`
argument is whatever the loop variable of the preceding add/reassign loop
still holds — the last declared owner — exactly as in the Python. -/
def pkgRemoveStep (tag_name : String) (tagID : Nat) (check_mode : Bool) (owner : String)
    (acc : TagResult × RemoteState × List Call) (package : String) :
    TagResult × RemoteState × List Call :=
  let res := acc.1
  let st := acc.2.1
  let cs := acc.2.2
  let res' : TagResult :=
    { changed := true, stdout_lines := res.stdout_lines ++ [s!"remove pkg {package}"] }
  if check_mode then (res', st, cs)
  else (res', applyPkgRemove st tagID package,
        cs ++ [Call.packageListRemove tag_name package owner])

/-- The package-ownership section of `ensure_tag` (lines 261-297), entered
only when `packages` is non-empty.  Returns this section's own result delta,
the updated state, and the calls it issued (including the `listPackages`
read).  The set difference `set(current_names) - set(all_names)` is iterated
in first-seen snapshot order, as for external repos. -/
def ensure_packages (s : RemoteState) (tag_name : String) (tagID : Nat)
    (check_mode : Bool) (packages : List (String × List String)) :
    TagResult × RemoteState × List Call :=
  let current_pkgs := listPackagesOf s tagID
  let current_names := current_pkgs.map (fun p => p.package_name)
  let ownedBy : String → List String := fun o =>
    (current_pkgs.filter (fun p => p.owner_name == o)).map (fun p => p.package_name)
  let init : TagResult × RemoteState × List Call :=
    ({ changed := false, stdout_lines := [] }, s, [Call.listPackages tagID])
  let afterAdd := packages.foldl
    (fun acc op => op.2.foldl (pkgStep tag_name tagID check_mode current_names ownedBy op.1) acc)
    init
  let lastOwner := match packages.getLast? with
    | some p => p.1
    | none => ""
  let all_names := packages.flatMap (fun p => p.2)
  let delete_names := current_names.filter (fun n => !(all_names.contains n))
  delete_names.foldl (pkgRemoveStep tag_name tagID check_mode lastOwner) afterAdd

/-- Aggregate output of an `ensure_tag` run: the returned result dict (or the
raised error), the remote state and permission cache afterwards, and the trace
of session calls. -/
structure EnsureOut where
  result : Except KojiErr TagResult
  state : RemoteState
  cache : List (String × Nat)
  calls : List Call
deriving Repr

/-- The part of `ensure_tag` after tag creation / attribute editing
(lines 228-298): inheritance, external repos, packages. -/
def ensureTagRest (s : RemoteState) (pc : List (String × Nat)) (name : String)
    (check_mode : Bool) (inheritance : List DeclInh)
    (external_repos : Option (List DeclRepo)) (packages : List (String × List String))
    (tagID : Nat) (res : TagResult) (cs : List Call) : EnsureOut :=
  match buildRules s tagID inheritance with
  | .error e => { result := .error e, state := s, cache := pc, calls := cs }
  | .ok rules =>
    let current_inheritance := getInheritanceData s name
    let (res1, s1, cs1) :=
      if current_inheritance = rules then (res, s, cs)
      else
        let istr := inhStr inheritance
        let res' : TagResult :=
          { changed := true, stdout_lines := res.stdout_lines ++ [s!"inheritance is {istr}"] }
        if check_mode then (res', s, cs)
        else (res', applySetInheritance s name rules,
              cs ++ [Call.setInheritanceData name rules true])
    let (res2, s2, cs2) :=
      match external_repos with
      | some rl =>
        let (rr, s', cs') := ensure_external_repos s1 name check_mode rl
        (({ changed := res1.changed || rr.changed,
            stdout_lines := res1.stdout_lines ++ rr.stdout_lines } : TagResult), s', cs1 ++ cs')
      | none => (res1, s1, cs1)
    let (res3, s3, cs3) :=
      if packages.isEmpty then (res2, s2, cs2)
      else
        let (pr, s', cs') := ensure_packages s2 name tagID check_mode packages
        (({ changed := res2.changed || pr.changed,
            stdout_lines := res2.stdout_lines ++ pr.stdout_lines } : TagResult), s', cs2 ++ cs')
    { result := .ok res3, state := s3, cache := pc, calls := cs3 }

/-- `ensure_tag` (koji_tag.py lines 177-298), with the global `perm_cache`
threaded in and out.  `kw` is the `**kwargs` that `run_module` always passes
(arches, perm, locked, maven_support, maven_include_all, extra).  In the
unreachable corner `perm = some ""` (falsy string, which `run_module` maps to
`None` before calling), the creation path skips resolution and creates with no
permission. -/
def ensure_tag (s0 : RemoteState) (pc0 : List (String × Nat)) (name : String)
    (check_mode : Bool) (inheritance : List DeclInh)
    (external_repos : Option (List DeclRepo)) (packages : List (String × List String))
    (kw : TagKwargs) : EnsureOut :=
  match getTag s0 name with
  | none =>
    if check_mode then
      { result := .ok { changed := true, stdout_lines := [s!"would create tag {name}"] },
        state := s0, cache := pc0, calls := [] }
    else
      let permTruthy := match kw.perm with
        | some l => !(l == "")
        | none => false
      let resolved : Except KojiErr (Option Nat) × List (String × Nat) × List Call :=
        if permTruthy then
          let (r, pc1, fetched) := get_perm_id s0.catalog pc0 (kw.perm.getD "")
          (r.map some, pc1, if fetched then [Call.getAllPerms] else [])
        else (.ok none, pc0, [])
      match resolved with
      | (.error e, pc1, fcs) => { result := .error e, state := s0, cache := pc1, calls := fcs }
      | (.ok permId, pc1, fcs) =>
        let newId := s0.nextId
        let s1 := applyCreateTag s0 name kw permId
        let res : TagResult := { changed := true, stdout_lines := [s!"created tag id {newId}"] }
        ensureTagRest s1 pc1 name check_mode inheritance external_repos packages newId res
          (fcs ++ [Call.createTag name kw permId])
  | some t =>
    let edits := computeEdits t kw
    let (res1, s1, cs1) :=
      if edits.isEmpty then (({ changed := false, stdout_lines := [] } : TagResult), s0, ([] : List Call))
      else
        let res : TagResult := { changed := true, stdout_lines := [editsStr edits] }
        if check_mode then (res, s0, ([] : List Call))
        else (res, applyEditTag2 s0 name edits, [Call.editTag2 name edits])
    ensureTagRest s1 pc0 name check_mode inheritance external_repos packages t.id res1 cs1

/-- Outcome of one remote call in `koji_cg.py`: success, or a
`koji.GenericError` carrying a message. -/
inductive CGOutcome where
  | ok
  | generic (msg : String)
deriving DecidableEq, Repr

/-- What the remote side would do for the grant and the revoke call. -/
structure CGEnv where
  grant : CGOutcome
  revoke : CGOutcome
deriving DecidableEq, Repr

inductive CGCall where
  | grantCGAccess (user : String) (name : String) (create : Bool)
  | revokeCGAccess (user : String) (name : String)
deriving DecidableEq, Repr

inductive CGFail where
  | generic (msg : String)
  | invalidState (st : String)
deriving DecidableEq, Repr

structure CGResult where
  changed : Bool
deriving DecidableEq, Repr

/-- The one remote error message that the grant path tolerates. -/
def cgTolerated : String := "User already has access to content generator"

/-- Substring test, Python `sub in s`. -/
def containsSub (s sub : String) : Bool := decide (sub.toList <:+: s.toList)

/-- The decision part of `koji_cg.run_module` (koji_cg.py lines 44-67).  The
module declares `supports_check_mode=True` but never consults
`module.check_mode`: the flag is accepted and ignored, so both calls are
issued even in check mode. -/
def koji_cg_run (env : CGEnv) (check_mode : Bool) (user : String) (name : String)
    (state : String) : Except CGFail CGResult × List CGCall :=
  let _ := check_mode
  if state == "present" then
    match env.grant with
    | .ok => (.ok { changed := true }, [CGCall.grantCGAccess user name true])
    | .generic msg =>
      if containsSub msg cgTolerated then
        (.ok { changed := false }, [CGCall.grantCGAccess user name true])
      else
        (.error (.generic msg), [CGCall.grantCGAccess user name true])
  else if state == "absent" then
    match env.revoke with
    | .ok => (.ok { changed := true }, [CGCall.revokeCGAccess user name])
    | .generic msg => (.error (.generic msg), [CGCall.revokeCGAccess user name])
  else (.error (.invalidState state), [])

/-- Calls that one declared-repo loop iteration issues in apply mode, as a
pure function of the snapshot. -/
def repoDecision (tag : String) (current : List RemoteRepo) (r : DeclRepo) : List Call :=
  match current.find? (fun c => c.external_repo_name == r.repo) with
  | some cur =>
    if r.priority == cur.priority then []
    else [Call.editTagExternalRepo tag r.repo r.priority]
  | none => [Call.addExternalRepoToTag tag r.repo r.priority]

/-- Log lines of one declared-repo loop iteration. -/
def repoMsg (tag : String) (current : List RemoteRepo) (r : DeclRepo) : List String :=
  match current.find? (fun c => c.external_repo_name == r.repo) with
  | some cur =>
    if r.priority == cur.priority then []
    else
      let rn := r.repo
      let rp := r.priority
      [s!"set {rn} repo priority to {rp}"]
  | none =>
    let rn := r.repo
    [s!"add {rn} external repo to {tag}"]

/-- State effect of one declared-repo loop iteration in apply mode. -/
def repoEffect (tag : String) (current : List RemoteRepo) (st : RemoteState) (r : DeclRepo) :
    RemoteState :=
  match current.find? (fun c => c.external_repo_name == r.repo) with
  | some cur =>
    if r.priority == cur.priority then st
    else applyEditRepo st tag r.repo r.priority
  | none => applyAddRepo st tag r.repo r.priority

/-- Log line of one repo-removal iteration. -/
def repoRemoveMsg (tag : String) (rn : String) : String :=
  s!"removed {rn} repo from {tag} tag"

/-- The flat list of declared (owner, package) pairs, in iteration order. -/
def pkgPairs (packages : List (String × List String)) : List (String × String) :=
  packages.flatMap (fun op => op.2.map (fun p => (op.1, p)))

/-- Calls of one declared-package iteration in apply mode, as a pure function
of the snapshot. -/
def pkgDecision (tag : String) (cn : List String) (ob : String → List String)
    (pr : String × String) : List Call :=
  if !(cn.contains pr.2) then [Call.packageListAdd tag pr.2 pr.1]
  else if !((ob pr.1).contains pr.2) then [Call.packageListSetOwner tag pr.2 pr.1]
  else []

/-- Log lines of one declared-package iteration. -/
def pkgMsg (cn : List String) (ob : String → List String) (pr : String × String) :
    List String :=
  let package := pr.2
  let owner := pr.1
  if !(cn.contains package) then [s!"added pkg {package}"]
  else if !((ob owner).contains package) then [s!"set {package} owner {owner}"]
  else []

/-- State effect of one declared-package iteration in apply mode. -/
def pkgEffect (tagID : Nat) (cn : List String) (ob : String → List String)
    (st : RemoteState) (pr : String × String) : RemoteState :=
  if !(cn.contains pr.2) then applyPkgAdd st tagID pr.2 pr.1
  else if !((ob pr.1).contains pr.2) then applyPkgSetOwner st tagID pr.2 pr.1
  else st

/-- Log line of one package-removal iteration. -/
def pkgRemoveMsg (package : String) : String :=
  s!"remove pkg {package}"

/-- The repo names computed for removal (Python
`set(current_names) - set(repo_names)`, in snapshot order). -/
def reposToRemove (current : List RemoteRepo) (repos : List DeclRepo) : List String :=
  (current.map (fun r => r.external_repo_name)).filter
    (fun n => !((repos.map (fun r => r.repo)).contains n))

/-- The package names computed for deletion (Python
`set(current_names) - set(all_names)`, in snapshot order). -/
def pkgDeleteNames (current_pkgs : List RemotePkg)
    (packages : List (String × List String)) : List String :=
  (current_pkgs.map (fun p => p.package_name)).filter
    (fun n => !((packages.flatMap (fun p => p.2)).contains n))

/-- The value the Python `owner` loop variable holds after the add/reassign
loop: the last declared owner. -/
def lastOwnerOf (packages : List (String × List String)) : String :=
  match packages.getLast? with
  | some p => p.1
  | none => ""

/-- The names snapshot of the package section. -/
def pkgNames (cp : List RemotePkg) : List String :=
  cp.map (fun p => p.package_name)

/-- The `current_owned` snapshot of the package section, as a function. -/
def ownedBySnap (cp : List RemotePkg) : String → List String :=
  fun o => (cp.filter (fun p => p.owner_name == o)).map (fun p => p.package_name)

/-- The first declared parent that does not resolve remotely, if any. -/
def firstUnresolved (s : RemoteState) : List DeclInh → Option String
  | [] => none
  | r :: rest => if (getTag s r.parent).isSome then firstUnresolved s rest else some r.parent

/-- Example tag used by concrete witnesses and counterexamples. -/
def exTag : TagInfo :=
  { id := 1, arches := some "x86_64", perm := none, locked := false,
    maven_support := false, maven_include_all := false, extra := [("a", 1), ("b", 2)] }

/-- Example desired kwargs matching `exTag`. -/
def exKw : TagKwargs :=
  { arches := some "x86_64", perm := none, locked := false,
    maven_support := false, maven_include_all := false, extra := [("a", 1), ("b", 2)] }

/-- Example remote state: tag "ceph" exists with one external repo and one
package "foo" owned by "carol". -/
def exState : RemoteState :=
  { tags := [("ceph", exTag)], inher := [("ceph", [])],
    repos := [("ceph", [⟨"centos7-cr", 1⟩])], pkgs := [(1, [⟨"foo", "carol"⟩])],
    nextId := 5, catalog := [("admin", 3)] }

/-- Example declared packages naming "foo" under two different owners. -/
def exPackages : List (String × List String) := [("alice", ["foo"]), ("bob", ["foo"])]

/-- Example declared kwargs whose extra drops key "b". -/
def exKwA : TagKwargs :=
  { arches := some "x86_64", perm := none, locked := false,
    maven_support := false, maven_include_all := false, extra := [("a", 1)] }

/-- Inheritance-mutating calls (for trace filtering). -/
def Call.isInh : Call → Bool
  | .setInheritanceData _ _ _ => true
  | _ => false

/-- The inheritance rules `ensure_tag` builds for `exState` and the declared
list `[{parent := "ceph", priority := 0}]`. -/
def exRules : List InheritanceRule :=
  [{ child_id := 1, intransitive := false, maxdepth := none, name := "ceph",
     noconfig := false, parent_id := 1, pkg_filter := "", priority := 0 }]

/-- External-repo calls (for trace filtering). -/
def Call.isRepo : Call → Bool
  | .addExternalRepoToTag _ _ _ => true
  | .editTagExternalRepo _ _ _ => true
  | .removeExternalRepoFromTag _ _ => true
  | _ => false

/-- The repo name an external-repo call is about, if any. -/
def Call.repoArg : Call → Option String
  | .addExternalRepoToTag _ r _ => some r
  | .editTagExternalRepo _ r _ => some r
  | .removeExternalRepoFromTag _ r => some r
  | _ => none

/-- Package-section calls, including the `listPackages` fetch. -/
def Call.isPkg : Call → Bool
  | .packageListAdd _ _ _ => true
  | .packageListSetOwner _ _ _ => true
  | .packageListRemove _ _ _ => true
  | .listPackages _ => true
  | _ => false

/-- The package name a package-list call is about, if any. -/
def Call.pkgArg : Call → Option String
  | .packageListAdd _ q _ => some q
  | .packageListSetOwner _ q _ => some q
  | .packageListRemove _ q _ => some q
  | _ => none

/-- Lookup of a tag's external-repo list by repo name (the `repo_name in
current` / `current[repo_name]` accesses of `ensure_external_repos`). -/
def findRepo (l : List RemoteRepo) (n : String) : Option RemoteRepo :=
  l.find? (fun c => c.external_repo_name == n)

/-- The per-tag repo-list effect of one declared-repo iteration in apply
mode: the decision reads the `current` snapshot, the effect applies to the
live list. -/
def repoListEffect (current : List RemoteRepo) (cur : List RemoteRepo) (r : DeclRepo) :
    List RemoteRepo :=
  match findRepo current r.repo with
  | some c =>
    if r.priority == c.priority then cur
    else cur.map (fun x =>
      if x.external_repo_name == r.repo then { x with priority := r.priority } else x)
  | none => cur ++ [⟨r.repo, r.priority⟩]

/-- Lookup of a tag's package list by package name. -/
def findPkg (l : List RemotePkg) (n : String) : Option RemotePkg :=
  l.find? (fun p => p.package_name == n)

/-- The per-tag package-list effect of one declared (owner, package)
iteration in apply mode: decisions from the snapshot names `cn` and
ownership map `ob`, hub-side add/set-owner semantics on the live list. -/
def pkgListEffect (cn : List String) (ob : String → List String)
    (cur : List RemotePkg) (pr : String × String) : List RemotePkg :=
  if !(cn.contains pr.2) then
    (if (findPkg cur pr.2).isSome then
       cur.map (fun p =>
         if p.package_name == pr.2 then { p with owner_name := pr.1 } else p)
     else cur ++ [⟨pr.2, pr.1⟩])
  else if !((ob pr.1).contains pr.2) then
    cur.map (fun p =>
      if p.package_name == pr.2 then { p with owner_name := pr.1 } else p)
  else cur

/-- A tag's external-repo list agrees with the declared list: every declared
repo is bound with the declared priority, and no undeclared repo name is
bound. -/
def repoConverged (L : List RemoteRepo) (rl : List DeclRepo) : Prop :=
  (∀ r ∈ rl, ∃ c, findRepo L r.repo = some c ∧ c.priority = r.priority) ∧
  (∀ x ∈ L, x.external_repo_name ∈ rl.map DeclRepo.repo)

/-- A tag's package list agrees with the declared owner→packages mapping:
every declared package is listed under its declared owner, and no
undeclared package is listed. -/
def pkgConverged (P : List RemotePkg) (packages : List (String × List String)) : Prop :=
  (∀ pr ∈ pkgPairs packages, ∃ c, findPkg P pr.2 = some c ∧ c.owner_name = pr.1) ∧
  (∀ x ∈ P, x.package_name ∈ packages.flatMap (fun p => p.2))

section AssocLemmas

variable {κ α : Type} [BEq κ] [LawfulBEq κ]

theorem alookup_nil (k : κ) : alookup ([] : List (κ × α)) k = none := rfl

theorem alookup_cons (p : κ × α) (l : List (κ × α)) (k : κ) :
    alookup (p :: l) k = if p.1 == k then some p.2 else alookup l k := by
  by_cases h : p.1 == k
  · simp [alookup, List.find?_cons_of_pos, h]
  · simp only [Bool.not_eq_true] at h
    simp [alookup, List.find?_cons_of_neg, h]

theorem alookup_append (l m : List (κ × α)) (k : κ) :
    alookup (l ++ m) k = ((alookup l k).orElse fun _ => alookup m k) := by
  cases hf : l.find? (fun p => p.1 == k) <;>
    simp [alookup, List.find?_append, hf, Option.orElse]

theorem alookup_eq_none_iff (l : List (κ × α)) (k : κ) :
    alookup l k = none ↔ k ∉ l.map Prod.fst := by
  induction l with
  | nil => simp [alookup_nil]
  | cons p t ih =>
    rw [alookup_cons]
    by_cases h : p.1 == k
    · simp [h, eq_of_beq h]
    · have h' : p.1 ≠ k := fun he => h (by simp [he])
      simp [h, ih, Ne.symm h']

theorem alookup_isSome_iff (l : List (κ × α)) (k : κ) :
    (alookup l k).isSome = true ↔ k ∈ l.map Prod.fst := by
  rw [← Decidable.not_iff_not, ← alookup_eq_none_iff l k]
  cases alookup l k <;> simp

theorem alookup_map_set_self (l : List (κ × α)) (k : κ) (v : α)
    (hf : (l.find? (fun p => p.1 == k)).isSome = true) :
    alookup (l.map (fun p => if p.1 == k then (k, v) else p)) k = some v := by
  induction l with
  | nil => simp at hf
  | cons p t ih =>
    by_cases hp : p.1 == k
    · simp [alookup_cons, hp]
    · rw [List.find?_cons_of_neg _ (by simpa using hp)] at hf
      simpa [alookup_cons, hp] using ih hf

theorem alookup_map_set_ne (l : List (κ × α)) (k k' : κ) (v : α) (h : k' ≠ k) :
    alookup (l.map (fun p => if p.1 == k then (k, v) else p)) k' = alookup l k' := by
  induction l with
  | nil => rfl
  | cons p t ih =>
    by_cases hp : p.1 == k
    · have h1 : ¬ ((k : κ) == k') = true := by
        simp only [beq_iff_eq]
        exact fun he => h he.symm
      have h2 : ¬ (p.1 == k') = true := by
        simp only [beq_iff_eq, eq_of_beq hp]
        exact fun he => h he.symm
      simpa [alookup_cons, hp, h1, h2] using ih
    · simp only [List.map_cons, if_neg hp, alookup_cons]
      by_cases hpk' : p.1 == k'
      · simp [hpk']
      · simpa [hpk'] using ih

theorem alookup_aset_self (l : List (κ × α)) (k : κ) (v : α) :
    alookup (aset l k v) k = some v := by
  unfold aset
  split
  · exact alookup_map_set_self l k v (by assumption)
  · rw [alookup_append]
    next hf =>
      have : l.find? (fun p => p.1 == k) = none := by
        cases h : l.find? (fun p => p.1 == k)
        · rfl
        · exact absurd (by simp [h]) hf
      simp [alookup, this, Option.orElse, alookup_cons]

theorem alookup_aset_ne (l : List (κ × α)) (k k' : κ) (v : α) (h : k' ≠ k) :
    alookup (aset l k v) k' = alookup l k' := by
  unfold aset
  split
  · exact alookup_map_set_ne l k k' v h
  · rw [alookup_append]
    have h1 : ¬ ((k : κ) == k') = true := by
      simp only [beq_iff_eq]
      exact fun he => h he.symm
    cases hk : alookup l k' <;> simp [hk, Option.orElse, alookup_cons, alookup_nil, h1]

theorem alookup_aset (l : List (κ × α)) (k k' : κ) (v : α) :
    alookup (aset l k v) k' = if k' == k then some v else alookup l k' := by
  by_cases h : k' = k
  · subst h
    simp [alookup_aset_self]
  · have hb : ¬ ((k' : κ) == k) = true := by simpa using h
    simp [hb, alookup_aset_ne l k k' v h]

end AssocLemmas

section DictLemmas

variable {κ α : Type} [BEq κ] [LawfulBEq κ] [BEq α] [LawfulBEq α]

theorem alookup_dictRemove_mem (l : List (κ × α)) (ks : List κ) (k : κ)
    (h : ks.contains k = true) : alookup (dictRemove l ks) k = none := by
  induction l with
  | nil => rfl
  | cons p t ih =>
    rw [dictRemove, List.filter_cons]
    cases hc : ks.contains p.1 with
    | true =>
      rw [if_neg (by simp [hc])]
      exact ih
    | false =>
      have hpk : ¬ (p.1 == k) = true := by
        intro hb
        rw [eq_of_beq hb] at hc
        rw [h] at hc
        exact Bool.noConfusion hc
      rw [if_pos (by simp [hc]), alookup_cons, if_neg hpk]
      exact ih

theorem alookup_dictRemove_not_mem (l : List (κ × α)) (ks : List κ) (k : κ)
    (h : ks.contains k = false) : alookup (dictRemove l ks) k = alookup l k := by
  induction l with
  | nil => rfl
  | cons p t ih =>
    rw [dictRemove, List.filter_cons]
    cases hc : ks.contains p.1 with
    | true =>
      have hpk : ¬ (p.1 == k) = true := by
        intro hb
        rw [eq_of_beq hb] at hc
        rw [h] at hc
        exact Bool.noConfusion hc
      rw [if_neg (by simp [hc]), alookup_cons, if_neg hpk]
      exact ih
    | false =>
      rw [if_pos (by simp [hc]), alookup_cons, alookup_cons]
      by_cases hpk : p.1 == k
      · rw [if_pos hpk, if_pos hpk]
      · rw [if_neg hpk, if_neg hpk]
        exact ih

theorem alookup_dictUpdate_nodup (d e : List (κ × α))
    (he : (e.map Prod.fst).Nodup) (k : κ) :
    alookup (dictUpdate d e) k = ((alookup e k).orElse fun _ => alookup d k) := by
  induction e generalizing d with
  | nil => simp [dictUpdate, alookup_nil, Option.orElse]
  | cons p t ih =>
    simp only [List.map_cons, List.nodup_cons] at he
    have step : dictUpdate d (p :: t) = dictUpdate (aset d p.1 p.2) t := rfl
    rw [step, ih _ he.2, alookup_cons]
    by_cases hpk : p.1 == k
    · have hk : k = p.1 := (eq_of_beq hpk).symm
      subst hk
      have hnt : alookup t p.1 = none := (alookup_eq_none_iff t p.1).mpr he.1
      simp [hpk, hnt, Option.orElse, alookup_aset_self]
    · have hne : k ≠ p.1 := fun hkk => hpk (by simp [hkk])
      rw [alookup_aset_ne d p.1 k p.2 hne]
      simp [hpk]

theorem dictEq_lookup (a b : List (κ × α)) (h : dictEq a b = true) (k : κ) :
    alookup a k = alookup b k := by
  simp only [dictEq, Bool.and_eq_true, List.all_eq_true] at h
  by_cases ha : k ∈ a.map Prod.fst
  · exact eq_of_beq (h.1 k ha)
  · by_cases hb : k ∈ b.map Prod.fst
    · exact eq_of_beq (h.2 k hb)
    · rw [(alookup_eq_none_iff a k).mpr ha, (alookup_eq_none_iff b k).mpr hb]

theorem dictEq_of_lookup (a b : List (κ × α)) (h : ∀ k, alookup a k = alookup b k) :
    dictEq a b = true := by
  simp only [dictEq, Bool.and_eq_true, List.all_eq_true]
  refine ⟨fun k _ => ?_, fun k _ => ?_⟩ <;> rw [h k] <;> exact beq_self_eq_true _

theorem dictEq_refl (a : List (κ × α)) : dictEq a a = true :=
  dictEq_of_lookup a a (fun _ => rfl)

end DictLemmas

section StatePreservation

theorem applyEditTag2_of_none (s : RemoteState) (n : String) (e : Edits)
    (h : getTag s n = none) : applyEditTag2 s n e = s := by
  unfold applyEditTag2
  rw [show alookup s.tags n = none from h]

theorem applyEditTag2_inher (s : RemoteState) (n : String) (e : Edits) :
    (applyEditTag2 s n e).inher = s.inher := by
  unfold applyEditTag2
  cases alookup s.tags n <;> rfl

theorem applyEditTag2_repos (s : RemoteState) (n : String) (e : Edits) :
    (applyEditTag2 s n e).repos = s.repos := by
  unfold applyEditTag2
  cases alookup s.tags n <;> rfl

theorem applyEditTag2_pkgs (s : RemoteState) (n : String) (e : Edits) :
    (applyEditTag2 s n e).pkgs = s.pkgs := by
  unfold applyEditTag2
  cases alookup s.tags n <;> rfl

theorem applyEditTag2_catalog (s : RemoteState) (n : String) (e : Edits) :
    (applyEditTag2 s n e).catalog = s.catalog := by
  unfold applyEditTag2
  cases alookup s.tags n <;> rfl

theorem getTag_applyEditTag2 (s : RemoteState) (n : String) (e : Edits) (t : TagInfo)
    (h : getTag s n = some t) (x : String) :
    getTag (applyEditTag2 s n e) x = if x == n then some (applyEdits t e) else getTag s x := by
  unfold applyEditTag2
  rw [show alookup s.tags n = some t from h]
  show alookup (aset s.tags n (applyEdits t e)) x = _
  rw [alookup_aset]
  rfl

theorem applyEdits_id (t : TagInfo) (e : Edits) : (applyEdits t e).id = t.id := rfl

theorem getTag_applySetInheritance (s : RemoteState) (n : String)
    (rules : List InheritanceRule) (x : String) :
    getTag (applySetInheritance s n rules) x = getTag s x := rfl

theorem applySetInheritance_tags (s : RemoteState) (n : String) (rules : List InheritanceRule) :
    (applySetInheritance s n rules).tags = s.tags := rfl

theorem applySetInheritance_repos (s : RemoteState) (n : String) (rules : List InheritanceRule) :
    (applySetInheritance s n rules).repos = s.repos := rfl

theorem applySetInheritance_pkgs (s : RemoteState) (n : String) (rules : List InheritanceRule) :
    (applySetInheritance s n rules).pkgs = s.pkgs := rfl

theorem getInheritanceData_applySetInheritance (s : RemoteState) (n : String)
    (rules : List InheritanceRule) (x : String) :
    getInheritanceData (applySetInheritance s n rules) x =
      if x == n then rules else getInheritanceData s x := by
  unfold getInheritanceData applySetInheritance
  show (alookup (aset s.inher n rules) x).getD [] = _
  rw [alookup_aset]
  by_cases h : x == n
  · rw [if_pos h, if_pos h]
    rfl
  · rw [if_neg h, if_neg h]

theorem applyAddRepo_tags (s : RemoteState) (tag repo : String) (p : Int) :
    (applyAddRepo s tag repo p).tags = s.tags := rfl

theorem applyAddRepo_inher (s : RemoteState) (tag repo : String) (p : Int) :
    (applyAddRepo s tag repo p).inher = s.inher := rfl

theorem applyAddRepo_pkgs (s : RemoteState) (tag repo : String) (p : Int) :
    (applyAddRepo s tag repo p).pkgs = s.pkgs := rfl

theorem applyEditRepo_tags (s : RemoteState) (tag repo : String) (p : Int) :
    (applyEditRepo s tag repo p).tags = s.tags := rfl

theorem applyEditRepo_inher (s : RemoteState) (tag repo : String) (p : Int) :
    (applyEditRepo s tag repo p).inher = s.inher := rfl

theorem applyEditRepo_pkgs (s : RemoteState) (tag repo : String) (p : Int) :
    (applyEditRepo s tag repo p).pkgs = s.pkgs := rfl

theorem applyRemoveRepo_tags (s : RemoteState) (tag repo : String) :
    (applyRemoveRepo s tag repo).tags = s.tags := rfl

theorem applyRemoveRepo_inher (s : RemoteState) (tag repo : String) :
    (applyRemoveRepo s tag repo).inher = s.inher := rfl

theorem applyRemoveRepo_pkgs (s : RemoteState) (tag repo : String) :
    (applyRemoveRepo s tag repo).pkgs = s.pkgs := rfl

theorem getTagExternalRepos_applyAddRepo_self (s : RemoteState) (tag repo : String) (p : Int) :
    getTagExternalRepos (applyAddRepo s tag repo p) tag =
      getTagExternalRepos s tag ++ [⟨repo, p⟩] := by
  unfold getTagExternalRepos applyAddRepo
  show (alookup (aset s.repos tag _) tag).getD [] = _
  rw [alookup_aset_self]
  rfl

theorem getTagExternalRepos_applyEditRepo_self (s : RemoteState) (tag repo : String) (p : Int) :
    getTagExternalRepos (applyEditRepo s tag repo p) tag =
      (getTagExternalRepos s tag).map
        (fun r => if r.external_repo_name == repo then { r with priority := p } else r) := by
  unfold getTagExternalRepos applyEditRepo
  show (alookup (aset s.repos tag _) tag).getD [] = _
  rw [alookup_aset_self]
  rfl

theorem getTagExternalRepos_applyRemoveRepo_self (s : RemoteState) (tag repo : String) :
    getTagExternalRepos (applyRemoveRepo s tag repo) tag =
      (getTagExternalRepos s tag).filter (fun r => !(r.external_repo_name == repo)) := by
  unfold getTagExternalRepos applyRemoveRepo
  show (alookup (aset s.repos tag _) tag).getD [] = _
  rw [alookup_aset_self]
  rfl

theorem applyPkgAdd_tags (s : RemoteState) (tagID : Nat) (pkg owner : String) :
    (applyPkgAdd s tagID pkg owner).tags = s.tags := rfl

theorem applyPkgAdd_inher (s : RemoteState) (tagID : Nat) (pkg owner : String) :
    (applyPkgAdd s tagID pkg owner).inher = s.inher := rfl

theorem applyPkgAdd_repos (s : RemoteState) (tagID : Nat) (pkg owner : String) :
    (applyPkgAdd s tagID pkg owner).repos = s.repos := rfl

theorem applyPkgSetOwner_tags (s : RemoteState) (tagID : Nat) (pkg owner : String) :
    (applyPkgSetOwner s tagID pkg owner).tags = s.tags := rfl

theorem applyPkgSetOwner_inher (s : RemoteState) (tagID : Nat) (pkg owner : String) :
    (applyPkgSetOwner s tagID pkg owner).inher = s.inher := rfl

theorem applyPkgSetOwner_repos (s : RemoteState) (tagID : Nat) (pkg owner : String) :
    (applyPkgSetOwner s tagID pkg owner).repos = s.repos := rfl

theorem applyPkgRemove_tags (s : RemoteState) (tagID : Nat) (pkg : String) :
    (applyPkgRemove s tagID pkg).tags = s.tags := rfl

theorem applyPkgRemove_inher (s : RemoteState) (tagID : Nat) (pkg : String) :
    (applyPkgRemove s tagID pkg).inher = s.inher := rfl

theorem applyPkgRemove_repos (s : RemoteState) (tagID : Nat) (pkg : String) :
    (applyPkgRemove s tagID pkg).repos = s.repos := rfl

theorem listPackagesOf_applyPkgAdd_self (s : RemoteState) (tagID : Nat) (pkg owner : String) :
    listPackagesOf (applyPkgAdd s tagID pkg owner) tagID =
      (let cur := listPackagesOf s tagID
       if (cur.find? (fun p => p.package_name == pkg)).isSome then
         cur.map (fun p => if p.package_name == pkg then { p with owner_name := owner } else p)
       else cur ++ [⟨pkg, owner⟩]) := by
  unfold listPackagesOf applyPkgAdd
  show (alookup (aset s.pkgs tagID _) tagID).getD [] = _
  rw [alookup_aset_self]
  rfl

theorem listPackagesOf_applyPkgSetOwner_self (s : RemoteState) (tagID : Nat) (pkg owner : String) :
    listPackagesOf (applyPkgSetOwner s tagID pkg owner) tagID =
      (listPackagesOf s tagID).map
        (fun p => if p.package_name == pkg then { p with owner_name := owner } else p) := by
  unfold listPackagesOf applyPkgSetOwner
  show (alookup (aset s.pkgs tagID _) tagID).getD [] = _
  rw [alookup_aset_self]
  rfl

theorem listPackagesOf_applyPkgRemove_self (s : RemoteState) (tagID : Nat) (pkg : String) :
    listPackagesOf (applyPkgRemove s tagID pkg) tagID =
      (listPackagesOf s tagID).filter (fun p => !(p.package_name == pkg)) := by
  unfold listPackagesOf applyPkgRemove
  show (alookup (aset s.pkgs tagID _) tagID).getD [] = _
  rw [alookup_aset_self]
  rfl

theorem getTag_applyCreateTag (s : RemoteState) (n : String) (kw : TagKwargs)
    (pid : Option Nat) (x : String) :
    getTag (applyCreateTag s n kw pid) x =
      if x == n then
        some { id := s.nextId, arches := kw.arches, perm := pid.bind (idToName s.catalog),
               locked := kw.locked, maven_support := kw.maven_support,
               maven_include_all := kw.maven_include_all, extra := kw.extra }
      else getTag s x := by
  unfold getTag applyCreateTag
  show alookup (aset s.tags n _) x = _
  rw [alookup_aset]

theorem getInheritanceData_applyCreateTag (s : RemoteState) (n : String) (kw : TagKwargs)
    (pid : Option Nat) (x : String) :
    getInheritanceData (applyCreateTag s n kw pid) x =
      if x == n then [] else getInheritanceData s x := by
  unfold getInheritanceData applyCreateTag
  show (alookup (aset s.inher n []) x).getD [] = _
  rw [alookup_aset]
  by_cases h : x == n
  · rw [if_pos h, if_pos h]
    rfl
  · rw [if_neg h, if_neg h]

theorem getTagExternalRepos_applyCreateTag (s : RemoteState) (n : String) (kw : TagKwargs)
    (pid : Option Nat) (x : String) :
    getTagExternalRepos (applyCreateTag s n kw pid) x =
      if x == n then [] else getTagExternalRepos s x := by
  unfold getTagExternalRepos applyCreateTag
  show (alookup (aset s.repos n []) x).getD [] = _
  rw [alookup_aset]
  by_cases h : x == n
  · rw [if_pos h, if_pos h]
    rfl
  · rw [if_neg h, if_neg h]

theorem listPackagesOf_applyCreateTag (s : RemoteState) (n : String) (kw : TagKwargs)
    (pid : Option Nat) (x : Nat) :
    listPackagesOf (applyCreateTag s n kw pid) x =
      if x == s.nextId then [] else listPackagesOf s x := by
  unfold listPackagesOf applyCreateTag
  show (alookup (aset s.pkgs s.nextId []) x).getD [] = _
  rw [alookup_aset]
  by_cases h : x == s.nextId
  · rw [if_pos h, if_pos h]
    rfl
  · rw [if_neg h, if_neg h]

theorem applyCreateTag_catalog (s : RemoteState) (n : String) (kw : TagKwargs)
    (pid : Option Nat) : (applyCreateTag s n kw pid).catalog = s.catalog := rfl

theorem foldl_preserve {σ γ δ : Type} (f : σ → γ → σ) (proj : σ → δ)
    (h : ∀ st x, proj (f st x) = proj st) (l : List γ) (st : σ) :
    proj (l.foldl f st) = proj st := by
  induction l generalizing st with
  | nil => rfl
  | cons a t ih => rw [List.foldl_cons, ih, h]

end StatePreservation

theorem repoLoop_spec_check (tag : String) (current : List RemoteRepo)
    (l : List DeclRepo) (res : TagResult) (st : RemoteState) (cs : List Call) :
    l.foldl (repoStep tag true current) (res, st, cs) =
      ({ changed := res.changed || l.any (fun r => !(repoDecision tag current r).isEmpty),
         stdout_lines := res.stdout_lines ++ l.flatMap (repoMsg tag current) }, st, cs) := by
  induction l generalizing res with
  | nil => simp
  | cons r t ih =>
    rw [List.foldl_cons]
    cases hf : current.find? (fun c => c.external_repo_name == r.repo) with
    | some cur =>
      by_cases hp : r.priority == cur.priority
      · have hp' : r.priority = cur.priority := eq_of_beq hp
        have hstep : repoStep tag true current (res, st, cs) r = (res, st, cs) := by
          simp [repoStep, hf, hp]
        rw [hstep, ih]
        simp [repoDecision, repoMsg, hf, hp']
      · have hp' : ¬ r.priority = cur.priority := by simpa using hp
        have hstep : repoStep tag true current (res, st, cs) r =
            ({ changed := true, stdout_lines := res.stdout_lines ++
               [s!"set {r.repo} repo priority to {r.priority}"] }, st, cs) := by
          simp [repoStep, hf, hp]
        rw [hstep, ih]
        simp [repoDecision, repoMsg, hf, hp']
    | none =>
      have hstep : repoStep tag true current (res, st, cs) r =
          ({ changed := true, stdout_lines := res.stdout_lines ++
             [s!"add {r.repo} external repo to {tag}"] }, st, cs) := by
        simp [repoStep, hf]
      rw [hstep, ih]
      simp [repoDecision, repoMsg, hf]

theorem repoLoop_spec_apply (tag : String) (current : List RemoteRepo)
    (l : List DeclRepo) (res : TagResult) (st : RemoteState) (cs : List Call) :
    l.foldl (repoStep tag false current) (res, st, cs) =
      ({ changed := res.changed || l.any (fun r => !(repoDecision tag current r).isEmpty),
         stdout_lines := res.stdout_lines ++ l.flatMap (repoMsg tag current) },
       l.foldl (repoEffect tag current) st,
       cs ++ l.flatMap (repoDecision tag current)) := by
  induction l generalizing res st cs with
  | nil => simp
  | cons r t ih =>
    rw [List.foldl_cons, List.foldl_cons]
    cases hf : current.find? (fun c => c.external_repo_name == r.repo) with
    | some cur =>
      by_cases hp : r.priority == cur.priority
      · have hp' : r.priority = cur.priority := eq_of_beq hp
        have hstep : repoStep tag false current (res, st, cs) r = (res, st, cs) := by
          simp [repoStep, hf, hp]
        have heff : repoEffect tag current st r = st := by
          simp [repoEffect, hf, hp]
        rw [hstep, heff, ih]
        simp [repoDecision, repoMsg, hf, hp']
      · have hp' : ¬ r.priority = cur.priority := by simpa using hp
        have hstep : repoStep tag false current (res, st, cs) r =
            ({ changed := true, stdout_lines := res.stdout_lines ++
               [s!"set {r.repo} repo priority to {r.priority}"] },
             applyEditRepo st tag r.repo r.priority,
             cs ++ [Call.editTagExternalRepo tag r.repo r.priority]) := by
          simp [repoStep, hf, hp]
        have heff : repoEffect tag current st r = applyEditRepo st tag r.repo r.priority := by
          simp [repoEffect, hf, hp]
        rw [hstep, heff, ih]
        simp [repoDecision, repoMsg, hf, hp']
    | none =>
      have hstep : repoStep tag false current (res, st, cs) r =
          ({ changed := true, stdout_lines := res.stdout_lines ++
             [s!"add {r.repo} external repo to {tag}"] },
           applyAddRepo st tag r.repo r.priority,
           cs ++ [Call.addExternalRepoToTag tag r.repo r.priority]) := by
        simp [repoStep, hf]
      have heff : repoEffect tag current st r = applyAddRepo st tag r.repo r.priority := by
        simp [repoEffect, hf]
      rw [hstep, heff, ih]
      simp [repoDecision, repoMsg, hf]

theorem repoRemoveLoop_spec_check (tag : String) (ns : List String)
    (res : TagResult) (st : RemoteState) (cs : List Call) :
    ns.foldl (repoRemoveStep tag true) (res, st, cs) =
      ({ changed := res.changed || !ns.isEmpty,
         stdout_lines := res.stdout_lines ++ ns.map (repoRemoveMsg tag) }, st, cs) := by
  induction ns generalizing res with
  | nil => simp
  | cons n t ih =>
    rw [List.foldl_cons]
    have hstep : repoRemoveStep tag true (res, st, cs) n =
        ({ changed := true, stdout_lines := res.stdout_lines ++ [repoRemoveMsg tag n] },
         st, cs) := rfl
    rw [hstep, ih]
    simp [repoRemoveMsg]

theorem repoRemoveLoop_spec_apply (tag : String) (ns : List String)
    (res : TagResult) (st : RemoteState) (cs : List Call) :
    ns.foldl (repoRemoveStep tag false) (res, st, cs) =
      ({ changed := res.changed || !ns.isEmpty,
         stdout_lines := res.stdout_lines ++ ns.map (repoRemoveMsg tag) },
       ns.foldl (fun st n => applyRemoveRepo st tag n) st,
       cs ++ ns.map (Call.removeExternalRepoFromTag tag)) := by
  induction ns generalizing res st cs with
  | nil => simp
  | cons n t ih =>
    rw [List.foldl_cons, List.foldl_cons]
    have hstep : repoRemoveStep tag false (res, st, cs) n =
        ({ changed := true, stdout_lines := res.stdout_lines ++ [repoRemoveMsg tag n] },
         applyRemoveRepo st tag n, cs ++ [Call.removeExternalRepoFromTag tag n]) := rfl
    rw [hstep, ih]
    simp [repoRemoveMsg]

theorem pkg_double_foldl (tag : String) (tagID : Nat) (check : Bool)
    (cn : List String) (ob : String → List String)
    (packages : List (String × List String)) (acc : TagResult × RemoteState × List Call) :
    packages.foldl
        (fun acc op => op.2.foldl (pkgStep tag tagID check cn ob op.1) acc) acc =
      (pkgPairs packages).foldl
        (fun acc pr => pkgStep tag tagID check cn ob pr.1 acc pr.2) acc := by
  induction packages generalizing acc with
  | nil => rfl
  | cons op t ih =>
    rw [List.foldl_cons]
    show _ = ((op.2.map (fun p => (op.1, p)) ++ pkgPairs t).foldl _ acc)
    rw [List.foldl_append, ih, List.foldl_map]

theorem pkgLoop_spec_check (tag : String) (tagID : Nat) (cn : List String)
    (ob : String → List String) (l : List (String × String))
    (res : TagResult) (st : RemoteState) (cs : List Call) :
    l.foldl (fun acc pr => pkgStep tag tagID true cn ob pr.1 acc pr.2) (res, st, cs) =
      ({ changed := res.changed || l.any (fun pr => !(pkgDecision tag cn ob pr).isEmpty),
         stdout_lines := res.stdout_lines ++ l.flatMap (pkgMsg cn ob) }, st, cs) := by
  induction l generalizing res with
  | nil => simp
  | cons pr t ih =>
    rw [List.foldl_cons]
    by_cases h1 : cn.contains pr.2
    · have h1' : pr.2 ∈ cn := by simpa using h1
      by_cases h2 : (ob pr.1).contains pr.2
      · have h2' : pr.2 ∈ ob pr.1 := by simpa using h2
        have hstep : pkgStep tag tagID true cn ob pr.1 (res, st, cs) pr.2 = (res, st, cs) := by
          simp [pkgStep, h1, h2, h1', h2']
        rw [hstep, ih]
        simp [pkgDecision, pkgMsg, h1, h2, h1', h2']
      · have h2' : pr.2 ∉ ob pr.1 := by simpa using h2
        have hstep : pkgStep tag tagID true cn ob pr.1 (res, st, cs) pr.2 =
            ({ changed := true, stdout_lines := res.stdout_lines ++
               [s!"set {pr.2} owner {pr.1}"] }, st, cs) := by
          simp [pkgStep, h1, h2, h1', h2']
        rw [hstep, ih]
        simp [pkgDecision, pkgMsg, h1, h2, h1', h2']
    · have h1' : pr.2 ∉ cn := by simpa using h1
      have hstep : pkgStep tag tagID true cn ob pr.1 (res, st, cs) pr.2 =
          ({ changed := true, stdout_lines := res.stdout_lines ++
             [s!"added pkg {pr.2}"] }, st, cs) := by
        simp [pkgStep, h1, h1']
      rw [hstep, ih]
      simp [pkgDecision, pkgMsg, h1, h1']

theorem pkgLoop_spec_apply (tag : String) (tagID : Nat) (cn : List String)
    (ob : String → List String) (l : List (String × String))
    (res : TagResult) (st : RemoteState) (cs : List Call) :
    l.foldl (fun acc pr => pkgStep tag tagID false cn ob pr.1 acc pr.2) (res, st, cs) =
      ({ changed := res.changed || l.any (fun pr => !(pkgDecision tag cn ob pr).isEmpty),
         stdout_lines := res.stdout_lines ++ l.flatMap (pkgMsg cn ob) },
       l.foldl (pkgEffect tagID cn ob) st,
       cs ++ l.flatMap (pkgDecision tag cn ob)) := by
  induction l generalizing res st cs with
  | nil => simp
  | cons pr t ih =>
    rw [List.foldl_cons, List.foldl_cons]
    by_cases h1 : cn.contains pr.2
    · have h1' : pr.2 ∈ cn := by simpa using h1
      by_cases h2 : (ob pr.1).contains pr.2
      · have h2' : pr.2 ∈ ob pr.1 := by simpa using h2
        have hstep : pkgStep tag tagID false cn ob pr.1 (res, st, cs) pr.2 = (res, st, cs) := by
          simp [pkgStep, h1, h2, h1', h2']
        have heff : pkgEffect tagID cn ob st pr = st := by
          simp [pkgEffect, h1, h2, h1', h2']
        rw [hstep, heff, ih]
        simp [pkgDecision, pkgMsg, h1, h2, h1', h2']
      · have h2' : pr.2 ∉ ob pr.1 := by simpa using h2
        have hstep : pkgStep tag tagID false cn ob pr.1 (res, st, cs) pr.2 =
            ({ changed := true, stdout_lines := res.stdout_lines ++
               [s!"set {pr.2} owner {pr.1}"] },
             applyPkgSetOwner st tagID pr.2 pr.1,
             cs ++ [Call.packageListSetOwner tag pr.2 pr.1]) := by
          simp [pkgStep, h1, h2, h1', h2']
        have heff : pkgEffect tagID cn ob st pr = applyPkgSetOwner st tagID pr.2 pr.1 := by
          simp [pkgEffect, h1, h2, h1', h2']
        rw [hstep, heff, ih]
        simp [pkgDecision, pkgMsg, h1, h2, h1', h2']
    · have h1' : pr.2 ∉ cn := by simpa using h1
      have hstep : pkgStep tag tagID false cn ob pr.1 (res, st, cs) pr.2 =
          ({ changed := true, stdout_lines := res.stdout_lines ++
             [s!"added pkg {pr.2}"] },
           applyPkgAdd st tagID pr.2 pr.1,
           cs ++ [Call.packageListAdd tag pr.2 pr.1]) := by
        simp [pkgStep, h1, h1']
      have heff : pkgEffect tagID cn ob st pr = applyPkgAdd st tagID pr.2 pr.1 := by
        simp [pkgEffect, h1, h1']
      rw [hstep, heff, ih]
      simp [pkgDecision, pkgMsg, h1, h1']

theorem pkgRemoveLoop_spec_check (tag : String) (tagID : Nat) (owner : String)
    (ns : List String) (res : TagResult) (st : RemoteState) (cs : List Call) :
    ns.foldl (pkgRemoveStep tag tagID true owner) (res, st, cs) =
      ({ changed := res.changed || !ns.isEmpty,
         stdout_lines := res.stdout_lines ++ ns.map pkgRemoveMsg }, st, cs) := by
  induction ns generalizing res with
  | nil => simp
  | cons n t ih =>
    rw [List.foldl_cons]
    have hstep : pkgRemoveStep tag tagID true owner (res, st, cs) n =
        ({ changed := true, stdout_lines := res.stdout_lines ++ [pkgRemoveMsg n] },
         st, cs) := rfl
    rw [hstep, ih]
    simp [pkgRemoveMsg]

theorem pkgRemoveLoop_spec_apply (tag : String) (tagID : Nat) (owner : String)
    (ns : List String) (res : TagResult) (st : RemoteState) (cs : List Call) :
    ns.foldl (pkgRemoveStep tag tagID false owner) (res, st, cs) =
      ({ changed := res.changed || !ns.isEmpty,
         stdout_lines := res.stdout_lines ++ ns.map pkgRemoveMsg },
       ns.foldl (fun st n => applyPkgRemove st tagID n) st,
       cs ++ ns.map (fun n => Call.packageListRemove tag n owner)) := by
  induction ns generalizing res st cs with
  | nil => simp
  | cons n t ih =>
    rw [List.foldl_cons, List.foldl_cons]
    have hstep : pkgRemoveStep tag tagID false owner (res, st, cs) n =
        ({ changed := true, stdout_lines := res.stdout_lines ++ [pkgRemoveMsg n] },
         applyPkgRemove st tagID n, cs ++ [Call.packageListRemove tag n owner]) := rfl
    rw [hstep, ih]
    simp [pkgRemoveMsg]

theorem ensure_external_repos_spec (s : RemoteState) (tag : String) (check : Bool)
    (repos : List DeclRepo) :
    ensure_external_repos s tag check repos =
      ({ changed := repos.any
           (fun r => !(repoDecision tag (getTagExternalRepos s tag) r).isEmpty) ||
           !(reposToRemove (getTagExternalRepos s tag) repos).isEmpty,
         stdout_lines := repos.flatMap (repoMsg tag (getTagExternalRepos s tag)) ++
           (reposToRemove (getTagExternalRepos s tag) repos).map (repoRemoveMsg tag) },
       (if check then s else
         (reposToRemove (getTagExternalRepos s tag) repos).foldl
           (fun st n => applyRemoveRepo st tag n)
           (repos.foldl (repoEffect tag (getTagExternalRepos s tag)) s)),
       (if check then [] else
         repos.flatMap (repoDecision tag (getTagExternalRepos s tag)) ++
           (reposToRemove (getTagExternalRepos s tag) repos).map
             (Call.removeExternalRepoFromTag tag))) := by
  unfold ensure_external_repos
  dsimp only
  cases check with
  | true =>
    rw [repoLoop_spec_check, repoRemoveLoop_spec_check]
    simp [reposToRemove]
  | false =>
    rw [repoLoop_spec_apply, repoRemoveLoop_spec_apply]
    simp [reposToRemove]

theorem ensure_packages_spec (s : RemoteState) (tag : String) (tagID : Nat) (check : Bool)
    (packages : List (String × List String)) :
    ensure_packages s tag tagID check packages =
      ({ changed := (pkgPairs packages).any
           (fun pr => !(pkgDecision tag (pkgNames (listPackagesOf s tagID))
             (ownedBySnap (listPackagesOf s tagID)) pr).isEmpty) ||
           !(pkgDeleteNames (listPackagesOf s tagID) packages).isEmpty,
         stdout_lines := (pkgPairs packages).flatMap
             (pkgMsg (pkgNames (listPackagesOf s tagID)) (ownedBySnap (listPackagesOf s tagID))) ++
           (pkgDeleteNames (listPackagesOf s tagID) packages).map pkgRemoveMsg },
       (if check then s else
         (pkgDeleteNames (listPackagesOf s tagID) packages).foldl
           (fun st n => applyPkgRemove st tagID n)
           ((pkgPairs packages).foldl
             (pkgEffect tagID (pkgNames (listPackagesOf s tagID))
               (ownedBySnap (listPackagesOf s tagID))) s)),
       Call.listPackages tagID ::
         (if check then [] else
           (pkgPairs packages).flatMap
             (pkgDecision tag (pkgNames (listPackagesOf s tagID))
               (ownedBySnap (listPackagesOf s tagID))) ++
           (pkgDeleteNames (listPackagesOf s tagID) packages).map
             (fun n => Call.packageListRemove tag n (lastOwnerOf packages)))) := by
  unfold ensure_packages
  dsimp only
  rw [pkg_double_foldl]
  cases check with
  | true =>
    rw [pkgLoop_spec_check, pkgRemoveLoop_spec_check]
    rfl
  | false =>
    rw [pkgLoop_spec_apply, pkgRemoveLoop_spec_apply]
    rfl

theorem buildRules_ok_of_none (s : RemoteState) (cid : Nat) (l : List DeclInh)
    (h : firstUnresolved s l = none) : ∃ rules, buildRules s cid l = .ok rules := by
  induction l with
  | nil => exact ⟨[], rfl⟩
  | cons r rest ih =>
    rw [firstUnresolved] at h
    by_cases hp : (getTag s r.parent).isSome
    · rw [if_pos hp] at h
      obtain ⟨rules, hrules⟩ := ih h
      obtain ⟨pt, hpt⟩ := Option.isSome_iff_exists.mp hp
      refine ⟨{ child_id := cid, intransitive := false, maxdepth := none, name := r.parent,
                noconfig := false, parent_id := pt.id, pkg_filter := "",
                priority := r.priority } :: rules, ?_⟩
      rw [buildRules, hpt, hrules]
      rfl
    · rw [if_neg hp] at h
      exact absurd h (by simp)

theorem buildRules_error_of_some (s : RemoteState) (cid : Nat) (l : List DeclInh)
    (p : String) (h : firstUnresolved s l = some p) :
    buildRules s cid l = .error (.unresolvedParent p) := by
  induction l with
  | nil => simp [firstUnresolved] at h
  | cons r rest ih =>
    rw [firstUnresolved] at h
    by_cases hp : (getTag s r.parent).isSome
    · rw [if_pos hp] at h
      obtain ⟨pt, hpt⟩ := Option.isSome_iff_exists.mp hp
      rw [buildRules, hpt, ih h]
      rfl
    · rw [if_neg hp] at h
      have hnone : getTag s r.parent = none := by
        cases hg : getTag s r.parent
        · rfl
        · exact absurd (by simp [hg]) hp
      rw [buildRules, hnone]
      injection h with h
      rw [h]

theorem buildRules_congr (s' s : RemoteState) (cid : Nat) (l : List DeclInh)
    (h : ∀ x, (getTag s' x).map TagInfo.id = (getTag s x).map TagInfo.id) :
    buildRules s' cid l = buildRules s cid l := by
  induction l with
  | nil => rfl
  | cons r rest ih =>
    rw [buildRules, buildRules]
    cases hs : getTag s r.parent with
    | none =>
      have : getTag s' r.parent = none := by
        have := h r.parent
        rw [hs] at this
        cases hg : getTag s' r.parent
        · rfl
        · rw [hg] at this
          exact absurd this (by simp)
      rw [this]
    | some pt =>
      have hmap := h r.parent
      rw [hs] at hmap
      cases hg : getTag s' r.parent with
      | none =>
        rw [hg] at hmap
        exact absurd hmap (by simp)
      | some pt' =>
        rw [hg] at hmap
        have hid : pt'.id = pt.id := by
          simpa using hmap
        dsimp only
        rw [ih, hid]

theorem firstUnresolved_congr (s' s : RemoteState) (l : List DeclInh)
    (h : ∀ x, (getTag s' x).isSome = (getTag s x).isSome) :
    firstUnresolved s' l = firstUnresolved s l := by
  induction l with
  | nil => rfl
  | cons r rest ih =>
    rw [firstUnresolved, firstUnresolved, h r.parent, ih]

theorem getTag_map_id_applyEditTag2 (s : RemoteState) (n : String) (e : Edits)
    (t : TagInfo) (h : getTag s n = some t) (x : String) :
    (getTag (applyEditTag2 s n e) x).map TagInfo.id = (getTag s x).map TagInfo.id := by
  rw [getTag_applyEditTag2 s n e t h x]
  by_cases hx : x == n
  · rw [if_pos hx]
    have : x = n := eq_of_beq hx
    rw [this, h]
    rfl
  · rw [if_neg hx]

/-- C8: with target `present` the grant call is always issued; a remote
`GenericError` whose message contains "User already has access to content
generator" is swallowed and `changed=false` reported; any other error
propagates; a successful grant reports `changed=true`.  With target `absent`
the revoke call is always issued and a successful revoke reports
`changed=true` unconditionally. -/
theorem koji_cg_grant_revoke (env : CGEnv) (check_mode : Bool) (user gname : String) :
    ((koji_cg_run env check_mode user gname "present").2 =
        [CGCall.grantCGAccess user gname true]) ∧
    (env.grant = CGOutcome.ok →
      (koji_cg_run env check_mode user gname "present").1 = .ok ⟨true⟩) ∧
    (∀ msg, env.grant = CGOutcome.generic msg → containsSub msg cgTolerated = true →
      (koji_cg_run env check_mode user gname "present").1 = .ok ⟨false⟩) ∧
    (∀ msg, env.grant = CGOutcome.generic msg → containsSub msg cgTolerated = false →
      (koji_cg_run env check_mode user gname "present").1 = .error (CGFail.generic msg)) ∧
    ((koji_cg_run env check_mode user gname "absent").2 =
        [CGCall.revokeCGAccess user gname]) ∧
    (env.revoke = CGOutcome.ok →
      (koji_cg_run env check_mode user gname "absent").1 = .ok ⟨true⟩) := by
  refine ⟨?_, ?_, ?_, ?_, ?_, ?_⟩
  · cases hg : env.grant <;> simp [koji_cg_run, hg] <;> split <;> rfl
  · intro hg
    simp [koji_cg_run, hg]
  · intro msg hg hsub
    simp [koji_cg_run, hg, hsub]
  · intro msg hg hsub
    simp [koji_cg_run, hg, hsub]
  · cases hr : env.revoke <;> simp [koji_cg_run, hr]
  · intro hr
    simp [koji_cg_run, hr]

/-- Witness for C8: the tolerated error message yields `changed=false`. -/
theorem koji_cg_grant_revoke_witness :
    (koji_cg_run ⟨CGOutcome.generic ("x " ++ cgTolerated ++ " y"), CGOutcome.ok⟩
        false "u" "g" "present").1 = .ok ⟨false⟩ :=
  (koji_cg_grant_revoke ⟨CGOutcome.generic ("x " ++ cgTolerated ++ " y"), CGOutcome.ok⟩
      false "u" "g").2.2.1 ("x " ++ cgTolerated ++ " y") rfl (by decide)

theorem repoDecision_shape (tag : String) (cur : List RemoteRepo) (r : DeclRepo) (c : Call)
    (h : c ∈ repoDecision tag cur r) :
    c = Call.editTagExternalRepo tag r.repo r.priority ∨
    c = Call.addExternalRepoToTag tag r.repo r.priority := by
  unfold repoDecision at h
  split at h
  · split at h
    · simp at h
    · simp at h
      exact Or.inl h
  · simp at h
    exact Or.inr h

theorem pkgDecision_shape (tag : String) (cn : List String) (ob : String → List String)
    (pr : String × String) (c : Call) (h : c ∈ pkgDecision tag cn ob pr) :
    c = Call.packageListAdd tag pr.2 pr.1 ∨ c = Call.packageListSetOwner tag pr.2 pr.1 := by
  unfold pkgDecision at h
  split at h
  · simp at h
    exact Or.inl h
  · split at h
    · simp at h
      exact Or.inr h
    · simp at h

theorem ensureTagRest_calls_split (s : RemoteState) (pc : List (String × Nat)) (name : String)
    (check : Bool) (inh : List DeclInh) (er : Option (List DeclRepo))
    (packages : List (String × List String)) (tagID : Nat) (res : TagResult) (cs : List Call) :
    (∃ e, buildRules s tagID inh = .error e ∧
       (ensureTagRest s pc name check inh er packages tagID res cs).calls = cs) ∨
    (∃ rules s1 s2,
       buildRules s tagID inh = .ok rules ∧
       (ensureTagRest s pc name check inh er packages tagID res cs).calls =
         cs ++
         (if getInheritanceData s name = rules then []
          else if check then [] else [Call.setInheritanceData name rules true]) ++
         (match er with
          | none => []
          | some rl => (ensure_external_repos s1 name check rl).2.2) ++
         (if packages.isEmpty then []
          else (ensure_packages s2 name tagID check packages).2.2)) := by
  unfold ensureTagRest
  cases hbr : buildRules s tagID inh with
  | error e => exact Or.inl ⟨e, rfl, rfl⟩
  | ok rules =>
    refine Or.inr ⟨rules, ?_⟩
    dsimp only
    by_cases hinh : getInheritanceData s name = rules
    · rw [if_pos hinh]
      cases er with
      | none =>
        by_cases hpk : packages.isEmpty
        · exact ⟨s, s, rfl, by simp [hinh, hpk]⟩
        · exact ⟨s, s, rfl, by simp [hinh, hpk]⟩
      | some rl =>
        by_cases hpk : packages.isEmpty
        · exact ⟨s, (ensure_external_repos s name check rl).2.1, rfl, by simp [hinh, hpk]⟩
        · exact ⟨s, (ensure_external_repos s name check rl).2.1, rfl, by simp [hinh, hpk]⟩
    · rw [if_neg hinh]
      cases check with
      | true =>
        cases er with
        | none =>
          by_cases hpk : packages.isEmpty
          · exact ⟨s, s, rfl, by simp [hinh, hpk]⟩
          · exact ⟨s, s, rfl, by simp [hinh, hpk]⟩
        | some rl =>
          by_cases hpk : packages.isEmpty
          · exact ⟨s, (ensure_external_repos s name true rl).2.1, rfl, by simp [hinh, hpk]⟩
          · exact ⟨s, (ensure_external_repos s name true rl).2.1, rfl, by simp [hinh, hpk]⟩
      | false =>
        cases er with
        | none =>
          by_cases hpk : packages.isEmpty
          · exact ⟨applySetInheritance s name rules, applySetInheritance s name rules,
              rfl, by simp [hinh, hpk]⟩
          · exact ⟨applySetInheritance s name rules, applySetInheritance s name rules,
              rfl, by simp [hinh, hpk]⟩
        | some rl =>
          by_cases hpk : packages.isEmpty
          · exact ⟨applySetInheritance s name rules,
              (ensure_external_repos (applySetInheritance s name rules) name false rl).2.1,
              rfl, by simp [hinh, hpk]⟩
          · exact ⟨applySetInheritance s name rules,
              (ensure_external_repos (applySetInheritance s name rules) name false rl).2.1,
              rfl, by simp [hinh, hpk]⟩

theorem ensure_external_repos_calls_shape (s : RemoteState) (tag : String) (check : Bool)
    (rl : List DeclRepo) (c : Call) (h : c ∈ (ensure_external_repos s tag check rl).2.2) :
    (∃ r q, c = Call.editTagExternalRepo tag r q) ∨
    (∃ r q, c = Call.addExternalRepoToTag tag r q) ∨
    (∃ r, c = Call.removeExternalRepoFromTag tag r) := by
  rw [ensure_external_repos_spec] at h
  dsimp only at h
  by_cases hch : check = true
  · rw [if_pos hch] at h
    simp at h
  · rw [if_neg hch] at h
    rw [List.mem_append] at h
    cases h with
    | inl h =>
      rw [List.mem_flatMap] at h
      obtain ⟨r, _, hc⟩ := h
      cases repoDecision_shape tag _ r c hc with
      | inl h => exact Or.inl ⟨r.repo, r.priority, h⟩
      | inr h => exact Or.inr (Or.inl ⟨r.repo, r.priority, h⟩)
    | inr h =>
      rw [List.mem_map] at h
      obtain ⟨n, _, hc⟩ := h
      exact Or.inr (Or.inr ⟨n, hc.symm⟩)

theorem ensure_packages_calls_shape (s : RemoteState) (tag : String) (tagID : Nat)
    (check : Bool) (packages : List (String × List String)) (c : Call)
    (h : c ∈ (ensure_packages s tag tagID check packages).2.2) :
    c = Call.listPackages tagID ∨
    (∃ q o, c = Call.packageListAdd tag q o) ∨
    (∃ q o, c = Call.packageListSetOwner tag q o) ∨
    (∃ q, c = Call.packageListRemove tag q (lastOwnerOf packages)) := by
  rw [ensure_packages_spec] at h
  dsimp only at h
  rw [List.mem_cons] at h
  cases h with
  | inl h => exact Or.inl h
  | inr h =>
    by_cases hch : check = true
    · rw [if_pos hch] at h
      simp at h
    · rw [if_neg hch] at h
      rw [List.mem_append] at h
      cases h with
      | inl h =>
        rw [List.mem_flatMap] at h
        obtain ⟨pr, _, hc⟩ := h
        cases pkgDecision_shape tag _ _ pr c hc with
        | inl h => exact Or.inr (Or.inl ⟨pr.2, pr.1, h⟩)
        | inr h => exact Or.inr (Or.inr (Or.inl ⟨pr.2, pr.1, h⟩))
      | inr h =>
        rw [List.mem_map] at h
        obtain ⟨n, _, hc⟩ := h
        exact Or.inr (Or.inr (Or.inr ⟨n, hc.symm⟩))

theorem ensure_tag_calls_mem (s0 : RemoteState) (pc : List (String × Nat)) (name : String)
    (check : Bool) (inh : List DeclInh) (er : Option (List DeclRepo))
    (packages : List (String × List String)) (kw : TagKwargs) (c : Call)
    (hc : c ∈ (ensure_tag s0 pc name check inh er packages kw).calls) :
    c = Call.getAllPerms ∨
    (∃ kw2 pid, c = Call.createTag name kw2 pid) ∨
    (∃ e, c = Call.editTag2 name e) ∨
    (∃ rules, c = Call.setInheritanceData name rules true) ∨
    (∃ s' rl, er = some rl ∧ c ∈ (ensure_external_repos s' name check rl).2.2) ∨
    (∃ s' tid, packages.isEmpty = false ∧
      c ∈ (ensure_packages s' name tid check packages).2.2) := by
  have main : ∀ (s : RemoteState) (pcx : List (String × Nat)) (tagID : Nat) (res : TagResult)
      (cs : List Call), c ∈ (ensureTagRest s pcx name check inh er packages tagID res cs).calls →
      c ∈ cs ∨ (∃ rules, c = Call.setInheritanceData name rules true) ∨
      (∃ s' rl, er = some rl ∧ c ∈ (ensure_external_repos s' name check rl).2.2) ∨
      (∃ s' tid, packages.isEmpty = false ∧
        c ∈ (ensure_packages s' name tid check packages).2.2) := by
    intro s pcx tagID res cs hmem
    rcases ensureTagRest_calls_split s pcx name check inh er packages tagID res cs with
      ⟨e, _, hcalls⟩ | ⟨rules, s1, s2, _, hcalls⟩
    · rw [hcalls] at hmem
      exact Or.inl hmem
    · rw [hcalls] at hmem
      rw [List.mem_append, List.mem_append, List.mem_append] at hmem
      rcases hmem with ((hmem | hmem) | hmem) | hmem
      · exact Or.inl hmem
      · split at hmem
        · simp at hmem
        · split at hmem
          · simp at hmem
          · rw [List.mem_singleton] at hmem
            exact Or.inr (Or.inl ⟨rules, hmem⟩)
      · cases her : er with
        | none =>
          rw [her] at hmem
          simp at hmem
        | some rl =>
          rw [her] at hmem
          exact Or.inr (Or.inr (Or.inl ⟨s1, rl, rfl, hmem⟩))
      · split at hmem
        next => simp at hmem
        next hpk => exact Or.inr (Or.inr (Or.inr ⟨s2, tagID, by simpa using hpk, hmem⟩))
  unfold ensure_tag at hc
  cases hts : getTag s0 name with
  | none =>
    rw [hts] at hc
    by_cases hch : check = true
    · rw [if_pos hch] at hc
      simp at hc
    · rw [if_neg hch] at hc
      dsimp only at hc
      by_cases hperm : (match kw.perm with | some l => !(l == "") | none => false) = true
      · rw [if_pos hperm] at hc
        rcases hEq : get_perm_id s0.catalog pc (kw.perm.getD "") with ⟨r, pc1, fetched⟩
        rw [hEq] at hc
        cases r with
        | error e =>
          dsimp only [Except.map] at hc
          split at hc
          · rw [List.mem_singleton] at hc
            exact Or.inl hc
          · simp at hc
        | ok pid =>
          dsimp only [Except.map] at hc
          rcases main _ _ _ _ _ hc with hmem | rest
          · rw [List.mem_append] at hmem
            rcases hmem with hmem | hmem
            · split at hmem
              · rw [List.mem_singleton] at hmem
                exact Or.inl hmem
              · simp at hmem
            · rw [List.mem_singleton] at hmem
              exact Or.inr (Or.inl ⟨kw, some pid, hmem⟩)
          · exact Or.inr (Or.inr (Or.inr rest))
      · rw [if_neg hperm] at hc
        dsimp only at hc
        rcases main _ _ _ _ _ hc with hmem | rest
        · rw [show ([] : List Call) ++ [Call.createTag name kw none] =
              [Call.createTag name kw none] from rfl, List.mem_singleton] at hmem
          exact Or.inr (Or.inl ⟨kw, none, hmem⟩)
        · exact Or.inr (Or.inr (Or.inr rest))
  | some t =>
    rw [hts] at hc
    dsimp only at hc
    by_cases hed : (computeEdits t kw).isEmpty = true
    · rw [if_pos hed] at hc
      rcases main _ _ _ _ _ hc with hmem | rest
      · simp at hmem
      · exact Or.inr (Or.inr (Or.inr rest))
    · rw [if_neg hed] at hc
      by_cases hch : check = true
      · rw [if_pos hch] at hc
        rcases main _ _ _ _ _ hc with hmem | rest
        · simp at hmem
        · exact Or.inr (Or.inr (Or.inr rest))
      · rw [if_neg hch] at hc
        rcases main _ _ _ _ _ hc with hmem | rest
        · rw [List.mem_singleton] at hmem
          exact Or.inr (Or.inr (Or.inl ⟨_, hmem⟩))
        · exact Or.inr (Or.inr (Or.inr rest))

/-- C10: every remove-package call that `ensure_tag` issues passes, as the
owner argument, whatever the `owner` loop variable held after the preceding
add/reassign loop over the declared owner→packages mapping — the last declared
owner — not the removed package's actual current owner. -/
theorem ensure_tag_remove_owner_last (s0 : RemoteState) (pc : List (String × Nat))
    (name : String) (check : Bool) (inh : List DeclInh) (er : Option (List DeclRepo))
    (packages : List (String × List String)) (kw : TagKwargs) (tg q ow : String)
    (h : Call.packageListRemove tg q ow ∈
      (ensure_tag s0 pc name check inh er packages kw).calls) :
    ow = lastOwnerOf packages := by
  rcases ensure_tag_calls_mem s0 pc name check inh er packages kw _ h with
    h1 | ⟨kw2, pid, h1⟩ | ⟨e, h1⟩ | ⟨rules, h1⟩ | ⟨s', rl, _, h1⟩ | ⟨s', tid, _, h1⟩
  · exact absurd h1 (by simp)
  · exact absurd h1 (by simp)
  · exact absurd h1 (by simp)
  · exact absurd h1 (by simp)
  · rcases ensure_external_repos_calls_shape s' name check rl _ h1 with
      ⟨r, p, h2⟩ | ⟨r, p, h2⟩ | ⟨r, h2⟩ <;> exact absurd h2 (by simp)
  · rcases ensure_packages_calls_shape s' name tid check packages _ h1 with
      h2 | ⟨p, o, h2⟩ | ⟨p, o, h2⟩ | ⟨p, h2⟩
    · exact absurd h2 (by simp)
    · exact absurd h2 (by simp)
    · exact absurd h2 (by simp)
    · injection h2 with h2a h2b h2c

/-- Witness for C10: removing "foo" (currently owned by "carol") passes owner
"bob", the last declared owner. -/
theorem ensure_tag_remove_owner_last_witness :
    "bob" = lastOwnerOf [("alice", ["newpkg"]), ("bob", [])] :=
  ensure_tag_remove_owner_last exState [] "ceph" false [] none
    [("alice", ["newpkg"]), ("bob", [])] exKw "ceph" "foo" "bob" (by decide)

theorem ensureTagRest_calls_prefix (s : RemoteState) (pc : List (String × Nat)) (name : String)
    (check : Bool) (inh : List DeclInh) (er : Option (List DeclRepo))
    (packages : List (String × List String)) (tagID : Nat) (res : TagResult) (cs : List Call)
    (c : Call) (hc : c ∈ cs) :
    c ∈ (ensureTagRest s pc name check inh er packages tagID res cs).calls := by
  rcases ensureTagRest_calls_split s pc name check inh er packages tagID res cs with
    ⟨e, _, hcalls⟩ | ⟨rules, s1, s2, _, hcalls⟩
  · rw [hcalls]
    exact hc
  · rw [hcalls]
    exact List.mem_append_left _ (List.mem_append_left _ (List.mem_append_left _ hc))

/-- C9: for an existing tag, the computed edit's remove-set contains exactly
the keys present in the remote extra dict but absent from the declared extra
dict, and (outside check mode) a non-empty edit set is passed verbatim to
`editTag2`. -/
theorem computeEdits_remove_extra (s0 : RemoteState) (pc : List (String × Nat))
    (name : String) (check : Bool) (inh : List DeclInh) (er : Option (List DeclRepo))
    (packages : List (String × List String)) (kw : TagKwargs) (t : TagInfo)
    (ht : getTag s0 name = some t) :
    (∀ k, k ∈ (computeEdits t kw).remove_extra ↔
        (k ∈ t.extra.map Prod.fst ∧ alookup kw.extra k = none)) ∧
    ((computeEdits t kw).isEmpty = false → check = false →
      Call.editTag2 name (computeEdits t kw) ∈
        (ensure_tag s0 pc name check inh er packages kw).calls) := by
  constructor
  · intro k
    simp [computeEdits, List.mem_filter, Option.isNone_iff_eq_none]
  · intro hne hch
    unfold ensure_tag
    rw [ht]
    dsimp only
    rw [if_neg (by simp [hne]), if_neg (by simp [hch])]
    exact ensureTagRest_calls_prefix _ _ _ _ _ _ _ _ _ _ _ (List.mem_singleton.mpr rfl)

/-- Witness for C9: declared extra `{"a": 1}` against remote extra
`{"a": 1, "b": 2}`: key "b" is in the remove-set, and the edit reaches
`editTag2`. -/
theorem computeEdits_remove_extra_witness :
    ("b" ∈ (computeEdits exTag exKwA).remove_extra ↔
      ("b" ∈ exTag.extra.map Prod.fst ∧ alookup exKwA.extra "b" = none)) ∧
    Call.editTag2 "ceph" (computeEdits exTag exKwA) ∈
      (ensure_tag exState [] "ceph" false [] none [] exKwA).calls :=
  ⟨(computeEdits_remove_extra exState [] "ceph" false [] none [] exKwA exTag rfl).1 "b",
   (computeEdits_remove_extra exState [] "ceph" false [] none [] exKwA exTag rfl).2 rfl rfl⟩

theorem aset_ne_nil {κ α : Type} [BEq κ] (l : List (κ × α)) (k : κ) (v : α) :
    aset l k v ≠ [] := by
  unfold aset
  split
  next h =>
    cases l with
    | nil => simp at h
    | cons p t => simp
  · simp

theorem foldl_aset_ne_nil (catalog : List (String × Nat)) (init : List (String × Nat))
    (h : catalog ≠ [] ∨ init ≠ []) :
    catalog.foldl (fun d p => aset d p.1 p.2) init ≠ [] := by
  induction catalog generalizing init with
  | nil =>
    cases h with
    | inl h => exact absurd rfl h
    | inr h => exact h
  | cons p t ih => exact ih _ (Or.inr (aset_ne_nil _ _ _))

theorem build_perm_cache_ne_nil (catalog : List (String × Nat)) (hc : catalog ≠ []) :
    build_perm_cache catalog ≠ [] :=
  foldl_aset_ne_nil catalog [] (Or.inl hc)

/-- Counterexample to C7 as stated: with an empty permission catalog the
cache dict stays falsy, so a second resolution performs a second full-catalog
fetch — more than "at most once per process". -/
theorem perm_catalog_fetch_twice_cex :
    (resolveSeq [] ["a", "b"]).2.2 = 2 ∧ ¬ ((resolveSeq [] ["a", "b"]).2.2 ≤ 1) := by
  decide

/-- C7 (amended): provided the catalog fetch returns a non-empty catalog, the
catalog is fetched at most once per process; every resolution after the first
reuses the cached name→id dict unchanged, and a label absent from the cache
fails with `UnknownPermission`. -/
theorem perm_catalog_fetch_once (catalog : List (String × Nat)) (labels : List String)
    (hc : catalog ≠ []) :
    (resolveSeq catalog labels).2.2 ≤ 1 ∧
    (resolveSeq catalog labels).2.1 =
      (if labels.isEmpty then [] else build_perm_cache catalog) ∧
    (resolveSeq catalog labels).1 = labels.map (fun l =>
      match alookup (build_perm_cache catalog) l with
      | some i => Except.ok i
      | none => Except.error (KojiErr.unknownPermission l)) := by
  have hB : (build_perm_cache catalog).isEmpty = false := by
    cases hb : build_perm_cache catalog with
    | nil => exact absurd hb (build_perm_cache_ne_nil catalog hc)
    | cons p t => rfl
  have hgp : ∀ l : String, get_perm_id catalog (build_perm_cache catalog) l =
      ((match alookup (build_perm_cache catalog) l with
        | some i => Except.ok i
        | none => Except.error (KojiErr.unknownPermission l)),
       build_perm_cache catalog, false) := by
    intro l
    unfold get_perm_id
    simp only [hB, Bool.false_eq_true, if_false]
    cases hA : alookup (build_perm_cache catalog) l <;> simp [hA]
  have hgp0 : ∀ l : String, get_perm_id catalog [] l =
      ((match alookup (build_perm_cache catalog) l with
        | some i => Except.ok i
        | none => Except.error (KojiErr.unknownPermission l)),
       build_perm_cache catalog, true) := by
    intro l
    unfold get_perm_id
    simp only [List.isEmpty_nil, if_true]
    cases hA : alookup (build_perm_cache catalog) l <;> simp [hA]
  have haux : ∀ (ls : List String) (rs : List (Except KojiErr Nat)) (n : Nat),
      ls.foldl (fun acc l =>
        let (r, pc', fetched) := get_perm_id catalog acc.2.1 l
        (acc.1 ++ [r], pc', acc.2.2 + (if fetched then 1 else 0)))
        (rs, build_perm_cache catalog, n) =
      (rs ++ ls.map (fun l =>
        match alookup (build_perm_cache catalog) l with
        | some i => Except.ok i
        | none => Except.error (KojiErr.unknownPermission l)),
       build_perm_cache catalog, n) := by
    intro ls
    induction ls with
    | nil => simp
    | cons l t ih =>
      intro rs n
      rw [List.foldl_cons]
      dsimp only
      rw [hgp l]
      dsimp only
      rw [ih]
      simp
  cases labels with
  | nil => exact ⟨by simp [resolveSeq], by simp [resolveSeq], by simp [resolveSeq]⟩
  | cons l t =>
    unfold resolveSeq
    rw [List.foldl_cons]
    dsimp only
    rw [hgp0 l]
    dsimp only
    rw [haux]
    simp

/-- Witness for C7's amended theorem at a concrete nonempty catalog. -/
theorem perm_catalog_fetch_once_witness :
    (resolveSeq [("admin", 3)] ["admin", "zzz"]).2.2 ≤ 1 :=
  (perm_catalog_fetch_once [("admin", 3)] ["admin", "zzz"] (by decide)).1

theorem isSome_of_map_id_eq {o1 o2 : Option TagInfo}
    (h : o1.map TagInfo.id = o2.map TagInfo.id) : o1.isSome = o2.isSome := by
  cases o1 <;> cases o2 <;> simp_all

/-- C4: if a declared inheritance parent does not exist remotely, the whole
reconciliation of an existing tag fails with `UnresolvedParent` before any
inheritance (or later) write is issued, while an attribute edit already
applied earlier in the same run stays applied in the remote state. -/
theorem unresolved_parent_failfast (s0 : RemoteState) (pc : List (String × Nat))
    (name : String) (inh : List DeclInh) (er : Option (List DeclRepo))
    (packages : List (String × List String)) (kw : TagKwargs) (t : TagInfo) (p : String)
    (ht : getTag s0 name = some t) (hup : firstUnresolved s0 inh = some p) :
    ensure_tag s0 pc name false inh er packages kw =
      { result := .error (.unresolvedParent p),
        state := (if (computeEdits t kw).isEmpty then s0
                  else applyEditTag2 s0 name (computeEdits t kw)),
        cache := pc,
        calls := (if (computeEdits t kw).isEmpty then []
                  else [Call.editTag2 name (computeEdits t kw)]) } := by
  unfold ensure_tag
  rw [ht]
  dsimp only
  by_cases hed : (computeEdits t kw).isEmpty = true
  · rw [if_pos hed]
    have herr : buildRules s0 t.id inh = .error (.unresolvedParent p) :=
      buildRules_error_of_some s0 t.id inh p hup
    unfold ensureTagRest
    rw [herr]
    rw [if_pos hed, if_pos hed]
  · rw [if_neg hed]
    rw [if_neg (by simp)]
    have hup1 : firstUnresolved (applyEditTag2 s0 name (computeEdits t kw)) inh = some p := by
      rw [firstUnresolved_congr (applyEditTag2 s0 name (computeEdits t kw)) s0 inh
        (fun x => isSome_of_map_id_eq (getTag_map_id_applyEditTag2 s0 name _ t ht x))]
      exact hup
    have herr : buildRules (applyEditTag2 s0 name (computeEdits t kw)) t.id inh =
        .error (.unresolvedParent p) :=
      buildRules_error_of_some _ t.id inh p hup1
    unfold ensureTagRest
    rw [herr]
    rw [if_neg (by simp [hed]), if_neg (by simp [hed])]

/-- Witness for C4: a missing parent "nope" aborts the run after the attribute
edit was applied. -/
theorem unresolved_parent_failfast_witness :
    ensure_tag exState [] "ceph" false [⟨"nope", 0⟩] none [] exKwA =
      { result := .error (.unresolvedParent "nope"),
        state := (if (computeEdits exTag exKwA).isEmpty then exState
                  else applyEditTag2 exState "ceph" (computeEdits exTag exKwA)),
        cache := [],
        calls := (if (computeEdits exTag exKwA).isEmpty then []
                  else [Call.editTag2 "ceph" (computeEdits exTag exKwA)]) } :=
  unresolved_parent_failfast exState [] "ceph" [⟨"nope", 0⟩] none [] exKwA exTag "nope" rfl rfl

theorem ensureTagRest_spec (s : RemoteState) (pc : List (String × Nat)) (name : String)
    (check : Bool) (inh : List DeclInh) (er : Option (List DeclRepo))
    (packages : List (String × List String)) (tagID : Nat) (res : TagResult) (cs : List Call)
    (rules : List InheritanceRule) (hrules : buildRules s tagID inh = .ok rules) :
    ensureTagRest s pc name check inh er packages tagID res cs =
      (let cur := getInheritanceData s name
       let istr := inhStr inh
       let res1 : TagResult := if cur = rules then res
         else ⟨true, res.stdout_lines ++ [s!"inheritance is {istr}"]⟩
       let s1 := if cur = rules then s
         else if check then s else applySetInheritance s name rules
       let cs1 := if cur = rules then cs
         else if check then cs else cs ++ [Call.setInheritanceData name rules true]
       let er_out := match er with
         | none => ((⟨false, []⟩ : TagResult), s1, ([] : List Call))
         | some rl => ensure_external_repos s1 name check rl
       let res2 : TagResult :=
         ⟨res1.changed || er_out.1.changed, res1.stdout_lines ++ er_out.1.stdout_lines⟩
       let s2 := er_out.2.1
       let cs2 := cs1 ++ er_out.2.2
       let pk_out := if packages.isEmpty then ((⟨false, []⟩ : TagResult), s2, ([] : List Call))
         else ensure_packages s2 name tagID check packages
       { result := Except.ok ⟨res2.changed || pk_out.1.changed,
           res2.stdout_lines ++ pk_out.1.stdout_lines⟩,
         state := pk_out.2.1, cache := pc, calls := cs2 ++ pk_out.2.2 }) := by
  unfold ensureTagRest
  rw [hrules]
  dsimp only
  by_cases hinh : getInheritanceData s name = rules
  · rw [if_pos hinh, if_pos hinh, if_pos hinh, if_pos hinh]
    cases er with
    | none =>
      by_cases hpk : packages.isEmpty
      · rw [if_pos hpk, if_pos hpk]
        try simp
      · rw [if_neg hpk, if_neg hpk]
        try simp
    | some rl =>
      by_cases hpk : packages.isEmpty
      · rw [if_pos hpk, if_pos hpk]
        try simp
      · rw [if_neg hpk, if_neg hpk]
        try simp
  · rw [if_neg hinh, if_neg hinh, if_neg hinh, if_neg hinh]
    by_cases hch : check = true
    · rw [if_pos hch, if_pos hch, if_pos hch]
      cases er with
      | none =>
        by_cases hpk : packages.isEmpty
        · rw [if_pos hpk, if_pos hpk]
          try simp
        · rw [if_neg hpk, if_neg hpk]
          try simp
      | some rl =>
        by_cases hpk : packages.isEmpty
        · rw [if_pos hpk, if_pos hpk]
          try simp
        · rw [if_neg hpk, if_neg hpk]
          try simp
    · rw [if_neg hch, if_neg hch, if_neg hch]
      cases er with
      | none =>
        by_cases hpk : packages.isEmpty
        · rw [if_pos hpk, if_pos hpk]
          try simp
        · rw [if_neg hpk, if_neg hpk]
          try simp
      | some rl =>
        by_cases hpk : packages.isEmpty
        · rw [if_pos hpk, if_pos hpk]
          try simp
        · rw [if_neg hpk, if_neg hpk]
          try simp

theorem repoEffect_tags (tag : String) (cur : List RemoteRepo) (st : RemoteState)
    (r : DeclRepo) : (repoEffect tag cur st r).tags = st.tags := by
  unfold repoEffect
  split
  · split <;> rfl
  · rfl

theorem repoEffect_inher (tag : String) (cur : List RemoteRepo) (st : RemoteState)
    (r : DeclRepo) : (repoEffect tag cur st r).inher = st.inher := by
  unfold repoEffect
  split
  · split <;> rfl
  · rfl

theorem repoEffect_pkgs (tag : String) (cur : List RemoteRepo) (st : RemoteState)
    (r : DeclRepo) : (repoEffect tag cur st r).pkgs = st.pkgs := by
  unfold repoEffect
  split
  · split <;> rfl
  · rfl

theorem pkgEffect_tags (tagID : Nat) (cn : List String) (ob : String → List String)
    (st : RemoteState) (pr : String × String) : (pkgEffect tagID cn ob st pr).tags = st.tags := by
  unfold pkgEffect
  split
  · rfl
  · split <;> rfl

theorem pkgEffect_inher (tagID : Nat) (cn : List String) (ob : String → List String)
    (st : RemoteState) (pr : String × String) : (pkgEffect tagID cn ob st pr).inher = st.inher := by
  unfold pkgEffect
  split
  · rfl
  · split <;> rfl

theorem pkgEffect_repos (tagID : Nat) (cn : List String) (ob : String → List String)
    (st : RemoteState) (pr : String × String) : (pkgEffect tagID cn ob st pr).repos = st.repos := by
  unfold pkgEffect
  split
  · rfl
  · split <;> rfl

theorem ensure_external_repos_state_tags (s : RemoteState) (tag : String) (check : Bool)
    (rl : List DeclRepo) : (ensure_external_repos s tag check rl).2.1.tags = s.tags := by
  rw [ensure_external_repos_spec]
  dsimp only
  by_cases hch : check = true
  · rw [if_pos hch]
  · rw [if_neg hch]
    rw [foldl_preserve _ RemoteState.tags (fun st n => applyRemoveRepo_tags st tag n)]
    exact foldl_preserve _ RemoteState.tags (fun st r => repoEffect_tags tag _ st r) _ _

theorem ensure_external_repos_state_inher (s : RemoteState) (tag : String) (check : Bool)
    (rl : List DeclRepo) : (ensure_external_repos s tag check rl).2.1.inher = s.inher := by
  rw [ensure_external_repos_spec]
  dsimp only
  by_cases hch : check = true
  · rw [if_pos hch]
  · rw [if_neg hch]
    rw [foldl_preserve _ RemoteState.inher (fun st n => applyRemoveRepo_inher st tag n)]
    exact foldl_preserve _ RemoteState.inher (fun st r => repoEffect_inher tag _ st r) _ _

theorem ensure_external_repos_state_pkgs (s : RemoteState) (tag : String) (check : Bool)
    (rl : List DeclRepo) : (ensure_external_repos s tag check rl).2.1.pkgs = s.pkgs := by
  rw [ensure_external_repos_spec]
  dsimp only
  by_cases hch : check = true
  · rw [if_pos hch]
  · rw [if_neg hch]
    rw [foldl_preserve _ RemoteState.pkgs (fun st n => applyRemoveRepo_pkgs st tag n)]
    exact foldl_preserve _ RemoteState.pkgs (fun st r => repoEffect_pkgs tag _ st r) _ _

theorem ensure_packages_state_tags (s : RemoteState) (tag : String) (tagID : Nat)
    (check : Bool) (packages : List (String × List String)) :
    (ensure_packages s tag tagID check packages).2.1.tags = s.tags := by
  rw [ensure_packages_spec]
  dsimp only
  by_cases hch : check = true
  · rw [if_pos hch]
  · rw [if_neg hch]
    rw [foldl_preserve _ RemoteState.tags (fun st n => applyPkgRemove_tags st tagID n)]
    exact foldl_preserve _ RemoteState.tags (fun st pr => pkgEffect_tags tagID _ _ st pr) _ _

theorem ensure_packages_state_inher (s : RemoteState) (tag : String) (tagID : Nat)
    (check : Bool) (packages : List (String × List String)) :
    (ensure_packages s tag tagID check packages).2.1.inher = s.inher := by
  rw [ensure_packages_spec]
  dsimp only
  by_cases hch : check = true
  · rw [if_pos hch]
  · rw [if_neg hch]
    rw [foldl_preserve _ RemoteState.inher (fun st n => applyPkgRemove_inher st tagID n)]
    exact foldl_preserve _ RemoteState.inher (fun st pr => pkgEffect_inher tagID _ _ st pr) _ _

theorem ensure_packages_state_repos (s : RemoteState) (tag : String) (tagID : Nat)
    (check : Bool) (packages : List (String × List String)) :
    (ensure_packages s tag tagID check packages).2.1.repos = s.repos := by
  rw [ensure_packages_spec]
  dsimp only
  by_cases hch : check = true
  · rw [if_pos hch]
  · rw [if_neg hch]
    rw [foldl_preserve _ RemoteState.repos (fun st n => applyPkgRemove_repos st tagID n)]
    exact foldl_preserve _ RemoteState.repos (fun st pr => pkgEffect_repos tagID _ _ st pr) _ _

theorem getInheritanceData_congr (s' s : RemoteState) (h : s'.inher = s.inher) (x : String) :
    getInheritanceData s' x = getInheritanceData s x := by
  unfold getInheritanceData
  rw [h]

theorem ensure_external_repos_filter_isInh (s : RemoteState) (tag : String) (check : Bool)
    (rl : List DeclRepo) :
    (ensure_external_repos s tag check rl).2.2.filter Call.isInh = [] := by
  rw [List.filter_eq_nil_iff]
  intro c hc
  rcases ensure_external_repos_calls_shape s tag check rl c hc with
    ⟨r, q, h2⟩ | ⟨r, q, h2⟩ | ⟨r, h2⟩ <;> simp [h2, Call.isInh]

theorem ensure_packages_filter_isInh (s : RemoteState) (tag : String) (tagID : Nat)
    (check : Bool) (packages : List (String × List String)) :
    (ensure_packages s tag tagID check packages).2.2.filter Call.isInh = [] := by
  rw [List.filter_eq_nil_iff]
  intro c hc
  rcases ensure_packages_calls_shape s tag tagID check packages c hc with
    h2 | ⟨q, o, h2⟩ | ⟨q, o, h2⟩ | ⟨q, h2⟩ <;> simp [h2, Call.isInh]

theorem ensureTagRest_inh_facts (s : RemoteState) (pc : List (String × Nat)) (name : String)
    (check : Bool) (inh : List DeclInh) (er : Option (List DeclRepo))
    (packages : List (String × List String)) (tagID : Nat) (res : TagResult) (cs : List Call)
    (rules : List InheritanceRule) (hrules : buildRules s tagID inh = .ok rules)
    (hcs : cs.filter Call.isInh = []) :
    ((ensureTagRest s pc name check inh er packages tagID res cs).calls.filter Call.isInh =
      (if getInheritanceData s name = rules then []
       else if check then [] else [Call.setInheritanceData name rules true])) ∧
    (getInheritanceData s name ≠ rules →
      ∃ r, (ensureTagRest s pc name check inh er packages tagID res cs).result = .ok r ∧
        r.changed = true) ∧
    (getInheritanceData s name ≠ rules → check = false →
      getInheritanceData (ensureTagRest s pc name check inh er packages tagID res cs).state name
        = rules) := by
  rw [ensureTagRest_spec s pc name check inh er packages tagID res cs rules hrules]
  dsimp only
  refine ⟨?_, ?_, ?_⟩
  · by_cases hinh : getInheritanceData s name = rules
    · rw [if_pos hinh, if_pos hinh, if_pos hinh, List.filter_append, List.filter_append, hcs]
      have her : ∀ (s1 : RemoteState),
          (match er with
           | none => ((⟨false, []⟩ : TagResult), s1, ([] : List Call))
           | some rl => ensure_external_repos s1 name check rl).2.2.filter Call.isInh = [] := by
        intro s1
        cases er with
        | none => rfl
        | some rl => exact ensure_external_repos_filter_isInh s1 name check rl
      rw [her]
      by_cases hpk : packages.isEmpty
      · rw [if_pos hpk]
        rfl
      · rw [if_neg hpk, ensure_packages_filter_isInh]
        rfl
    · rw [if_neg hinh, if_neg hinh, if_neg hinh]
      by_cases hch : check = true
      · rw [if_pos hch, if_pos hch, if_pos hch, List.filter_append, List.filter_append, hcs]
        have her : ∀ (s1 : RemoteState),
            (match er with
             | none => ((⟨false, []⟩ : TagResult), s1, ([] : List Call))
             | some rl => ensure_external_repos s1 name check rl).2.2.filter Call.isInh = [] := by
          intro s1
          cases er with
          | none => rfl
          | some rl => exact ensure_external_repos_filter_isInh s1 name check rl
        rw [her]
        by_cases hpk : packages.isEmpty
        · rw [if_pos hpk]
          rfl
        · rw [if_neg hpk, ensure_packages_filter_isInh]
          rfl
      · rw [if_neg hch, if_neg hch, if_neg hch, List.filter_append, List.filter_append,
          List.filter_append, hcs]
        have hone : [Call.setInheritanceData name rules true].filter Call.isInh =
            [Call.setInheritanceData name rules true] := rfl
        rw [hone]
        have her : ∀ (s1 : RemoteState),
            (match er with
             | none => ((⟨false, []⟩ : TagResult), s1, ([] : List Call))
             | some rl => ensure_external_repos s1 name check rl).2.2.filter Call.isInh = [] := by
          intro s1
          cases er with
          | none => rfl
          | some rl => exact ensure_external_repos_filter_isInh s1 name check rl
        rw [her]
        by_cases hpk : packages.isEmpty
        · rw [if_pos hpk]
          rfl
        · rw [if_neg hpk, ensure_packages_filter_isInh]
          rfl
  · intro hinh
    refine ⟨_, rfl, ?_⟩
    rw [if_neg hinh]
    rfl
  · intro hinh hch
    have hch' : ¬ check = true := by simp [hch]
    rw [if_neg hinh, if_neg hch']
    have hpre : ∀ (s2 : RemoteState),
        getInheritanceData
          (if packages.isEmpty then ((⟨false, []⟩ : TagResult), s2, ([] : List Call))
           else ensure_packages s2 name tagID check packages).2.1 name =
        getInheritanceData s2 name := by
      intro s2
      by_cases hpk : packages.isEmpty
      · rw [if_pos hpk]
      · rw [if_neg hpk]
        exact getInheritanceData_congr _ _ (ensure_packages_state_inher s2 name tagID check packages) name
    rw [hpre]
    have her : ∀ (s1 : RemoteState),
        getInheritanceData
          (match er with
           | none => ((⟨false, []⟩ : TagResult), s1, ([] : List Call))
           | some rl => ensure_external_repos s1 name check rl).2.1 name =
        getInheritanceData s1 name := by
      intro s1
      cases er with
      | none => rfl
      | some rl => exact getInheritanceData_congr _ _ (ensure_external_repos_state_inher s1 name check rl) name
    rw [her]
    rw [getInheritanceData_applySetInheritance]
    simp

/-- C2: for every declared ordered inheritance list on an existing tag, the
synchronizer compares the built full-rule list against the current remote
list as a single whole-list equality (any differing field, count, or order
makes it unequal), reports changed when they differ, and converges by issuing
exactly one clear-and-set `setInheritanceData` call carrying the entire new
rule list — never any per-rule partial update. -/
theorem inheritance_whole_set_sync (s0 : RemoteState) (pc : List (String × Nat)) (name : String)
    (check : Bool) (inh : List DeclInh) (er : Option (List DeclRepo))
    (packages : List (String × List String)) (kw : TagKwargs) (t : TagInfo)
    (rules : List InheritanceRule)
    (ht : getTag s0 name = some t) (hrules : buildRules s0 t.id inh = .ok rules) :
    ((ensure_tag s0 pc name check inh er packages kw).calls.filter Call.isInh =
      (if getInheritanceData s0 name = rules then []
       else if check then [] else [Call.setInheritanceData name rules true])) ∧
    (getInheritanceData s0 name ≠ rules →
      ∃ r, (ensure_tag s0 pc name check inh er packages kw).result = .ok r ∧
        r.changed = true) ∧
    (getInheritanceData s0 name ≠ rules → check = false →
      getInheritanceData (ensure_tag s0 pc name check inh er packages kw).state name = rules) := by
  unfold ensure_tag
  rw [ht]
  dsimp only
  by_cases hed : (computeEdits t kw).isEmpty = true
  · rw [if_pos hed]
    exact ensureTagRest_inh_facts s0 pc name check inh er packages t.id _ [] rules hrules rfl
  · rw [if_neg hed]
    by_cases hch : check = true
    · rw [if_pos hch]
      exact ensureTagRest_inh_facts s0 pc name check inh er packages t.id _ [] rules hrules rfl
    · rw [if_neg hch]
      have hrules1 : buildRules (applyEditTag2 s0 name (computeEdits t kw)) t.id inh =
          .ok rules := by
        rw [buildRules_congr _ s0 t.id inh (getTag_map_id_applyEditTag2 s0 name _ t ht)]
        exact hrules
      have hinheq : getInheritanceData (applyEditTag2 s0 name (computeEdits t kw)) name =
          getInheritanceData s0 name :=
        getInheritanceData_congr _ _ (applyEditTag2_inher s0 name _) name
      have hfacts := ensureTagRest_inh_facts (applyEditTag2 s0 name (computeEdits t kw)) pc
        name check inh er packages t.id ⟨true, [editsStr (computeEdits t kw)]⟩
        [Call.editTag2 name (computeEdits t kw)] rules hrules1 rfl
      rw [hinheq] at hfacts
      exact hfacts

/-- Witness for C2: declaring `[{parent := "ceph", priority := 0}]` against an
empty current rule set issues the single full-list clear-and-set call. -/
theorem inheritance_whole_set_sync_witness :
    (ensure_tag exState [] "ceph" false [⟨"ceph", 0⟩] none [] exKw).calls.filter Call.isInh =
      (if getInheritanceData exState "ceph" = exRules then []
       else if false then [] else [Call.setInheritanceData "ceph" exRules true]) :=
  (inheritance_whole_set_sync exState [] "ceph" false [⟨"ceph", 0⟩] none [] exKw exTag
    exRules rfl rfl).1

theorem getTagExternalRepos_congr (s' s : RemoteState) (h : s'.repos = s.repos) (x : String) :
    getTagExternalRepos s' x = getTagExternalRepos s x := by
  unfold getTagExternalRepos
  rw [h]

theorem removeAll_repos (ns : List String) (s : RemoteState) (tag : String)
    (hsub : ∀ r ∈ getTagExternalRepos s tag, r.external_repo_name ∈ ns) :
    getTagExternalRepos (ns.foldl (fun st n => applyRemoveRepo st tag n) s) tag = [] := by
  induction ns generalizing s with
  | nil =>
    cases hl : getTagExternalRepos s tag with
    | nil => exact hl
    | cons r t =>
      have := hsub r (by rw [hl]; exact List.mem_cons_self r t)
      simp at this
  | cons n ns' ih =>
    rw [List.foldl_cons]
    apply ih
    intro r hr
    rw [getTagExternalRepos_applyRemoveRepo_self] at hr
    rw [List.mem_filter] at hr
    have hmem := hsub r hr.1
    have hne : ¬ (r.external_repo_name == n) = true := by
      have := hr.2
      simpa using this
    rw [List.mem_cons] at hmem
    cases hmem with
    | inl h => exact absurd (by simp [h]) hne
    | inr h => exact h

theorem repoDecision_filter_other (tag : String) (cur : List RemoteRepo) (nm : String)
    (l : List DeclRepo) (hl : ∀ r ∈ l, ¬ (r.repo == nm) = true) :
    (l.flatMap (repoDecision tag cur)).filter (fun c => c.repoArg == some nm) = [] := by
  rw [List.filter_eq_nil_iff]
  intro c hc
  rw [List.mem_flatMap] at hc
  obtain ⟨r, hr, hcr⟩ := hc
  rcases repoDecision_shape tag cur r c hcr with h2 | h2 <;>
    (rw [h2]; simp [Call.repoArg]; intro he; exact absurd (by simp [he]) (hl r hr))

theorem ensure_external_repos_one_edit (s : RemoteState) (tag nm : String) (p : Int)
    (rl : List DeclRepo) (cur : RemoteRepo)
    (hflt : rl.filter (fun r => r.repo == nm) = [⟨nm, p⟩])
    (hfind : (getTagExternalRepos s tag).find? (fun c => c.external_repo_name == nm) = some cur)
    (hne : ¬ (p == cur.priority) = true) :
    ((ensure_external_repos s tag false rl).2.2).filter (fun c => c.repoArg == some nm) =
      [Call.editTagExternalRepo tag nm p] := by
  have hnm_mem : (⟨nm, p⟩ : DeclRepo) ∈ rl := by
    have hm : (⟨nm, p⟩ : DeclRepo) ∈ rl.filter (fun r => r.repo == nm) := by
      rw [hflt]
      exact List.mem_singleton.mpr rfl
    exact (List.mem_filter.mp hm).1
  have hnm_names : nm ∈ rl.map (fun r => r.repo) := by
    rw [List.mem_map]
    exact ⟨⟨nm, p⟩, hnm_mem, rfl⟩
  rw [ensure_external_repos_spec]
  dsimp only
  rw [if_neg (by simp)]
  rw [List.filter_append]
  have hrm : ((reposToRemove (getTagExternalRepos s tag) rl).map
      (Call.removeExternalRepoFromTag tag)).filter (fun c => c.repoArg == some nm) = [] := by
    rw [List.filter_eq_nil_iff]
    intro c hc
    rw [List.mem_map] at hc
    obtain ⟨n, hn, hcn⟩ := hc
    unfold reposToRemove at hn
    rw [List.mem_filter] at hn
    have hnotin : ¬ n ∈ rl.map (fun r => r.repo) := by
      have := hn.2
      simpa using this
    rw [← hcn]
    simp only [Call.repoArg, beq_iff_eq, Option.some.injEq]
    intro he
    rw [he] at hnotin
    exact hnotin hnm_names
  rw [hrm]
  have hmain : ∀ (l : List DeclRepo), l.filter (fun r => r.repo == nm) = [⟨nm, p⟩] →
      (l.flatMap (repoDecision tag (getTagExternalRepos s tag))).filter
        (fun c => c.repoArg == some nm) = [Call.editTagExternalRepo tag nm p] := by
    intro l
    induction l with
    | nil =>
      intro h
      simp at h
    | cons r tl ih =>
      intro h
      rw [List.filter_cons] at h
      by_cases hr : (r.repo == nm) = true
      · rw [if_pos hr] at h
        injection h with h1 h2
        subst h1
        rw [List.flatMap_cons, List.filter_append]
        have hdec : (repoDecision tag (getTagExternalRepos s tag) ⟨nm, p⟩).filter
            (fun c => c.repoArg == some nm) = [Call.editTagExternalRepo tag nm p] := by
          unfold repoDecision
          dsimp only
          rw [hfind]
          dsimp only
          rw [if_neg hne]
          simp [Call.repoArg]
        rw [hdec]
        have htl : ∀ x ∈ tl, ¬ (x.repo == nm) = true := by
          intro x hx hxx
          have hmem : x ∈ tl.filter (fun r => r.repo == nm) := List.mem_filter.mpr ⟨hx, hxx⟩
          rw [h2] at hmem
          simp at hmem
        rw [repoDecision_filter_other tag _ nm tl htl]
        rfl
      · rw [if_neg hr] at h
        rw [List.flatMap_cons, List.filter_append, ih h]
        have hhd : (repoDecision tag (getTagExternalRepos s tag) r).filter
            (fun c => c.repoArg == some nm) = [] := by
          have := repoDecision_filter_other tag (getTagExternalRepos s tag) nm [r]
            (by
              intro x hx
              rw [List.mem_singleton] at hx
              subst hx
              exact hr)
          simpa using this
        rw [hhd]
        rfl
  rw [hmain rl hflt]
  rfl

theorem ensure_tag_existing_to_rest (s0 : RemoteState) (pc : List (String × Nat))
    (name : String) (check : Bool) (inh : List DeclInh) (er : Option (List DeclRepo))
    (packages : List (String × List String)) (kw : TagKwargs) (t : TagInfo)
    (ht : getTag s0 name = some t) :
    ∃ (s1 : RemoteState) (res1 : TagResult) (cs1 : List Call),
      ensure_tag s0 pc name check inh er packages kw =
        ensureTagRest s1 pc name check inh er packages t.id res1 cs1 ∧
      s1.repos = s0.repos ∧ s1.inher = s0.inher ∧ s1.pkgs = s0.pkgs ∧
      (∀ x, (getTag s1 x).map TagInfo.id = (getTag s0 x).map TagInfo.id) ∧
      (cs1 = [] ∨ cs1 = [Call.editTag2 name (computeEdits t kw)]) := by
  unfold ensure_tag
  rw [ht]
  dsimp only
  by_cases hed : (computeEdits t kw).isEmpty = true
  · rw [if_pos hed]
    exact ⟨s0, ⟨false, []⟩, [], rfl, rfl, rfl, rfl, fun x => rfl, Or.inl rfl⟩
  · rw [if_neg hed]
    by_cases hch : check = true
    · rw [if_pos hch]
      exact ⟨s0, ⟨true, [editsStr (computeEdits t kw)]⟩, [], rfl, rfl, rfl, rfl,
        fun x => rfl, Or.inl rfl⟩
    · rw [if_neg hch]
      exact ⟨applyEditTag2 s0 name (computeEdits t kw), ⟨true, [editsStr (computeEdits t kw)]⟩,
        [Call.editTag2 name (computeEdits t kw)], rfl,
        applyEditTag2_repos s0 name _, applyEditTag2_inher s0 name _,
        applyEditTag2_pkgs s0 name _,
        getTag_map_id_applyEditTag2 s0 name _ t ht, Or.inr rfl⟩

theorem ensureTagRest_none_er_repos (s : RemoteState) (pc : List (String × Nat))
    (name : String) (check : Bool) (inh : List DeclInh)
    (packages : List (String × List String)) (tagID : Nat) (res : TagResult) (cs : List Call) :
    (ensureTagRest s pc name check inh none packages tagID res cs).state.repos = s.repos := by
  cases hbr : buildRules s tagID inh with
  | error e =>
    unfold ensureTagRest
    rw [hbr]
  | ok rules =>
    rw [ensureTagRest_spec s pc name check inh none packages tagID res cs rules hbr]
    dsimp only
    have hs1 : (if getInheritanceData s name = rules then s
        else if check then s else applySetInheritance s name rules).repos = s.repos := by
      by_cases hinh : getInheritanceData s name = rules
      · rw [if_pos hinh]
      · rw [if_neg hinh]
        by_cases hch : check = true
        · rw [if_pos hch]
        · rw [if_neg hch]
          exact applySetInheritance_repos s name rules
    by_cases hpk : packages.isEmpty
    · rw [if_pos hpk]
      exact hs1
    · rw [if_neg hpk]
      rw [ensure_packages_state_repos]
      exact hs1

theorem ensure_tag_none_er_no_repo_calls (s0 : RemoteState) (pc : List (String × Nat))
    (name : String) (check : Bool) (inh : List DeclInh)
    (packages : List (String × List String)) (kw : TagKwargs) :
    (ensure_tag s0 pc name check inh none packages kw).calls.filter Call.isRepo = [] := by
  rw [List.filter_eq_nil_iff]
  intro c hc
  rcases ensure_tag_calls_mem s0 pc name check inh none packages kw c hc with
    h1 | ⟨kw2, pid, h1⟩ | ⟨e, h1⟩ | ⟨rules, h1⟩ | ⟨s', rl, her, h1⟩ | ⟨s', tid, _, h1⟩
  · simp [h1, Call.isRepo]
  · simp [h1, Call.isRepo]
  · simp [h1, Call.isRepo]
  · simp [h1, Call.isRepo]
  · exact absurd her (by simp)
  · rcases ensure_packages_calls_shape s' name tid check packages c h1 with
      h2 | ⟨q, o, h2⟩ | ⟨q, o, h2⟩ | ⟨q, h2⟩ <;> simp [h2, Call.isRepo]

theorem ensureTagRest_empty_er_clears (s : RemoteState) (pc : List (String × Nat))
    (name : String) (inh : List DeclInh) (packages : List (String × List String))
    (tagID : Nat) (res : TagResult) (cs : List Call) (rules : List InheritanceRule)
    (hrules : buildRules s tagID inh = .ok rules) :
    getTagExternalRepos
      (ensureTagRest s pc name false inh (some []) packages tagID res cs).state name = [] := by
  rw [ensureTagRest_spec s pc name false inh (some []) packages tagID res cs rules hrules]
  dsimp only
  have hclear : ∀ s1 : RemoteState,
      getTagExternalRepos ((ensure_external_repos s1 name false []).2.1) name = [] := by
    intro s1
    rw [ensure_external_repos_spec]
    dsimp only
    rw [if_neg (by simp)]
    rw [List.foldl_nil]
    apply removeAll_repos
    intro r hr
    unfold reposToRemove
    rw [List.mem_filter]
    refine ⟨List.mem_map_of_mem _ hr, by simp⟩
  by_cases hpk : packages.isEmpty
  · rw [if_pos hpk]
    exact hclear _
  · rw [if_neg hpk]
    rw [getTagExternalRepos_congr _ _ (ensure_packages_state_repos _ _ _ _ _) name]
    exact hclear _

/-- C5: for the external-repo synchronizer on an existing tag: a declared
absent (unset) list leaves every external-repo binding untouched and issues no
external-repo call; a declared empty list removes every existing binding of
the tag; and a declared binding whose repo name exists remotely with a
different priority yields exactly one priority-edit call for that repo — never
an add plus a remove. -/
theorem external_repo_sync_policy (s0 : RemoteState) (pc : List (String × Nat))
    (name : String) (check : Bool) (inh : List DeclInh)
    (packages : List (String × List String)) (kw : TagKwargs) (t : TagInfo)
    (nm : String) (p : Int) (rl : List DeclRepo) (cur : RemoteRepo)
    (rules : List InheritanceRule) (ht : getTag s0 name = some t) :
    ((ensure_tag s0 pc name check inh none packages kw).state.repos = s0.repos ∧
      (ensure_tag s0 pc name check inh none packages kw).calls.filter Call.isRepo = []) ∧
    (buildRules s0 t.id inh = .ok rules →
      getTagExternalRepos (ensure_tag s0 pc name false inh (some []) packages kw).state name
        = []) ∧
    (rl.filter (fun r => r.repo == nm) = [⟨nm, p⟩] →
      (getTagExternalRepos s0 name).find? (fun c => c.external_repo_name == nm) = some cur →
      ¬ (p == cur.priority) = true →
      ((ensure_external_repos s0 name false rl).2.2).filter (fun c => c.repoArg == some nm) =
        [Call.editTagExternalRepo name nm p]) := by
  refine ⟨⟨?_, ensure_tag_none_er_no_repo_calls s0 pc name check inh packages kw⟩, ?_, ?_⟩
  · obtain ⟨s1, res1, cs1, heq, hrepos, _, _, _, _⟩ :=
      ensure_tag_existing_to_rest s0 pc name check inh none packages kw t ht
    rw [heq, ensureTagRest_none_er_repos, hrepos]
  · intro hrules
    obtain ⟨s1, res1, cs1, heq, hrepos, _, _, hmap, _⟩ :=
      ensure_tag_existing_to_rest s0 pc name false inh (some []) packages kw t ht
    rw [heq]
    have hrules1 : buildRules s1 t.id inh = .ok rules := by
      rw [buildRules_congr s1 s0 t.id inh hmap]
      exact hrules
    exact ensureTagRest_empty_er_clears s1 pc name inh packages t.id res1 cs1 rules hrules1
  · intro hflt hfind hne
    exact ensure_external_repos_one_edit s0 name nm p rl cur hflt hfind hne

/-- Witness for C5: the concrete state has binding centos7-cr priority 1;
declaring priority 5 yields exactly the one edit call. -/
theorem external_repo_sync_policy_witness :
    ((ensure_external_repos exState "ceph" false [⟨"centos7-cr", 5⟩]).2.2).filter
        (fun c => c.repoArg == some "centos7-cr") =
      [Call.editTagExternalRepo "ceph" "centos7-cr" 5] :=
  (external_repo_sync_policy exState [] "ceph" false [] [] exKw exTag "centos7-cr" 5
    [⟨"centos7-cr", 5⟩] ⟨"centos7-cr", 1⟩ [] rfl).2.2 rfl rfl (by decide)

theorem ensureTagRest_empty_packages_pkgs (s : RemoteState) (pc : List (String × Nat))
    (name : String) (check : Bool) (inh : List DeclInh) (er : Option (List DeclRepo))
    (tagID : Nat) (res : TagResult) (cs : List Call) :
    (ensureTagRest s pc name check inh er [] tagID res cs).state.pkgs = s.pkgs := by
  cases hbr : buildRules s tagID inh with
  | error e =>
    unfold ensureTagRest
    rw [hbr]
  | ok rules =>
    rw [ensureTagRest_spec s pc name check inh er [] tagID res cs rules hbr]
    dsimp only
    rw [if_pos List.isEmpty_nil]
    have hs1 : (if getInheritanceData s name = rules then s
        else if check then s else applySetInheritance s name rules).pkgs = s.pkgs := by
      by_cases hinh : getInheritanceData s name = rules
      · rw [if_pos hinh]
      · rw [if_neg hinh]
        by_cases hch : check = true
        · rw [if_pos hch]
        · rw [if_neg hch]
          exact applySetInheritance_pkgs s name rules
    cases er with
    | none => exact hs1
    | some rl =>
      rw [ensure_external_repos_state_pkgs]
      exact hs1

theorem ensure_tag_empty_packages_no_pkg_calls (s0 : RemoteState) (pc : List (String × Nat))
    (name : String) (check : Bool) (inh : List DeclInh) (er : Option (List DeclRepo))
    (kw : TagKwargs) :
    (ensure_tag s0 pc name check inh er [] kw).calls.filter Call.isPkg = [] := by
  rw [List.filter_eq_nil_iff]
  intro c hc
  rcases ensure_tag_calls_mem s0 pc name check inh er [] kw c hc with
    h1 | ⟨kw2, pid, h1⟩ | ⟨e, h1⟩ | ⟨rules, h1⟩ | ⟨s', rl, her, h1⟩ | ⟨s', tid, hpk, h1⟩
  · simp [h1, Call.isPkg]
  · simp [h1, Call.isPkg]
  · simp [h1, Call.isPkg]
  · simp [h1, Call.isPkg]
  · rcases ensure_external_repos_calls_shape s' name check rl c h1 with
      ⟨r, q, h2⟩ | ⟨r, q, h2⟩ | ⟨r, h2⟩ <;> simp [h2, Call.isPkg]
  · simp at hpk

theorem pkgDecision_filter_other (tag : String) (cn : List String)
    (ob : String → List String) (pkg : String) (l : List (String × String))
    (hl : ∀ pr ∈ l, ¬ (pr.2 == pkg) = true) :
    (l.flatMap (pkgDecision tag cn ob)).filter (fun c => c.pkgArg == some pkg) = [] := by
  rw [List.filter_eq_nil_iff]
  intro c hc
  rw [List.mem_flatMap] at hc
  obtain ⟨pr, hpr, hcr⟩ := hc
  rcases pkgDecision_shape tag cn ob pr c hcr with h2 | h2 <;>
    (rw [h2]; simp [Call.pkgArg]; intro he; exact absurd (by simp [he]) (hl pr hpr))

theorem pkgPairs_map_snd (packages : List (String × List String)) :
    (pkgPairs packages).map Prod.snd = packages.flatMap (fun p => p.2) := by
  unfold pkgPairs
  rw [List.map_flatMap]
  congr 1
  funext op
  rw [List.map_map]
  simp

theorem ensure_packages_one_reassign (s : RemoteState) (tag : String) (tagID : Nat)
    (packages : List (String × List String)) (pkg o q : String)
    (hpairs : (pkgPairs packages).filter (fun pr => pr.2 == pkg) = [(o, pkg)])
    (hmem : (⟨pkg, q⟩ : RemotePkg) ∈ listPackagesOf s tagID)
    (hnodup : ((listPackagesOf s tagID).map (fun p => p.package_name)).Nodup)
    (hq : ¬ (q == o) = true) :
    ((ensure_packages s tag tagID false packages).2.2).filter
      (fun c => c.pkgArg == some pkg) = [Call.packageListSetOwner tag pkg o] := by
  have hcn : pkg ∈ pkgNames (listPackagesOf s tagID) := by
    unfold pkgNames
    rw [List.mem_map]
    exact ⟨⟨pkg, q⟩, hmem, rfl⟩
  have hob : ¬ pkg ∈ ownedBySnap (listPackagesOf s tagID) o := by
    intro hin
    unfold ownedBySnap at hin
    rw [List.mem_map] at hin
    obtain ⟨e, he, hep⟩ := hin
    rw [List.mem_filter] at he
    have heq : e = ⟨pkg, q⟩ := by
      apply List.inj_on_of_nodup_map hnodup he.1 hmem
      rw [hep]
    rw [heq] at he
    exact hq he.2
  have hpkg_all : pkg ∈ packages.flatMap (fun p => p.2) := by
    have hm : ((o, pkg) : String × String) ∈ pkgPairs packages := by
      have hmf : ((o, pkg) : String × String) ∈
          (pkgPairs packages).filter (fun pr => pr.2 == pkg) := by
        rw [hpairs]
        exact List.mem_singleton.mpr rfl
      exact (List.mem_filter.mp hmf).1
    rw [← pkgPairs_map_snd]
    rw [List.mem_map]
    exact ⟨(o, pkg), hm, rfl⟩
  rw [ensure_packages_spec]
  dsimp only
  rw [if_neg (by simp)]
  rw [List.filter_cons]
  rw [if_neg (by simp [Call.pkgArg])]
  rw [List.filter_append]
  have hrm : ((pkgDeleteNames (listPackagesOf s tagID) packages).map
      (fun n => Call.packageListRemove tag n (lastOwnerOf packages))).filter
      (fun c => c.pkgArg == some pkg) = [] := by
    rw [List.filter_eq_nil_iff]
    intro c hc
    rw [List.mem_map] at hc
    obtain ⟨n, hn, hcn2⟩ := hc
    unfold pkgDeleteNames at hn
    rw [List.mem_filter] at hn
    have hnotin : ¬ n ∈ packages.flatMap (fun p => p.2) := by
      have := hn.2
      simpa using this
    rw [← hcn2]
    simp only [Call.pkgArg, beq_iff_eq, Option.some.injEq]
    intro he
    rw [he] at hnotin
    exact hnotin hpkg_all
  rw [hrm]
  have hmain : ∀ (l : List (String × String)),
      l.filter (fun pr => pr.2 == pkg) = [(o, pkg)] →
      (l.flatMap (pkgDecision tag (pkgNames (listPackagesOf s tagID))
          (ownedBySnap (listPackagesOf s tagID)))).filter
        (fun c => c.pkgArg == some pkg) = [Call.packageListSetOwner tag pkg o] := by
    intro l
    induction l with
    | nil =>
      intro h
      simp at h
    | cons pr tl ih =>
      intro h
      rw [List.filter_cons] at h
      by_cases hr : (pr.2 == pkg) = true
      · rw [if_pos hr] at h
        injection h with h1 h2
        subst h1
        rw [List.flatMap_cons, List.filter_append]
        have hdec : (pkgDecision tag (pkgNames (listPackagesOf s tagID))
            (ownedBySnap (listPackagesOf s tagID)) (o, pkg)).filter
            (fun c => c.pkgArg == some pkg) = [Call.packageListSetOwner tag pkg o] := by
          unfold pkgDecision
          dsimp only
          rw [if_neg (by simp [hcn]), if_pos (by simp [hob])]
          simp [Call.pkgArg]
        rw [hdec]
        have htl : ∀ x ∈ tl, ¬ (x.2 == pkg) = true := by
          intro x hx hxx
          have hmem2 : x ∈ tl.filter (fun pr => pr.2 == pkg) := List.mem_filter.mpr ⟨hx, hxx⟩
          rw [h2] at hmem2
          simp at hmem2
        rw [pkgDecision_filter_other tag _ _ pkg tl htl]
        rfl
      · rw [if_neg hr] at h
        rw [List.flatMap_cons, List.filter_append, ih h]
        have hhd : (pkgDecision tag (pkgNames (listPackagesOf s tagID))
            (ownedBySnap (listPackagesOf s tagID)) pr).filter
            (fun c => c.pkgArg == some pkg) = [] := by
          have := pkgDecision_filter_other tag (pkgNames (listPackagesOf s tagID))
            (ownedBySnap (listPackagesOf s tagID)) pkg [pr]
            (by
              intro x hx
              rw [List.mem_singleton] at hx
              subst hx
              exact hr)
          simpa using this
        rw [hhd]
        rfl
  rw [hmain (pkgPairs packages) hpairs]
  rfl

/-- C6: with a declared empty package mapping the package section never runs:
no `listPackages` fetch, no package-list writes, and the tag's package state
is untouched.  When a declared (owner, package) pair names a package that is
present remotely under a different owner, the synchronizer issues exactly one
ownership reassignment for that package — zero adds and zero removes. -/
theorem package_sync_policy (s0 : RemoteState) (pc : List (String × Nat)) (name : String)
    (check : Bool) (inh : List DeclInh) (er : Option (List DeclRepo)) (kw : TagKwargs)
    (t : TagInfo) (packages : List (String × List String)) (pkg o q : String)
    (ht : getTag s0 name = some t) :
    ((ensure_tag s0 pc name check inh er [] kw).state.pkgs = s0.pkgs ∧
     (ensure_tag s0 pc name check inh er [] kw).calls.filter Call.isPkg = []) ∧
    ((pkgPairs packages).filter (fun pr => pr.2 == pkg) = [(o, pkg)] →
      (⟨pkg, q⟩ : RemotePkg) ∈ listPackagesOf s0 t.id →
      ((listPackagesOf s0 t.id).map (fun p => p.package_name)).Nodup →
      ¬ (q == o) = true →
      ((ensure_packages s0 name t.id false packages).2.2).filter
        (fun c => c.pkgArg == some pkg) = [Call.packageListSetOwner name pkg o]) := by
  refine ⟨⟨?_, ensure_tag_empty_packages_no_pkg_calls s0 pc name check inh er kw⟩, ?_⟩
  · obtain ⟨s1, res1, cs1, heq, _, _, hpkgs, _, _⟩ :=
      ensure_tag_existing_to_rest s0 pc name check inh er [] kw t ht
    rw [heq, ensureTagRest_empty_packages_pkgs, hpkgs]
  · intro h1 h2 h3 h4
    exact ensure_packages_one_reassign s0 name t.id packages pkg o q h1 h2 h3 h4

/-- Witness for C6: declaring `{"alice": ["foo"]}` against remote
`[{foo, carol}]` produces exactly the one `packageListSetOwner` call. -/
theorem package_sync_policy_witness :
    ((ensure_packages exState "ceph" exTag.id false [("alice", ["foo"])]).2.2).filter
      (fun c => c.pkgArg == some "foo") = [Call.packageListSetOwner "ceph" "foo" "alice"] :=
  (package_sync_policy exState [] "ceph" false [] none exKw exTag [("alice", ["foo"])]
    "foo" "alice" "carol" rfl).2 rfl (by decide) (by decide) (by decide)

theorem ensure_external_repos_check_state (s : RemoteState) (tag : String)
    (rl : List DeclRepo) : (ensure_external_repos s tag true rl).2.1 = s := by
  rw [ensure_external_repos_spec]
  rfl

theorem ensure_external_repos_check_calls (s : RemoteState) (tag : String)
    (rl : List DeclRepo) : (ensure_external_repos s tag true rl).2.2 = [] := by
  rw [ensure_external_repos_spec]
  rfl

theorem ensure_packages_check_state (s : RemoteState) (tag : String) (tagID : Nat)
    (packages : List (String × List String)) :
    (ensure_packages s tag tagID true packages).2.1 = s := by
  rw [ensure_packages_spec]
  rfl

theorem ensure_packages_check_calls (s : RemoteState) (tag : String) (tagID : Nat)
    (packages : List (String × List String)) :
    (ensure_packages s tag tagID true packages).2.2 = [Call.listPackages tagID] := by
  rw [ensure_packages_spec]
  rfl

theorem ensure_external_repos_result_eq (s s' : RemoteState) (tag : String) (c1 c2 : Bool)
    (rl : List DeclRepo) (h : getTagExternalRepos s tag = getTagExternalRepos s' tag) :
    (ensure_external_repos s tag c1 rl).1 = (ensure_external_repos s' tag c2 rl).1 := by
  rw [ensure_external_repos_spec, ensure_external_repos_spec]
  dsimp only
  rw [h]

theorem ensure_packages_result_eq (s s' : RemoteState) (tag : String) (tagID : Nat)
    (c1 c2 : Bool) (packages : List (String × List String))
    (h : listPackagesOf s tagID = listPackagesOf s' tagID) :
    (ensure_packages s tag tagID c1 packages).1 = (ensure_packages s' tag tagID c2 packages).1 := by
  rw [ensure_packages_spec, ensure_packages_spec]
  dsimp only
  rw [h]

theorem ensureTagRest_check (s : RemoteState) (pc : List (String × Nat)) (name : String)
    (inh : List DeclInh) (er : Option (List DeclRepo)) (packages : List (String × List String))
    (tagID : Nat) (res : TagResult) (cs : List Call) :
    (ensureTagRest s pc name true inh er packages tagID res cs).state = s ∧
    ((ensureTagRest s pc name true inh er packages tagID res cs).calls = cs ∨
     (ensureTagRest s pc name true inh er packages tagID res cs).calls =
       cs ++ [Call.listPackages tagID]) := by
  cases hbr : buildRules s tagID inh with
  | error e =>
    unfold ensureTagRest
    rw [hbr]
    exact ⟨rfl, Or.inl rfl⟩
  | ok rules =>
    rw [ensureTagRest_spec s pc name true inh er packages tagID res cs rules hbr]
    dsimp only
    by_cases hinh : getInheritanceData s name = rules <;>
      by_cases hpk : packages.isEmpty <;>
      cases er <;>
      simp [hinh, hpk, ensure_external_repos_check_state, ensure_packages_check_state,
        ensure_external_repos_check_calls, ensure_packages_check_calls]

theorem listPackagesOf_congr (s' s : RemoteState) (h : s'.pkgs = s.pkgs) (x : Nat) :
    listPackagesOf s' x = listPackagesOf s x := by
  unfold listPackagesOf
  rw [h]

theorem ensureTagRest_result_mode_eq (sC sA : RemoteState) (pcC pcA : List (String × Nat))
    (name : String) (inh : List DeclInh) (er : Option (List DeclRepo))
    (packages : List (String × List String)) (tagID : Nat) (res : TagResult)
    (csC csA : List Call)
    (hmap : ∀ x, (getTag sA x).map TagInfo.id = (getTag sC x).map TagInfo.id)
    (hinher : sA.inher = sC.inher) (hrepos : sA.repos = sC.repos) (hpkgs : sA.pkgs = sC.pkgs) :
    (ensureTagRest sC pcC name true inh er packages tagID res csC).result =
    (ensureTagRest sA pcA name false inh er packages tagID res csA).result := by
  cases hbr : buildRules sC tagID inh with
  | error e =>
    have hbrA : buildRules sA tagID inh = .error e := by
      rw [buildRules_congr sA sC tagID inh hmap, hbr]
    unfold ensureTagRest
    rw [hbr, hbrA]
  | ok rules =>
    have hbrA : buildRules sA tagID inh = .ok rules := by
      rw [buildRules_congr sA sC tagID inh hmap]
      exact hbr
    rw [ensureTagRest_spec sC pcC name true inh er packages tagID res csC rules hbr,
        ensureTagRest_spec sA pcA name false inh er packages tagID res csA rules hbrA]
    dsimp only
    have hcur : getInheritanceData sA name = getInheritanceData sC name :=
      getInheritanceData_congr sA sC hinher name
    rw [hcur]
    by_cases hinh : getInheritanceData sC name = rules
    · simp only [if_pos hinh]
      cases er with
      | none =>
        by_cases hpk : packages.isEmpty
        · simp [hpk]
        · have hlp : listPackagesOf sA tagID = listPackagesOf sC tagID :=
            listPackagesOf_congr sA sC hpkgs tagID
          have hres := ensure_packages_result_eq sA sC name tagID false true packages hlp
          simp [hpk, hres]
      | some rl =>
        have hrepoEq : getTagExternalRepos sA name = getTagExternalRepos sC name :=
          getTagExternalRepos_congr sA sC hrepos name
        have hresEr := ensure_external_repos_result_eq sA sC name false true rl hrepoEq
        by_cases hpk : packages.isEmpty
        · simp [hpk, hresEr]
        · have hlp : listPackagesOf (ensure_external_repos sA name false rl).2.1 tagID =
              listPackagesOf sC tagID := by
            unfold listPackagesOf
            rw [ensure_external_repos_state_pkgs, hpkgs]
          have hresPk := ensure_packages_result_eq (ensure_external_repos sA name false rl).2.1
            sC name tagID false true packages hlp
          simp [hpk, hresEr, hresPk, ensure_external_repos_check_state]
    · simp only [if_neg hinh]
      cases er with
      | none =>
        by_cases hpk : packages.isEmpty
        · simp [hpk]
        · have hlp : listPackagesOf (applySetInheritance sA name rules) tagID =
              listPackagesOf sC tagID := by
            unfold listPackagesOf
            rw [applySetInheritance_pkgs, hpkgs]
          have hres := ensure_packages_result_eq (applySetInheritance sA name rules) sC
            name tagID false true packages hlp
          simp [hpk, hres]
      | some rl =>
        have hrepoEq : getTagExternalRepos (applySetInheritance sA name rules) name =
            getTagExternalRepos sC name := by
          unfold getTagExternalRepos
          rw [applySetInheritance_repos, hrepos]
        have hresEr := ensure_external_repos_result_eq (applySetInheritance sA name rules) sC
          name false true rl hrepoEq
        by_cases hpk : packages.isEmpty
        · simp [hpk, hresEr]
        · have hlp : listPackagesOf
              (ensure_external_repos (applySetInheritance sA name rules) name false rl).2.1
                tagID = listPackagesOf sC tagID := by
            unfold listPackagesOf
            rw [ensure_external_repos_state_pkgs, applySetInheritance_pkgs, hpkgs]
          have hresPk := ensure_packages_result_eq
            (ensure_external_repos (applySetInheritance sA name rules) name false rl).2.1
            sC name tagID false true packages hlp
          simp [hpk, hresEr, hresPk, ensure_external_repos_check_state]

theorem ensureTagRest_check_frame (s : RemoteState) (pc : List (String × Nat)) (name : String)
    (inh : List DeclInh) (er : Option (List DeclRepo)) (packages : List (String × List String))
    (tagID : Nat) (res : TagResult) :
    (ensureTagRest s pc name true inh er packages tagID res []).state = s ∧
    ∀ c ∈ (ensureTagRest s pc name true inh er packages tagID res []).calls,
      c.isMutating = false := by
  obtain ⟨hst, hcl⟩ := ensureTagRest_check s pc name inh er packages tagID res []
  refine ⟨hst, ?_⟩
  intro c hc
  rcases hcl with h | h <;> rw [h] at hc
  · simp at hc
  · simp at hc
    subst hc
    rfl

theorem ensure_tag_check_frame (s0 : RemoteState) (pc : List (String × Nat)) (name : String)
    (inh : List DeclInh) (er : Option (List DeclRepo)) (packages : List (String × List String))
    (kw : TagKwargs) :
    (ensure_tag s0 pc name true inh er packages kw).state = s0 ∧
    ∀ c ∈ (ensure_tag s0 pc name true inh er packages kw).calls, c.isMutating = false := by
  cases hT : getTag s0 name with
  | none =>
    unfold ensure_tag
    rw [hT]
    dsimp only
    rw [if_pos (Eq.refl (true : Bool))]
    exact ⟨rfl, by intro c hc; simp at hc⟩
  | some t =>
    unfold ensure_tag
    rw [hT]
    dsimp only
    by_cases hed : (computeEdits t kw).isEmpty
    · rw [if_pos hed]
      exact ensureTagRest_check_frame s0 pc name inh er packages t.id _
    · rw [if_neg hed]
      rw [if_pos (Eq.refl (true : Bool))]
      exact ensureTagRest_check_frame s0 pc name inh er packages t.id _

theorem ensure_tag_existing_result_mode_eq (s0 : RemoteState) (pc : List (String × Nat))
    (name : String) (inh : List DeclInh) (er : Option (List DeclRepo))
    (packages : List (String × List String)) (kw : TagKwargs) (t : TagInfo)
    (ht : getTag s0 name = some t) :
    (ensure_tag s0 pc name true inh er packages kw).result =
    (ensure_tag s0 pc name false inh er packages kw).result := by
  unfold ensure_tag
  rw [ht]
  dsimp only
  by_cases hed : (computeEdits t kw).isEmpty
  · simp only [if_pos hed]
    exact ensureTagRest_result_mode_eq s0 s0 pc pc name inh er packages t.id _ [] []
      (fun x => rfl) rfl rfl rfl
  · simp only [if_neg hed, if_pos (Eq.refl (true : Bool)),
      if_neg (Bool.false_ne_true)]
    exact ensureTagRest_result_mode_eq s0 (applyEditTag2 s0 name (computeEdits t kw)) pc pc
      name inh er packages t.id _ [] [Call.editTag2 name (computeEdits t kw)]
      (getTag_map_id_applyEditTag2 s0 name _ t ht)
      (applyEditTag2_inher s0 name _) (applyEditTag2_repos s0 name _)
      (applyEditTag2_pkgs s0 name _)

/-- C1 counterexample.  Dry run is not transparent for every scenario: the
content-generator module never consults the check-mode flag, so a dry run
with state "absent" still issues the mutating `revokeCGAccess` call; and on
the tag-creation path the dry-run log line ("would create tag ...") differs
from the apply-mode log line ("created tag id ..."), so the stdout content
of the two modes disagrees. -/
theorem dryrun_policy_cex :
    (koji_cg_run ⟨CGOutcome.ok, CGOutcome.ok⟩ true "u" "cg1" "absent").2 =
      [CGCall.revokeCGAccess "u" "cg1"] ∧
    (ensure_tag exState [] "newtag" true [] none [] exKw).result =
      .ok { changed := true, stdout_lines := ["would create tag newtag"] } ∧
    (ensure_tag exState [] "newtag" false [] none [] exKw).result =
      .ok { changed := true, stdout_lines := ["created tag id 5"] } ∧
    ("would create tag newtag" : String) ≠ "created tag id 5" :=
  ⟨rfl, rfl, rfl, by decide⟩

/-- C1 (amended): (1) the tag module in check mode leaves the remote state
unchanged and issues only non-mutating session calls; (2) when the tag
already exists remotely, the check-mode run returns the identical result
(changed flag and stdout lines) as the apply-mode run against the same
remote state; (3) the content-generator module behaves identically whatever
the check-mode flag is — in particular a dry run still issues its mutating
grant/revoke call, and on the tag-creation path the check-mode log differs
from the apply-mode log (see the counterexample). -/
theorem dryrun_policy :
    (∀ (s0 : RemoteState) (pc : List (String × Nat)) (name : String)
       (inh : List DeclInh) (er : Option (List DeclRepo))
       (packages : List (String × List String)) (kw : TagKwargs),
      (ensure_tag s0 pc name true inh er packages kw).state = s0 ∧
      ∀ c ∈ (ensure_tag s0 pc name true inh er packages kw).calls, c.isMutating = false) ∧
    (∀ (s0 : RemoteState) (pc : List (String × Nat)) (name : String)
       (inh : List DeclInh) (er : Option (List DeclRepo))
       (packages : List (String × List String)) (kw : TagKwargs) (t : TagInfo),
      getTag s0 name = some t →
      (ensure_tag s0 pc name true inh er packages kw).result =
      (ensure_tag s0 pc name false inh er packages kw).result) ∧
    (∀ (env : CGEnv) (check : Bool) (user name st : String),
      koji_cg_run env check user name st = koji_cg_run env false user name st) :=
  ⟨fun s0 pc name inh er packages kw => ensure_tag_check_frame s0 pc name inh er packages kw,
   fun s0 pc name inh er packages kw t ht =>
     ensure_tag_existing_result_mode_eq s0 pc name inh er packages kw t ht,
   fun _ _ _ _ _ => rfl⟩

/-- Witness for `dryrun_policy`: the existing tag "ceph" of the example
state, reconciled with kwargs that drop extra key "b", yields the same
result in check mode and in apply mode. -/
theorem dryrun_policy_witness :
    getTag exState "ceph" = some exTag ∧
    (ensure_tag exState [] "ceph" true [] none [] exKwA).result =
    (ensure_tag exState [] "ceph" false [] none [] exKwA).result :=
  ⟨rfl, dryrun_policy.2.1 exState [] "ceph" [] none [] exKwA exTag rfl⟩

theorem updRepo_name (x : RemoteRepo) (rn : String) (p : Int) :
    ((if x.external_repo_name == rn then { x with priority := p } else x) :
      RemoteRepo).external_repo_name = x.external_repo_name := by
  by_cases h : x.external_repo_name == rn
  · rw [if_pos h]
  · rw [if_neg h]

theorem findRepo_cons (a : RemoteRepo) (l : List RemoteRepo) (n : String) :
    findRepo (a :: l) n =
      if a.external_repo_name == n then some a else findRepo l n := by
  unfold findRepo
  by_cases h : a.external_repo_name == n
  · simp [List.find?_cons_of_pos, h]
  · simp [List.find?_cons_of_neg, h]

theorem findRepo_map_upd (cur : List RemoteRepo) (rn : String) (p : Int) (n : String) :
    findRepo (cur.map (fun x =>
      if x.external_repo_name == rn then { x with priority := p } else x)) n =
    (findRepo cur n).map (fun x =>
      if x.external_repo_name == rn then { x with priority := p } else x) := by
  induction cur with
  | nil => rfl
  | cons a l ih =>
    rw [List.map_cons, findRepo_cons, findRepo_cons, updRepo_name]
    by_cases h : a.external_repo_name == n
    · rw [if_pos h, if_pos h]
      rfl
    · rw [if_neg h, if_neg h]
      exact ih

theorem findRepo_append_single (cur : List RemoteRepo) (e : RemoteRepo) (n : String) :
    findRepo (cur ++ [e]) n =
      ((findRepo cur n).orElse fun _ =>
        if e.external_repo_name == n then some e else none) := by
  induction cur with
  | nil =>
    show findRepo [e] n = _
    rw [findRepo_cons]
    by_cases h : e.external_repo_name == n
    · rw [if_pos h, if_pos h]
      rfl
    · rw [if_neg h, if_neg h]
      rfl
  | cons a l ih =>
    rw [List.cons_append, findRepo_cons, findRepo_cons]
    by_cases h : a.external_repo_name == n
    · rw [if_pos h, if_pos h]
      rfl
    · rw [if_neg h, if_neg h]
      exact ih

theorem repoListEffect_findRepo_ne (current cur : List RemoteRepo) (r : DeclRepo)
    (n : String) (hne : ¬ n = r.repo) :
    findRepo (repoListEffect current cur r) n = findRepo cur n := by
  unfold repoListEffect
  cases h : findRepo current r.repo with
  | some c =>
    dsimp only
    by_cases hp : r.priority == c.priority
    · rw [if_pos hp]
    · rw [if_neg hp, findRepo_map_upd]
      cases hf : findRepo cur n with
      | none => rfl
      | some x =>
        have hf' : List.find? (fun c => c.external_repo_name == n) cur = some x := hf
        have hpx := List.find?_some hf'
        have hxn : x.external_repo_name = n := eq_of_beq hpx
        have hb : (x.external_repo_name == r.repo) = false := by
          rw [hxn]
          exact beq_eq_false_iff_ne.mpr hne
        simp [hb]
        intro hc
        exact absurd (hxn.symm.trans hc) hne
  | none =>
    dsimp only
    rw [findRepo_append_single]
    have hb : (r.repo == n) = false := beq_eq_false_iff_ne.mpr (fun h => hne h.symm)
    cases hf : findRepo cur n <;> simp [hb, Option.orElse]

theorem foldl_repoListEffect_frozen (current : List RemoteRepo) (n : String) :
    ∀ (rl : List DeclRepo) (cur : List RemoteRepo), ¬ n ∈ rl.map DeclRepo.repo →
    findRepo (rl.foldl (repoListEffect current) cur) n = findRepo cur n := by
  intro rl
  induction rl with
  | nil => intro cur _; rfl
  | cons r rest ih =>
    intro cur hn
    rw [List.map_cons] at hn
    have h1 : ¬ n = r.repo := fun h => hn (h ▸ List.mem_cons_self _ _)
    have h2 : ¬ n ∈ rest.map DeclRepo.repo := fun h => hn (List.mem_cons_of_mem _ h)
    rw [List.foldl_cons, ih (repoListEffect current cur r) h2,
        repoListEffect_findRepo_ne current cur r n h1]

theorem foldl_repoListEffect_find (current : List RemoteRepo) :
    ∀ (rl : List DeclRepo) (cur : List RemoteRepo),
    (rl.map DeclRepo.repo).Nodup →
    (∀ r ∈ rl, findRepo cur r.repo = findRepo current r.repo) →
    ∀ r ∈ rl, ∃ c, findRepo (rl.foldl (repoListEffect current) cur) r.repo = some c ∧
      c.priority = r.priority := by
  intro rl
  induction rl with
  | nil =>
    intro cur _ _ r hr
    exact absurd hr (List.not_mem_nil r)
  | cons r0 rest ih =>
    intro cur hnd hpre r hr
    rw [List.map_cons, List.nodup_cons] at hnd
    rw [List.foldl_cons]
    rcases List.mem_cons.mp hr with heq | hmem
    · rw [heq]
      rw [foldl_repoListEffect_frozen current r0.repo rest (repoListEffect current cur r0)
            hnd.1]
      have hc := hpre r0 (List.mem_cons_self _ _)
      unfold repoListEffect
      cases h : findRepo current r0.repo with
      | some c =>
        dsimp only
        rw [h] at hc
        by_cases hp : r0.priority == c.priority
        · rw [if_pos hp]
          exact ⟨c, hc, (eq_of_beq hp).symm⟩
        · rw [if_neg hp, findRepo_map_upd, hc]
          have h' : List.find? (fun c => c.external_repo_name == r0.repo) current = some c := h
          have hcn := List.find?_some h'
          refine ⟨{ c with priority := r0.priority }, ?_, rfl⟩
          simp [hcn]
          intro hx
          exact absurd (eq_of_beq hcn) hx
      | none =>
        dsimp only
        rw [h] at hc
        rw [findRepo_append_single, hc]
        refine ⟨⟨r0.repo, r0.priority⟩, ?_, rfl⟩
        simp [Option.orElse]
    · apply ih (repoListEffect current cur r0) hnd.2 ?_ r hmem
      intro r' hr'
      have hner : ¬ r'.repo = r0.repo := by
        intro hcontra
        exact hnd.1 (hcontra ▸ List.mem_map_of_mem DeclRepo.repo hr')
      rw [repoListEffect_findRepo_ne current cur r0 r'.repo hner]
      exact hpre r' (List.mem_cons_of_mem _ hr')

theorem findRepo_filter_ne (n m : String) (h : ¬ m = n) :
    ∀ (L : List RemoteRepo),
    findRepo (L.filter (fun c => !(c.external_repo_name == n))) m = findRepo L m := by
  intro L
  induction L with
  | nil => rfl
  | cons a l ih =>
    rw [List.filter_cons]
    by_cases ha : a.external_repo_name == m
    · have han : (!(a.external_repo_name == n)) = true := by
        rw [eq_of_beq ha]
        simp
        exact h
      rw [if_pos han, findRepo_cons, findRepo_cons, if_pos ha, if_pos ha]
    · by_cases han : (!(a.external_repo_name == n)) = true
      · rw [if_pos han, findRepo_cons, findRepo_cons, if_neg ha, if_neg ha]
        exact ih
      · rw [if_neg han, findRepo_cons, if_neg ha]
        exact ih

theorem foldl_filterRepo_findRepo (m : String) :
    ∀ (ns : List String) (L : List RemoteRepo), ¬ m ∈ ns →
    findRepo (ns.foldl (fun l n => l.filter (fun c => !(c.external_repo_name == n))) L) m =
      findRepo L m := by
  intro ns
  induction ns with
  | nil => intro L _; rfl
  | cons n rest ih =>
    intro L hm
    rw [List.foldl_cons, ih _ (fun h => hm (List.mem_cons_of_mem _ h)),
        findRepo_filter_ne n m (fun h => hm (h ▸ List.mem_cons_self _ _))]

theorem mem_foldl_filterRepo :
    ∀ (ns : List String) (L : List RemoteRepo) (x : RemoteRepo),
    x ∈ ns.foldl (fun l n => l.filter (fun c => !(c.external_repo_name == n))) L →
    x ∈ L ∧ ¬ x.external_repo_name ∈ ns := by
  intro ns
  induction ns with
  | nil => intro L x h; exact ⟨h, List.not_mem_nil _⟩
  | cons n rest ih =>
    intro L x h
    rw [List.foldl_cons] at h
    obtain ⟨h1, h2⟩ := ih _ x h
    rw [List.mem_filter] at h1
    refine ⟨h1.1, ?_⟩
    intro hm
    rcases List.mem_cons.mp hm with heq | hmem
    · have h3 := h1.2
      rw [heq] at h3
      simp at h3
    · exact h2 hmem

theorem repoListEffect_names (current cur : List RemoteRepo) (r : DeclRepo) (nm : String)
    (h : nm ∈ (repoListEffect current cur r).map (fun c => c.external_repo_name)) :
    nm ∈ cur.map (fun c => c.external_repo_name) ∨ nm = r.repo := by
  unfold repoListEffect at h
  cases hc : findRepo current r.repo with
  | some c =>
    rw [hc] at h
    dsimp only at h
    by_cases hp : r.priority == c.priority
    · rw [if_pos hp] at h
      exact Or.inl h
    · rw [if_neg hp, List.map_map] at h
      have hcomp : ((fun c => c.external_repo_name) ∘ fun x =>
          if x.external_repo_name == r.repo then { x with priority := r.priority } else x) =
          (fun c : RemoteRepo => c.external_repo_name) := by
        funext x
        simp only [Function.comp_apply]
        exact updRepo_name x r.repo r.priority
      rw [hcomp] at h
      exact Or.inl h
  | none =>
    rw [hc] at h
    dsimp only at h
    rw [List.map_append] at h
    rcases List.mem_append.mp h with h1 | h1
    · exact Or.inl h1
    · right
      simpa using h1

theorem mem_foldl_repoListEffect (current : List RemoteRepo) :
    ∀ (rl : List DeclRepo) (cur : List RemoteRepo) (x : RemoteRepo),
    x ∈ rl.foldl (repoListEffect current) cur →
    x.external_repo_name ∈ cur.map (fun c => c.external_repo_name) ∨
      x.external_repo_name ∈ rl.map DeclRepo.repo := by
  intro rl
  induction rl with
  | nil =>
    intro cur x h
    exact Or.inl (List.mem_map_of_mem _ h)
  | cons r rest ih =>
    intro cur x h
    rw [List.foldl_cons] at h
    rw [List.map_cons]
    rcases ih _ x h with h1 | h1
    · rcases repoListEffect_names current cur r x.external_repo_name h1 with h2 | h2
      · exact Or.inl h2
      · exact Or.inr (h2 ▸ List.mem_cons_self _ _)
    · exact Or.inr (List.mem_cons_of_mem _ h1)

theorem getTagExternalRepos_repoEffect_self (tag : String) (current : List RemoteRepo)
    (st : RemoteState) (r : DeclRepo) :
    getTagExternalRepos (repoEffect tag current st r) tag =
      repoListEffect current (getTagExternalRepos st tag) r := by
  unfold repoEffect repoListEffect findRepo
  cases h : current.find? (fun c => c.external_repo_name == r.repo) with
  | some c =>
    dsimp only
    by_cases hp : r.priority == c.priority
    · rw [if_pos hp, if_pos hp]
    · rw [if_neg hp, if_neg hp, getTagExternalRepos_applyEditRepo_self]
  | none =>
    dsimp only
    exact getTagExternalRepos_applyAddRepo_self st tag r.repo r.priority

theorem getTagExternalRepos_foldl_repoEffect (tag : String) (current : List RemoteRepo) :
    ∀ (rl : List DeclRepo) (st : RemoteState),
    getTagExternalRepos (rl.foldl (repoEffect tag current) st) tag =
      rl.foldl (repoListEffect current) (getTagExternalRepos st tag) := by
  intro rl
  induction rl with
  | nil => intro st; rfl
  | cons r rest ih =>
    intro st
    rw [List.foldl_cons, List.foldl_cons, ih, getTagExternalRepos_repoEffect_self]

theorem getTagExternalRepos_foldl_removeRepo (tag : String) :
    ∀ (ns : List String) (st : RemoteState),
    getTagExternalRepos (ns.foldl (fun st n => applyRemoveRepo st tag n) st) tag =
      ns.foldl (fun l n => l.filter (fun c => !(c.external_repo_name == n)))
        (getTagExternalRepos st tag) := by
  intro ns
  induction ns with
  | nil => intro st; rfl
  | cons n rest ih =>
    intro st
    rw [List.foldl_cons, List.foldl_cons, ih, getTagExternalRepos_applyRemoveRepo_self]

theorem reposToRemove_not_mem_decl (current : List RemoteRepo) (rl : List DeclRepo)
    (r : DeclRepo) (hr : r ∈ rl) : ¬ r.repo ∈ reposToRemove current rl := by
  intro hmem
  unfold reposToRemove at hmem
  rw [List.mem_filter] at hmem
  have h2 := hmem.2
  have h3 : (rl.map DeclRepo.repo).contains r.repo = true :=
    List.elem_eq_true_of_mem (List.mem_map_of_mem DeclRepo.repo hr)
  rw [h3] at h2
  exact Bool.noConfusion h2

theorem ensure_external_repos_converged (s : RemoteState) (tag : String) (rl : List DeclRepo)
    (hnd : (rl.map DeclRepo.repo).Nodup) :
    repoConverged (getTagExternalRepos ((ensure_external_repos s tag false rl).2.1) tag) rl := by
  rw [ensure_external_repos_spec]
  dsimp only
  rw [if_neg (Bool.false_ne_true)]
  rw [getTagExternalRepos_foldl_removeRepo, getTagExternalRepos_foldl_repoEffect]
  constructor
  · intro r hr
    rw [foldl_filterRepo_findRepo r.repo (reposToRemove (getTagExternalRepos s tag) rl) _
          (reposToRemove_not_mem_decl (getTagExternalRepos s tag) rl r hr)]
    exact foldl_repoListEffect_find (getTagExternalRepos s tag) rl (getTagExternalRepos s tag)
      hnd (fun _ _ => rfl) r hr
  · intro x hx
    obtain ⟨hx1, hx2⟩ := mem_foldl_filterRepo (reposToRemove (getTagExternalRepos s tag) rl)
      _ x hx
    rcases mem_foldl_repoListEffect (getTagExternalRepos s tag) rl (getTagExternalRepos s tag)
        x hx1 with h1 | h1
    · by_cases hd : x.external_repo_name ∈ rl.map DeclRepo.repo
      · exact hd
      · exfalso
        apply hx2
        unfold reposToRemove
        rw [List.mem_filter]
        refine ⟨h1, ?_⟩
        have hc : (rl.map DeclRepo.repo).contains x.external_repo_name = false := by
          cases hcc : (rl.map DeclRepo.repo).contains x.external_repo_name with
          | false => rfl
          | true => exact absurd (List.mem_of_elem_eq_true hcc) hd
        rw [hc]
        rfl
    · exact h1

theorem ensure_external_repos_of_converged (s : RemoteState) (tag : String)
    (rl : List DeclRepo) (check : Bool)
    (h : repoConverged (getTagExternalRepos s tag) rl) :
    (ensure_external_repos s tag check rl).1 = { changed := false, stdout_lines := [] } := by
  rw [ensure_external_repos_spec]
  dsimp only
  obtain ⟨h1, h2⟩ := h
  have hrem : reposToRemove (getTagExternalRepos s tag) rl = [] := by
    unfold reposToRemove
    rw [List.filter_eq_nil_iff]
    intro n hn
    rw [List.mem_map] at hn
    obtain ⟨x, hx, hxn⟩ := hn
    have hm : (rl.map DeclRepo.repo).contains n = true :=
      List.elem_eq_true_of_mem (hxn ▸ h2 x hx)
    rw [hm]
    exact Bool.noConfusion
  have hdec : ∀ r ∈ rl, repoDecision tag (getTagExternalRepos s tag) r = [] := by
    intro r hr
    obtain ⟨c, hc, hp⟩ := h1 r hr
    unfold repoDecision
    unfold findRepo at hc
    rw [hc]
    dsimp only
    rw [if_pos (by rw [hp]; exact beq_self_eq_true _)]
  have hmsg : ∀ r ∈ rl, repoMsg tag (getTagExternalRepos s tag) r = [] := by
    intro r hr
    obtain ⟨c, hc, hp⟩ := h1 r hr
    unfold repoMsg
    unfold findRepo at hc
    rw [hc]
    dsimp only
    rw [if_pos (by rw [hp]; exact beq_self_eq_true _)]
  have hany : (rl.any fun r =>
      !(repoDecision tag (getTagExternalRepos s tag) r).isEmpty) = false := by
    rw [List.any_eq_false]
    intro r hr
    rw [hdec r hr]
    simp
  have hfm : rl.flatMap (repoMsg tag (getTagExternalRepos s tag)) = [] := by
    rw [List.flatMap_eq_nil_iff]
    exact hmsg
  rw [hany, hrem, hfm]
  rfl

theorem updPkg_name (x : RemotePkg) (pn o : String) :
    ((if x.package_name == pn then { x with owner_name := o } else x) :
      RemotePkg).package_name = x.package_name := by
  by_cases h : x.package_name == pn
  · rw [if_pos h]
  · rw [if_neg h]

theorem findPkg_cons (a : RemotePkg) (l : List RemotePkg) (n : String) :
    findPkg (a :: l) n =
      if a.package_name == n then some a else findPkg l n := by
  unfold findPkg
  by_cases h : a.package_name == n
  · simp [List.find?_cons_of_pos, h]
  · simp [List.find?_cons_of_neg, h]

theorem findPkg_map_upd (cur : List RemotePkg) (pn o : String) (n : String) :
    findPkg (cur.map (fun x =>
      if x.package_name == pn then { x with owner_name := o } else x)) n =
    (findPkg cur n).map (fun x =>
      if x.package_name == pn then { x with owner_name := o } else x) := by
  induction cur with
  | nil => rfl
  | cons a l ih =>
    rw [List.map_cons, findPkg_cons, findPkg_cons, updPkg_name]
    by_cases h : a.package_name == n
    · rw [if_pos h, if_pos h]
      rfl
    · rw [if_neg h, if_neg h]
      exact ih

theorem findPkg_append_single (cur : List RemotePkg) (e : RemotePkg) (n : String) :
    findPkg (cur ++ [e]) n =
      ((findPkg cur n).orElse fun _ =>
        if e.package_name == n then some e else none) := by
  induction cur with
  | nil =>
    show findPkg [e] n = _
    rw [findPkg_cons]
    by_cases h : e.package_name == n
    · rw [if_pos h, if_pos h]
      rfl
    · rw [if_neg h, if_neg h]
      rfl
  | cons a l ih =>
    rw [List.cons_append, findPkg_cons, findPkg_cons]
    by_cases h : a.package_name == n
    · rw [if_pos h, if_pos h]
      rfl
    · rw [if_neg h, if_neg h]
      exact ih

theorem pkgListEffect_findPkg_ne (cn : List String) (ob : String → List String)
    (cur : List RemotePkg) (pr : String × String) (n : String) (hne : ¬ n = pr.2) :
    findPkg (pkgListEffect cn ob cur pr) n = findPkg cur n := by
  have hmap : findPkg (cur.map (fun p =>
      if p.package_name == pr.2 then { p with owner_name := pr.1 } else p)) n =
      findPkg cur n := by
    rw [findPkg_map_upd]
    cases hf : findPkg cur n with
    | none => rfl
    | some x =>
      have hf' : List.find? (fun p => p.package_name == n) cur = some x := hf
      have hpx := List.find?_some hf'
      have hxn : x.package_name = n := eq_of_beq hpx
      have hb : (x.package_name == pr.2) = false := by
        rw [hxn]
        exact beq_eq_false_iff_ne.mpr hne
      simp [hb]
      intro hc
      exact absurd (hxn.symm.trans hc) hne
  unfold pkgListEffect
  by_cases h1 : cn.contains pr.2
  · rw [if_neg (by rw [h1]; exact Bool.noConfusion)]
    by_cases h2 : (ob pr.1).contains pr.2
    · rw [if_neg (by rw [h2]; exact Bool.noConfusion)]
    · rw [if_pos (by rw [Bool.not_eq_true] at h2; rw [h2]; rfl)]
      exact hmap
  · rw [if_pos (by rw [Bool.not_eq_true] at h1; rw [h1]; rfl)]
    by_cases hl : (findPkg cur pr.2).isSome
    · rw [if_pos hl]
      exact hmap
    · rw [if_neg hl]
      rw [findPkg_append_single]
      have hb : (pr.2 == n) = false := beq_eq_false_iff_ne.mpr (fun h => hne h.symm)
      cases hf : findPkg cur n <;> simp [hb, Option.orElse]

theorem foldl_pkgListEffect_frozen (cn : List String) (ob : String → List String)
    (n : String) :
    ∀ (prs : List (String × String)) (cur : List RemotePkg), ¬ n ∈ prs.map Prod.snd →
    findPkg (prs.foldl (pkgListEffect cn ob) cur) n = findPkg cur n := by
  intro prs
  induction prs with
  | nil => intro cur _; rfl
  | cons pr rest ih =>
    intro cur hn
    rw [List.map_cons] at hn
    have h1 : ¬ n = pr.2 := fun h => hn (h ▸ List.mem_cons_self _ _)
    have h2 : ¬ n ∈ rest.map Prod.snd := fun h => hn (List.mem_cons_of_mem _ h)
    rw [List.foldl_cons, ih (pkgListEffect cn ob cur pr) h2,
        pkgListEffect_findPkg_ne cn ob cur pr n h1]

theorem findPkg_none_iff (P : List RemotePkg) (p : String) :
    findPkg P p = none ↔ ¬ p ∈ pkgNames P := by
  unfold findPkg pkgNames
  rw [List.find?_eq_none]
  constructor
  · intro h hm
    rw [List.mem_map] at hm
    obtain ⟨x, hx, hxn⟩ := hm
    exact (h x hx) (by rw [hxn]; exact beq_self_eq_true _)
  · intro h x hx hpx
    apply h
    rw [List.mem_map]
    exact ⟨x, hx, eq_of_beq hpx⟩

theorem foldl_pkgListEffect_find (P1 : List RemotePkg) (hP : (pkgNames P1).Nodup) :
    ∀ (prs : List (String × String)) (cur : List RemotePkg),
    (prs.map Prod.snd).Nodup →
    (∀ pr ∈ prs, findPkg cur pr.2 = findPkg P1 pr.2) →
    ∀ pr ∈ prs, ∃ c,
      findPkg (prs.foldl (pkgListEffect (pkgNames P1) (ownedBySnap P1)) cur) pr.2 = some c ∧
      c.owner_name = pr.1 := by
  intro prs
  induction prs with
  | nil => intro cur _ _ pr hpr; exact absurd hpr (List.not_mem_nil pr)
  | cons pr0 rest ih =>
    intro cur hnd hpre pr hpr
    rw [List.map_cons, List.nodup_cons] at hnd
    rw [List.foldl_cons]
    rcases List.mem_cons.mp hpr with heq | hmem
    · rw [heq]
      rw [foldl_pkgListEffect_frozen (pkgNames P1) (ownedBySnap P1) pr0.2 rest
            (pkgListEffect (pkgNames P1) (ownedBySnap P1) cur pr0) hnd.1]
      have hc := hpre pr0 (List.mem_cons_self _ _)
      unfold pkgListEffect
      by_cases h1 : (pkgNames P1).contains pr0.2
      · rw [if_neg (by rw [h1]; exact Bool.noConfusion)]
        have hmem1 : pr0.2 ∈ pkgNames P1 := List.mem_of_elem_eq_true h1
        have hsome : (findPkg P1 pr0.2).isSome := by
          cases hfp : findPkg P1 pr0.2 with
          | none => exact absurd hmem1 ((findPkg_none_iff P1 pr0.2).mp hfp)
          | some e => rfl
        obtain ⟨e, he⟩ := Option.isSome_iff_exists.mp hsome
        have he' : List.find? (fun p => p.package_name == pr0.2) P1 = some e := he
        have hen := List.find?_some he'
        by_cases h2 : (ownedBySnap P1 pr0.1).contains pr0.2
        · rw [if_neg (by rw [h2]; exact Bool.noConfusion)]
          rw [hc, he]
          have hoe : e.owner_name = pr0.1 := by
            have hmem2 : pr0.2 ∈ ownedBySnap P1 pr0.1 := List.mem_of_elem_eq_true h2
            unfold ownedBySnap at hmem2
            rw [List.mem_map] at hmem2
            obtain ⟨y, hy, hyn⟩ := hmem2
            rw [List.mem_filter] at hy
            have hem := List.mem_of_find?_eq_some he'
            have hP' : (P1.map (fun p => p.package_name)).Nodup := hP
            have hey : e = y := by
              apply List.inj_on_of_nodup_map hP' hem hy.1
              rw [eq_of_beq hen, hyn]
            rw [hey]
            exact eq_of_beq hy.2
          exact ⟨e, rfl, hoe⟩
        · rw [if_pos (by rw [Bool.not_eq_true] at h2; rw [h2]; rfl)]
          rw [findPkg_map_upd, hc, he]
          refine ⟨{ e with owner_name := pr0.1 }, ?_, rfl⟩
          simp [hen]
          intro hx
          exact absurd (eq_of_beq hen) hx
      · rw [if_pos (by rw [Bool.not_eq_true] at h1; rw [h1]; rfl)]
        have hnone : findPkg P1 pr0.2 = none := by
          rw [findPkg_none_iff]
          intro hm
          exact h1 (List.elem_eq_true_of_mem hm)
        have hcur : findPkg cur pr0.2 = none := hc.trans hnone
        rw [if_neg (by rw [hcur]; exact Bool.noConfusion)]
        rw [findPkg_append_single, hcur]
        refine ⟨⟨pr0.2, pr0.1⟩, ?_, rfl⟩
        simp [Option.orElse]
    · apply ih (pkgListEffect (pkgNames P1) (ownedBySnap P1) cur pr0) hnd.2 ?_ pr hmem
      intro pr' hpr'
      have hner : ¬ pr'.2 = pr0.2 := by
        intro hcontra
        exact hnd.1 (hcontra ▸ List.mem_map_of_mem Prod.snd hpr')
      rw [pkgListEffect_findPkg_ne _ _ cur pr0 pr'.2 hner]
      exact hpre pr' (List.mem_cons_of_mem _ hpr')

theorem findPkg_filter_ne (n m : String) (h : ¬ m = n) :
    ∀ (L : List RemotePkg),
    findPkg (L.filter (fun p => !(p.package_name == n))) m = findPkg L m := by
  intro L
  induction L with
  | nil => rfl
  | cons a l ih =>
    rw [List.filter_cons]
    by_cases ha : a.package_name == m
    · have han : (!(a.package_name == n)) = true := by
        rw [eq_of_beq ha]
        simp
        exact h
      rw [if_pos han, findPkg_cons, findPkg_cons, if_pos ha, if_pos ha]
    · by_cases han : (!(a.package_name == n)) = true
      · rw [if_pos han, findPkg_cons, findPkg_cons, if_neg ha, if_neg ha]
        exact ih
      · rw [if_neg han, findPkg_cons, if_neg ha]
        exact ih

theorem foldl_filterPkg_findPkg (m : String) :
    ∀ (ns : List String) (L : List RemotePkg), ¬ m ∈ ns →
    findPkg (ns.foldl (fun l n => l.filter (fun p => !(p.package_name == n))) L) m =
      findPkg L m := by
  intro ns
  induction ns with
  | nil => intro L _; rfl
  | cons n rest ih =>
    intro L hm
    rw [List.foldl_cons, ih _ (fun h => hm (List.mem_cons_of_mem _ h)),
        findPkg_filter_ne n m (fun h => hm (h ▸ List.mem_cons_self _ _))]

theorem mem_foldl_filterPkg :
    ∀ (ns : List String) (L : List RemotePkg) (x : RemotePkg),
    x ∈ ns.foldl (fun l n => l.filter (fun p => !(p.package_name == n))) L →
    x ∈ L ∧ ¬ x.package_name ∈ ns := by
  intro ns
  induction ns with
  | nil => intro L x h; exact ⟨h, List.not_mem_nil _⟩
  | cons n rest ih =>
    intro L x h
    rw [List.foldl_cons] at h
    obtain ⟨h1, h2⟩ := ih _ x h
    rw [List.mem_filter] at h1
    refine ⟨h1.1, ?_⟩
    intro hm
    rcases List.mem_cons.mp hm with heq | hmem
    · have h3 := h1.2
      rw [heq] at h3
      simp at h3
    · exact h2 hmem

theorem pkgListEffect_names (cn : List String) (ob : String → List String)
    (cur : List RemotePkg) (pr : String × String) (nm : String)
    (h : nm ∈ (pkgListEffect cn ob cur pr).map (fun p => p.package_name)) :
    nm ∈ cur.map (fun p => p.package_name) ∨ nm = pr.2 := by
  have hcomp : ((fun p : RemotePkg => p.package_name) ∘ fun x =>
      if x.package_name == pr.2 then { x with owner_name := pr.1 } else x) =
      (fun p : RemotePkg => p.package_name) := by
    funext x
    simp only [Function.comp_apply]
    exact updPkg_name x pr.2 pr.1
  unfold pkgListEffect at h
  by_cases h1 : (!(cn.contains pr.2)) = true
  · rw [if_pos h1] at h
    by_cases hl : (findPkg cur pr.2).isSome
    · rw [if_pos hl, List.map_map, hcomp] at h
      exact Or.inl h
    · rw [if_neg hl, List.map_append] at h
      rcases List.mem_append.mp h with hx | hx
      · exact Or.inl hx
      · right
        simpa using hx
  · rw [if_neg h1] at h
    by_cases h2 : (!((ob pr.1).contains pr.2)) = true
    · rw [if_pos h2, List.map_map, hcomp] at h
      exact Or.inl h
    · rw [if_neg h2] at h
      exact Or.inl h

theorem mem_foldl_pkgListEffect (cn : List String) (ob : String → List String) :
    ∀ (prs : List (String × String)) (cur : List RemotePkg) (x : RemotePkg),
    x ∈ prs.foldl (pkgListEffect cn ob) cur →
    x.package_name ∈ cur.map (fun p => p.package_name) ∨
      x.package_name ∈ prs.map Prod.snd := by
  intro prs
  induction prs with
  | nil =>
    intro cur x h
    exact Or.inl (List.mem_map_of_mem _ h)
  | cons pr rest ih =>
    intro cur x h
    rw [List.foldl_cons] at h
    rw [List.map_cons]
    rcases ih _ x h with h1 | h1
    · rcases pkgListEffect_names cn ob cur pr x.package_name h1 with h2 | h2
      · exact Or.inl h2
      · exact Or.inr (h2 ▸ List.mem_cons_self _ _)
    · exact Or.inr (List.mem_cons_of_mem _ h1)

theorem listPackagesOf_pkgEffect_self (tagID : Nat) (cn : List String)
    (ob : String → List String) (st : RemoteState) (pr : String × String) :
    listPackagesOf (pkgEffect tagID cn ob st pr) tagID =
      pkgListEffect cn ob (listPackagesOf st tagID) pr := by
  unfold pkgEffect pkgListEffect
  by_cases h1 : (!(cn.contains pr.2)) = true
  · simp only [if_pos h1]
    rw [listPackagesOf_applyPkgAdd_self]
    rfl
  · simp only [if_neg h1]
    by_cases h2 : (!((ob pr.1).contains pr.2)) = true
    · simp only [if_pos h2]
      exact listPackagesOf_applyPkgSetOwner_self st tagID pr.2 pr.1
    · simp only [if_neg h2]

theorem listPackagesOf_foldl_pkgEffect (tagID : Nat) (cn : List String)
    (ob : String → List String) :
    ∀ (prs : List (String × String)) (st : RemoteState),
    listPackagesOf (prs.foldl (pkgEffect tagID cn ob) st) tagID =
      prs.foldl (pkgListEffect cn ob) (listPackagesOf st tagID) := by
  intro prs
  induction prs with
  | nil => intro st; rfl
  | cons pr rest ih =>
    intro st
    rw [List.foldl_cons, List.foldl_cons, ih, listPackagesOf_pkgEffect_self]

theorem listPackagesOf_foldl_removePkg (tagID : Nat) :
    ∀ (ns : List String) (st : RemoteState),
    listPackagesOf (ns.foldl (fun st n => applyPkgRemove st tagID n) st) tagID =
      ns.foldl (fun l n => l.filter (fun p => !(p.package_name == n)))
        (listPackagesOf st tagID) := by
  intro ns
  induction ns with
  | nil => intro st; rfl
  | cons n rest ih =>
    intro st
    rw [List.foldl_cons, List.foldl_cons, ih, listPackagesOf_applyPkgRemove_self]

theorem pkgDeleteNames_not_mem_decl (cp : List RemotePkg)
    (packages : List (String × List String)) (pr : String × String)
    (hpr : pr ∈ pkgPairs packages) : ¬ pr.2 ∈ pkgDeleteNames cp packages := by
  intro hmem
  unfold pkgDeleteNames at hmem
  rw [List.mem_filter] at hmem
  have h2 := hmem.2
  have h3 : (packages.flatMap (fun p => p.2)).contains pr.2 = true := by
    apply List.elem_eq_true_of_mem
    rw [← pkgPairs_map_snd]
    exact List.mem_map_of_mem Prod.snd hpr
  rw [h3] at h2
  exact Bool.noConfusion h2

theorem ensure_packages_converged (s : RemoteState) (tag : String) (tagID : Nat)
    (packages : List (String × List String))
    (hfl : (packages.flatMap (fun p => p.2)).Nodup)
    (hP : (pkgNames (listPackagesOf s tagID)).Nodup) :
    pkgConverged (listPackagesOf ((ensure_packages s tag tagID false packages).2.1) tagID)
      packages := by
  rw [ensure_packages_spec]
  dsimp only
  rw [if_neg (Bool.false_ne_true)]
  rw [listPackagesOf_foldl_removePkg, listPackagesOf_foldl_pkgEffect]
  constructor
  · intro pr hpr
    rw [foldl_filterPkg_findPkg pr.2 (pkgDeleteNames (listPackagesOf s tagID) packages) _
          (pkgDeleteNames_not_mem_decl (listPackagesOf s tagID) packages pr hpr)]
    have hnd2 : ((pkgPairs packages).map Prod.snd).Nodup := by
      rw [pkgPairs_map_snd]
      exact hfl
    exact foldl_pkgListEffect_find (listPackagesOf s tagID) hP (pkgPairs packages)
      (listPackagesOf s tagID) hnd2 (fun _ _ => rfl) pr hpr
  · intro x hx
    obtain ⟨hx1, hx2⟩ := mem_foldl_filterPkg
      (pkgDeleteNames (listPackagesOf s tagID) packages) _ x hx
    rcases mem_foldl_pkgListEffect (pkgNames (listPackagesOf s tagID))
        (ownedBySnap (listPackagesOf s tagID)) (pkgPairs packages)
        (listPackagesOf s tagID) x hx1 with h1 | h1
    · by_cases hd : x.package_name ∈ packages.flatMap (fun p => p.2)
      · exact hd
      · exfalso
        apply hx2
        unfold pkgDeleteNames
        rw [List.mem_filter]
        refine ⟨h1, ?_⟩
        have hc : (packages.flatMap (fun p => p.2)).contains x.package_name = false := by
          cases hcc : (packages.flatMap (fun p => p.2)).contains x.package_name with
          | false => rfl
          | true => exact absurd (List.mem_of_elem_eq_true hcc) hd
        rw [hc]
        rfl
    · rw [pkgPairs_map_snd] at h1
      exact h1

theorem ensure_packages_of_converged (s : RemoteState) (tag : String) (tagID : Nat)
    (packages : List (String × List String)) (check : Bool)
    (h : pkgConverged (listPackagesOf s tagID) packages) :
    (ensure_packages s tag tagID check packages).1 =
      { changed := false, stdout_lines := [] } := by
  rw [ensure_packages_spec]
  dsimp only
  obtain ⟨h1, h2⟩ := h
  have hboth : ∀ pr ∈ pkgPairs packages,
      (pkgNames (listPackagesOf s tagID)).contains pr.2 = true ∧
      (ownedBySnap (listPackagesOf s tagID) pr.1).contains pr.2 = true := by
    intro pr hpr
    obtain ⟨c, hcf, hco⟩ := h1 pr hpr
    have hcf' : List.find? (fun p => p.package_name == pr.2) (listPackagesOf s tagID) =
        some c := hcf
    constructor
    · apply List.elem_eq_true_of_mem
      by_contra hnm
      rw [(findPkg_none_iff _ _).mpr hnm] at hcf
      exact Option.noConfusion hcf
    · apply List.elem_eq_true_of_mem
      unfold ownedBySnap
      rw [List.mem_map]
      have hcp := List.find?_some hcf'
      refine ⟨c, ?_, eq_of_beq hcp⟩
      rw [List.mem_filter]
      exact ⟨List.mem_of_find?_eq_some hcf', by rw [hco]; exact beq_self_eq_true _⟩
  have hdel : pkgDeleteNames (listPackagesOf s tagID) packages = [] := by
    unfold pkgDeleteNames
    rw [List.filter_eq_nil_iff]
    intro n hn
    rw [List.mem_map] at hn
    obtain ⟨x, hx, hxn⟩ := hn
    have hm : (packages.flatMap (fun p => p.2)).contains n = true :=
      List.elem_eq_true_of_mem (hxn ▸ h2 x hx)
    rw [hm]
    exact Bool.noConfusion
  have hdec : ∀ pr ∈ pkgPairs packages,
      pkgDecision tag (pkgNames (listPackagesOf s tagID))
        (ownedBySnap (listPackagesOf s tagID)) pr = [] := by
    intro pr hpr
    obtain ⟨hcn, hob⟩ := hboth pr hpr
    unfold pkgDecision
    rw [hcn, hob]
    rfl
  have hmsg : ∀ pr ∈ pkgPairs packages,
      pkgMsg (pkgNames (listPackagesOf s tagID))
        (ownedBySnap (listPackagesOf s tagID)) pr = [] := by
    intro pr hpr
    obtain ⟨hcn, hob⟩ := hboth pr hpr
    unfold pkgMsg
    dsimp only
    rw [hcn, hob]
    rfl
  have hany : ((pkgPairs packages).any fun pr =>
      !(pkgDecision tag (pkgNames (listPackagesOf s tagID))
        (ownedBySnap (listPackagesOf s tagID)) pr).isEmpty) = false := by
    rw [List.any_eq_false]
    intro pr hpr
    rw [hdec pr hpr]
    simp
  have hfm : (pkgPairs packages).flatMap (pkgMsg (pkgNames (listPackagesOf s tagID))
      (ownedBySnap (listPackagesOf s tagID))) = [] := by
    rw [List.flatMap_eq_nil_iff]
    exact hmsg
  rw [hany, hdel, hfm]
  rfl

theorem computeEdits_isEmpty_of_matches (t : TagInfo) (kw : TagKwargs)
    (h1 : t.arches = kw.arches) (h2 : t.perm = kw.perm) (h3 : t.locked = kw.locked)
    (h4 : t.maven_support = kw.maven_support)
    (h5 : t.maven_include_all = kw.maven_include_all)
    (h6 : ∀ k, alookup t.extra k = alookup kw.extra k) :
    (computeEdits t kw).isEmpty = true := by
  have hde : dictEq t.extra kw.extra = true := dictEq_of_lookup _ _ h6
  have hfilter : (t.extra.map Prod.fst).filter (fun k => (alookup kw.extra k).isNone) = [] := by
    rw [List.filter_eq_nil_iff]
    intro k hk
    have hs : (alookup kw.extra k).isSome = true := by
      rw [← h6 k]
      exact (alookup_isSome_iff _ _).mpr hk
    intro hno
    rw [Option.isNone_iff_eq_none] at hno
    rw [hno] at hs
    exact Bool.noConfusion hs
  unfold computeEdits Edits.isEmpty
  dsimp only
  simp [h1, h2, h3, h4, h5, hde, hfilter]

theorem applyEdits_arches (t : TagInfo) (kw : TagKwargs) :
    (applyEdits t (computeEdits t kw)).arches = kw.arches := by
  show ((if t.arches == kw.arches then none else some kw.arches).getD t.arches) = kw.arches
  by_cases h : t.arches == kw.arches
  · rw [if_pos h]
    exact eq_of_beq h
  · rw [if_neg h]
    rfl

theorem applyEdits_perm (t : TagInfo) (kw : TagKwargs) :
    (applyEdits t (computeEdits t kw)).perm = kw.perm := by
  show ((if t.perm == kw.perm then none else some kw.perm).getD t.perm) = kw.perm
  by_cases h : t.perm == kw.perm
  · rw [if_pos h]
    exact eq_of_beq h
  · rw [if_neg h]
    rfl

theorem applyEdits_locked (t : TagInfo) (kw : TagKwargs) :
    (applyEdits t (computeEdits t kw)).locked = kw.locked := by
  show ((if t.locked == kw.locked then none else some kw.locked).getD t.locked) = kw.locked
  by_cases h : t.locked == kw.locked
  · rw [if_pos h]
    exact eq_of_beq h
  · rw [if_neg h]
    rfl

theorem applyEdits_maven_support (t : TagInfo) (kw : TagKwargs) :
    (applyEdits t (computeEdits t kw)).maven_support = kw.maven_support := by
  show ((if t.maven_support == kw.maven_support then none
         else some kw.maven_support).getD t.maven_support) = kw.maven_support
  by_cases h : t.maven_support == kw.maven_support
  · rw [if_pos h]
    exact eq_of_beq h
  · rw [if_neg h]
    rfl

theorem applyEdits_maven_include_all (t : TagInfo) (kw : TagKwargs) :
    (applyEdits t (computeEdits t kw)).maven_include_all = kw.maven_include_all := by
  show ((if t.maven_include_all == kw.maven_include_all then none
         else some kw.maven_include_all).getD t.maven_include_all) = kw.maven_include_all
  by_cases h : t.maven_include_all == kw.maven_include_all
  · rw [if_pos h]
    exact eq_of_beq h
  · rw [if_neg h]
    rfl

theorem applyEdits_extra_lookup (t : TagInfo) (kw : TagKwargs)
    (hkw : (kw.extra.map Prod.fst).Nodup) (k : String) :
    alookup (applyEdits t (computeEdits t kw)).extra k = alookup kw.extra k := by
  by_cases hde : dictEq t.extra kw.extra = true
  · have hE : (applyEdits t (computeEdits t kw)).extra =
        dictRemove t.extra
          ((t.extra.map Prod.fst).filter (fun k => (alookup kw.extra k).isNone)) := by
      unfold applyEdits computeEdits
      dsimp only
      rw [if_pos hde]
    rw [hE]
    by_cases hks : ((t.extra.map Prod.fst).filter
        (fun k => (alookup kw.extra k).isNone)).contains k = true
    · rw [alookup_dictRemove_mem _ _ _ hks]
      have hk2 := List.mem_of_elem_eq_true hks
      rw [List.mem_filter] at hk2
      have hno := hk2.2
      rw [Option.isNone_iff_eq_none] at hno
      exact hno.symm
    · have hksf : ((t.extra.map Prod.fst).filter
          (fun k => (alookup kw.extra k).isNone)).contains k = false := by
        cases hcc : ((t.extra.map Prod.fst).filter
            (fun k => (alookup kw.extra k).isNone)).contains k with
        | false => rfl
        | true => exact absurd hcc hks
      rw [alookup_dictRemove_not_mem _ _ _ hksf]
      exact dictEq_lookup _ _ hde k
  · have hE : (applyEdits t (computeEdits t kw)).extra =
        dictUpdate (dictRemove t.extra
          ((t.extra.map Prod.fst).filter (fun k => (alookup kw.extra k).isNone))) kw.extra := by
      unfold applyEdits computeEdits
      dsimp only
      rw [if_neg hde]
    rw [hE, alookup_dictUpdate_nodup _ kw.extra hkw k]
    cases hkk : alookup kw.extra k with
    | some v => rfl
    | none =>
      show alookup (dictRemove t.extra _) k = none
      by_cases hks : ((t.extra.map Prod.fst).filter
          (fun k => (alookup kw.extra k).isNone)).contains k = true
      · rw [alookup_dictRemove_mem _ _ _ hks]
      · have hksf : ((t.extra.map Prod.fst).filter
            (fun k => (alookup kw.extra k).isNone)).contains k = false := by
          cases hcc : ((t.extra.map Prod.fst).filter
              (fun k => (alookup kw.extra k).isNone)).contains k with
          | false => rfl
          | true => exact absurd hcc hks
        rw [alookup_dictRemove_not_mem _ _ _ hksf]
        cases hte : alookup t.extra k with
        | none => rfl
        | some w =>
          exfalso
          have hkmem : k ∈ t.extra.map Prod.fst :=
            (alookup_isSome_iff _ _).mp (by rw [hte]; rfl)
          have hmem2 : k ∈ (t.extra.map Prod.fst).filter
              (fun k => (alookup kw.extra k).isNone) :=
            List.mem_filter.mpr ⟨hkmem, by rw [hkk]; rfl⟩
          have hc2 : ((t.extra.map Prod.fst).filter
              (fun k => (alookup kw.extra k).isNone)).contains k = true :=
            List.elem_eq_true_of_mem hmem2
          rw [hc2] at hksf
          exact Bool.noConfusion hksf

theorem computeEdits_applyEdits_isEmpty (t : TagInfo) (kw : TagKwargs)
    (hkw : (kw.extra.map Prod.fst).Nodup) :
    (computeEdits (applyEdits t (computeEdits t kw)) kw).isEmpty = true :=
  computeEdits_isEmpty_of_matches _ kw (applyEdits_arches t kw) (applyEdits_perm t kw)
    (applyEdits_locked t kw) (applyEdits_maven_support t kw)
    (applyEdits_maven_include_all t kw) (applyEdits_extra_lookup t kw hkw)

theorem alookup_mem {κ α : Type} [BEq κ] [LawfulBEq κ] (l : List (κ × α)) (k : κ) (v : α)
    (h : alookup l k = some v) : (k, v) ∈ l := by
  unfold alookup at h
  cases hf : l.find? (fun p => p.1 == k) with
  | none => rw [hf] at h; exact Option.noConfusion h
  | some p =>
    rw [hf] at h
    have hp1 := List.find?_some hf
    have hm := List.mem_of_find?_eq_some hf
    have hv : p.2 = v := Option.some.inj h
    have hpk : p.1 = k := eq_of_beq hp1
    have : p = (k, v) := by
      cases p
      simp only at hpk hv
      rw [hpk, hv]
    rw [← this]
    exact hm

theorem foldl_aset_fresh :
    ∀ (c acc : List (String × Nat)),
    (∀ k ∈ c.map Prod.fst, alookup acc k = none) → (c.map Prod.fst).Nodup →
    c.foldl (fun d p => aset d p.1 p.2) acc = acc ++ c := by
  intro c
  induction c with
  | nil => intro acc _ _; simp
  | cons p rest ih =>
    intro acc hf hnd
    rw [List.map_cons, List.nodup_cons] at hnd
    rw [List.foldl_cons]
    have hplook : alookup acc p.1 = none := hf p.1 (by rw [List.map_cons]; exact List.mem_cons_self _ _)
    have hfind : (acc.find? (fun q => q.1 == p.1)).isSome = false := by
      unfold alookup at hplook
      cases hq : acc.find? (fun q => q.1 == p.1) with
      | none => rfl
      | some q => rw [hq] at hplook; exact Option.noConfusion hplook
    have haset : aset acc p.1 p.2 = acc ++ [(p.1, p.2)] := by
      unfold aset
      rw [if_neg (by rw [hfind]; exact Bool.noConfusion)]
    rw [haset]
    have hp : ((p.1, p.2) : String × Nat) = p := rfl
    rw [hp]
    have hf2 : ∀ k ∈ rest.map Prod.fst, alookup (acc ++ [p]) k = none := by
      intro k hk
      rw [alookup_append]
      rw [hf k (by rw [List.map_cons]; exact List.mem_cons_of_mem _ hk)]
      have hne : ¬ (p.1 == k) = true := by
        intro hb
        exact hnd.1 ((eq_of_beq hb) ▸ hk)
      simp [Option.orElse, alookup_cons, if_neg hne, alookup_nil]
      exact fun hh => hnd.1 (hh ▸ hk)
    rw [ih (acc ++ [p]) hf2 hnd.2, List.append_assoc]
    rfl

theorem build_perm_cache_eq (c : List (String × Nat)) (h : (c.map Prod.fst).Nodup) :
    build_perm_cache c = c := by
  unfold build_perm_cache
  rw [foldl_aset_fresh c [] (fun k _ => rfl) h]
  rfl

theorem findById_cons (q : String × Nat) (rest : List (String × Nat)) (i : Nat) :
    List.find? (fun p => p.2 == i) (q :: rest) =
      if q.2 == i then some q else List.find? (fun p => p.2 == i) rest := by
  by_cases h : q.2 == i
  · simp [List.find?_cons_of_pos, h]
  · simp [List.find?_cons_of_neg, h]

theorem find?_id_unique (c : List (String × Nat)) (hid : (c.map Prod.snd).Nodup)
    (l : String) (i : Nat) (hmem : (l, i) ∈ c) :
    c.find? (fun p => p.2 == i) = some (l, i) := by
  induction c with
  | nil => exact absurd hmem (List.not_mem_nil _)
  | cons q rest ih =>
    rw [List.map_cons, List.nodup_cons] at hid
    rw [findById_cons]
    rcases List.mem_cons.mp hmem with heq | hmem'
    · rw [← heq]
      rw [if_pos (show (((l, i) : String × Nat).2 == i) = true from beq_self_eq_true _)]
    · have hqi : ¬ (q.2 == i) = true := by
        intro hb
        apply hid.1
        rw [eq_of_beq hb]
        have hmi : i ∈ rest.map Prod.snd := by
          rw [List.mem_map]
          exact ⟨(l, i), hmem', rfl⟩
        exact hmi
      rw [if_neg hqi]
      exact ih hid.2 hmem'

theorem idToName_of_lookup (c : List (String × Nat)) (hn : (c.map Prod.fst).Nodup)
    (hi : (c.map Prod.snd).Nodup) (l : String) (i : Nat)
    (h : alookup (build_perm_cache c) l = some i) : idToName c i = some l := by
  rw [build_perm_cache_eq c hn] at h
  have hm := alookup_mem c l i h
  unfold idToName
  rw [find?_id_unique c hi l i hm]
  rfl

theorem get_perm_id_empty (catalog : List (String × Nat)) (lab : String) :
    get_perm_id catalog [] lab =
      (match alookup (build_perm_cache catalog) lab with
       | some i => (.ok i, build_perm_cache catalog, true)
       | none => (.error (.unknownPermission lab), build_perm_cache catalog, true)) := by
  unfold get_perm_id
  dsimp only
  rw [List.isEmpty_nil]
  rw [if_pos (Eq.refl (true : Bool))]

theorem ensureTagRest_post (s : RemoteState) (pc : List (String × Nat)) (name : String)
    (inh : List DeclInh) (er : Option (List DeclRepo))
    (packages : List (String × List String)) (tagID : Nat) (res : TagResult) (cs : List Call)
    (rules : List InheritanceRule) (hbr : buildRules s tagID inh = .ok rules)
    (hrl : ((er.getD []).map DeclRepo.repo).Nodup)
    (hfl : (packages.flatMap (fun p => p.2)).Nodup)
    (hP : (pkgNames (listPackagesOf s tagID)).Nodup) :
    (ensureTagRest s pc name false inh er packages tagID res cs).state.tags = s.tags ∧
    getInheritanceData (ensureTagRest s pc name false inh er packages tagID res cs).state name
      = rules ∧
    (∀ rl, er = some rl →
      repoConverged (getTagExternalRepos
        (ensureTagRest s pc name false inh er packages tagID res cs).state name) rl) ∧
    (packages.isEmpty = false →
      pkgConverged (listPackagesOf
        (ensureTagRest s pc name false inh er packages tagID res cs).state tagID) packages) := by
  rw [ensureTagRest_spec s pc name false inh er packages tagID res cs rules hbr]
  dsimp only
  simp only [if_neg (Bool.false_ne_true)]
  have hS1tags : (if getInheritanceData s name = rules then s
      else applySetInheritance s name rules).tags = s.tags := by
    by_cases hinh : getInheritanceData s name = rules
    · rw [if_pos hinh]
    · rw [if_neg hinh]
      exact applySetInheritance_tags s name rules
  have hS1inh : getInheritanceData (if getInheritanceData s name = rules then s
      else applySetInheritance s name rules) name = rules := by
    by_cases hinh : getInheritanceData s name = rules
    · rw [if_pos hinh]
      exact hinh
    · rw [if_neg hinh, getInheritanceData_applySetInheritance,
          if_pos (beq_self_eq_true name)]
  have hS1repos : (if getInheritanceData s name = rules then s
      else applySetInheritance s name rules).repos = s.repos := by
    by_cases hinh : getInheritanceData s name = rules
    · rw [if_pos hinh]
    · rw [if_neg hinh]
      exact applySetInheritance_repos s name rules
  have hS1pkgs : (if getInheritanceData s name = rules then s
      else applySetInheritance s name rules).pkgs = s.pkgs := by
    by_cases hinh : getInheritanceData s name = rules
    · rw [if_pos hinh]
    · rw [if_neg hinh]
      exact applySetInheritance_pkgs s name rules
  cases er with
  | none =>
    dsimp only
    by_cases hpk : packages.isEmpty
    · rw [if_pos hpk]
      refine ⟨hS1tags, hS1inh, ?_, ?_⟩
      · intro rl h
        exact Option.noConfusion h
      · intro h
        rw [hpk] at h
        exact Bool.noConfusion h
    · rw [if_neg hpk]
      have hlp : listPackagesOf (if getInheritanceData s name = rules then s
          else applySetInheritance s name rules) tagID = listPackagesOf s tagID :=
        listPackagesOf_congr _ s hS1pkgs tagID
      refine ⟨?_, ?_, ?_, ?_⟩
      · rw [ensure_packages_state_tags]
        exact hS1tags
      · rw [getInheritanceData_congr _ _ (ensure_packages_state_inher _ name tagID false
            packages) name]
        exact hS1inh
      · intro rl h
        exact Option.noConfusion h
      · intro _
        have hc := ensure_packages_converged (if getInheritanceData s name = rules then s
            else applySetInheritance s name rules) name tagID packages hfl (by rw [hlp]; exact hP)
        exact hc
  | some rl =>
    dsimp only
    have hnd : (rl.map DeclRepo.repo).Nodup := hrl
    have hrc := ensure_external_repos_converged (if getInheritanceData s name = rules then s
        else applySetInheritance s name rules) name rl hnd
    have hs2tags : (ensure_external_repos (if getInheritanceData s name = rules then s
        else applySetInheritance s name rules) name false rl).2.1.tags = s.tags := by
      rw [ensure_external_repos_state_tags]
      exact hS1tags
    have hs2inh : getInheritanceData (ensure_external_repos
        (if getInheritanceData s name = rules then s
          else applySetInheritance s name rules) name false rl).2.1 name = rules := by
      rw [getInheritanceData_congr _ _ (ensure_external_repos_state_inher _ name false rl) name]
      exact hS1inh
    have hs2pkgs : listPackagesOf (ensure_external_repos
        (if getInheritanceData s name = rules then s
          else applySetInheritance s name rules) name false rl).2.1 tagID =
        listPackagesOf s tagID := by
      rw [listPackagesOf_congr _ _ (ensure_external_repos_state_pkgs _ name false rl) tagID]
      exact listPackagesOf_congr _ s hS1pkgs tagID
    by_cases hpk : packages.isEmpty
    · rw [if_pos hpk]
      refine ⟨hs2tags, hs2inh, ?_, ?_⟩
      · intro rl' h
        injection h with h2
        rw [← h2]
        exact hrc
      · intro h
        rw [hpk] at h
        exact Bool.noConfusion h
    · rw [if_neg hpk]
      refine ⟨?_, ?_, ?_, ?_⟩
      · rw [ensure_packages_state_tags]
        exact hs2tags
      · rw [getInheritanceData_congr _ _ (ensure_packages_state_inher _ name tagID false
            packages) name]
        exact hs2inh
      · intro rl' h
        injection h with h2
        rw [← h2]
        rw [getTagExternalRepos_congr _ _ (ensure_packages_state_repos _ name tagID false
            packages) name]
        exact hrc
      · intro _
        exact ensure_packages_converged _ name tagID packages hfl (by rw [hs2pkgs]; exact hP)

theorem ensureTagRest_result_converged (s : RemoteState) (pc : List (String × Nat))
    (name : String) (inh : List DeclInh) (er : Option (List DeclRepo))
    (packages : List (String × List String)) (tagID : Nat) (rules : List InheritanceRule)
    (hbr : buildRules s tagID inh = .ok rules)
    (hinh : getInheritanceData s name = rules)
    (hrep : ∀ rl, er = some rl → repoConverged (getTagExternalRepos s name) rl)
    (hpkg : packages.isEmpty = false → pkgConverged (listPackagesOf s tagID) packages) :
    (ensureTagRest s pc name false inh er packages tagID
      { changed := false, stdout_lines := [] } []).result =
      .ok { changed := false, stdout_lines := [] } := by
  rw [ensureTagRest_spec s pc name false inh er packages tagID
        { changed := false, stdout_lines := [] } [] rules hbr]
  dsimp only
  simp only [if_pos hinh]
  cases er with
  | none =>
    dsimp only
    by_cases hpk : packages.isEmpty
    · rw [if_pos hpk]
      rfl
    · rw [if_neg hpk]
      rw [ensure_packages_of_converged s name tagID packages false
            (hpkg (by rw [Bool.not_eq_true] at hpk; exact hpk))]
      rfl
  | some rl =>
    dsimp only
    rw [ensure_external_repos_of_converged s name rl false (hrep rl rfl)]
    by_cases hpk : packages.isEmpty
    · rw [if_pos hpk]
      rfl
    · rw [if_neg hpk]
      have hlp : listPackagesOf (ensure_external_repos s name false rl).2.1 tagID =
          listPackagesOf s tagID :=
        listPackagesOf_congr _ _ (ensure_external_repos_state_pkgs s name false rl) tagID
      have hpc : pkgConverged
          (listPackagesOf (ensure_external_repos s name false rl).2.1 tagID) packages := by
        rw [hlp]
        exact hpkg (by rw [Bool.not_eq_true] at hpk; exact hpk)
      rw [ensure_packages_of_converged _ name tagID packages false hpc]
      rfl

theorem ensure_tag_converged (s1 : RemoteState) (pc : List (String × Nat)) (name : String)
    (inh : List DeclInh) (er : Option (List DeclRepo))
    (packages : List (String × List String)) (kw : TagKwargs) (t1 : TagInfo)
    (rules : List InheritanceRule)
    (hgt : getTag s1 name = some t1)
    (hed : (computeEdits t1 kw).isEmpty = true)
    (hbr : buildRules s1 t1.id inh = .ok rules)
    (hinh : getInheritanceData s1 name = rules)
    (hrep : ∀ rl, er = some rl → repoConverged (getTagExternalRepos s1 name) rl)
    (hpkg : packages.isEmpty = false → pkgConverged (listPackagesOf s1 t1.id) packages) :
    (ensure_tag s1 pc name false inh er packages kw).result =
      .ok { changed := false, stdout_lines := [] } := by
  unfold ensure_tag
  rw [hgt]
  dsimp only
  rw [if_pos hed]
  exact ensureTagRest_result_converged s1 pc name inh er packages t1.id rules hbr hinh
    hrep hpkg

theorem pkg_names_nodup_all (s0 : RemoteState)
    (hpw : ∀ tid ∈ s0.pkgs.map Prod.fst, (pkgNames (listPackagesOf s0 tid)).Nodup) :
    ∀ tid, (pkgNames (listPackagesOf s0 tid)).Nodup := by
  intro tid
  by_cases h : tid ∈ s0.pkgs.map Prod.fst
  · exact hpw tid h
  · unfold listPackagesOf
    rw [(alookup_eq_none_iff s0.pkgs tid).mpr h]
    exact List.nodup_nil

theorem ensureTagRest_result_error (s : RemoteState) (pc : List (String × Nat))
    (name : String) (check : Bool) (inh : List DeclInh) (er : Option (List DeclRepo))
    (packages : List (String × List String)) (tagID : Nat) (res : TagResult) (cs : List Call)
    (e : KojiErr) (hbr : buildRules s tagID inh = .error e) :
    (ensureTagRest s pc name check inh er packages tagID res cs).result = .error e := by
  unfold ensureTagRest
  rw [hbr]

theorem ensure_tag_post_aux (s1 : RemoteState) (pc : List (String × Nat)) (name : String)
    (inh : List DeclInh) (er : Option (List DeclRepo))
    (packages : List (String × List String)) (t1 : TagInfo)
    (res : TagResult) (cs : List Call)
    (hrl : ((er.getD []).map DeclRepo.repo).Nodup)
    (hfl : (packages.flatMap (fun p => p.2)).Nodup)
    (hP : (pkgNames (listPackagesOf s1 t1.id)).Nodup)
    (hgt1 : getTag s1 name = some t1)
    (hok : ∃ r, (ensureTagRest s1 pc name false inh er packages t1.id res cs).result = .ok r) :
    ∃ rules,
      getTag (ensureTagRest s1 pc name false inh er packages t1.id res cs).state name
        = some t1 ∧
      buildRules (ensureTagRest s1 pc name false inh er packages t1.id res cs).state t1.id inh
        = .ok rules ∧
      getInheritanceData (ensureTagRest s1 pc name false inh er packages t1.id res cs).state
        name = rules ∧
      (∀ rl, er = some rl → repoConverged (getTagExternalRepos
        (ensureTagRest s1 pc name false inh er packages t1.id res cs).state name) rl) ∧
      (packages.isEmpty = false → pkgConverged (listPackagesOf
        (ensureTagRest s1 pc name false inh er packages t1.id res cs).state t1.id)
        packages) := by
  cases hbr : buildRules s1 t1.id inh with
  | error e =>
    obtain ⟨r, hr⟩ := hok
    rw [ensureTagRest_result_error s1 pc name false inh er packages t1.id res cs e hbr] at hr
    exact Except.noConfusion hr
  | ok rules =>
    obtain ⟨htags, hinha, hrep, hpkg⟩ := ensureTagRest_post s1 pc name inh er packages t1.id
      res cs rules hbr hrl hfl hP
    have hmap : ∀ x, (getTag
        (ensureTagRest s1 pc name false inh er packages t1.id res cs).state x).map TagInfo.id =
        (getTag s1 x).map TagInfo.id := by
      intro x
      unfold getTag
      rw [htags]
    refine ⟨rules, ?_, ?_, hinha, hrep, hpkg⟩
    · unfold getTag
      rw [htags]
      exact hgt1
    · rw [buildRules_congr _ s1 t1.id inh hmap]
      exact hbr

theorem ensure_tag_post (s0 : RemoteState) (name : String) (inh : List DeclInh)
    (er : Option (List DeclRepo)) (packages : List (String × List String)) (kw : TagKwargs)
    (hcn : (s0.catalog.map Prod.fst).Nodup) (hci : (s0.catalog.map Prod.snd).Nodup)
    (hperm : ¬ kw.perm = some "") (hex : (kw.extra.map Prod.fst).Nodup)
    (hrl : ((er.getD []).map DeclRepo.repo).Nodup)
    (hfl : (packages.flatMap (fun p => p.2)).Nodup)
    (hpw : ∀ tid ∈ s0.pkgs.map Prod.fst, (pkgNames (listPackagesOf s0 tid)).Nodup)
    (hok : ∃ r, (ensure_tag s0 [] name false inh er packages kw).result = .ok r) :
    ∃ t1 rules,
      getTag (ensure_tag s0 [] name false inh er packages kw).state name = some t1 ∧
      (computeEdits t1 kw).isEmpty = true ∧
      buildRules (ensure_tag s0 [] name false inh er packages kw).state t1.id inh
        = .ok rules ∧
      getInheritanceData (ensure_tag s0 [] name false inh er packages kw).state name = rules ∧
      (∀ rl, er = some rl → repoConverged (getTagExternalRepos
        (ensure_tag s0 [] name false inh er packages kw).state name) rl) ∧
      (packages.isEmpty = false → pkgConverged (listPackagesOf
        (ensure_tag s0 [] name false inh er packages kw).state t1.id) packages) := by
  have hPall := pkg_names_nodup_all s0 hpw
  cases hT : getTag s0 name with
  | some t =>
    by_cases hed : (computeEdits t kw).isEmpty
    · have hre : ensure_tag s0 [] name false inh er packages kw =
          ensureTagRest s0 [] name false inh er packages t.id
            { changed := false, stdout_lines := [] } [] := by
        unfold ensure_tag
        rw [hT]
        dsimp only
        rw [if_pos hed]
      rw [hre] at hok ⊢
      obtain ⟨rules, h1, h2, h3, h4, h5⟩ := ensure_tag_post_aux s0 [] name inh er packages t
        { changed := false, stdout_lines := [] } [] hrl hfl (hPall t.id) hT hok
      exact ⟨t, rules, h1, hed, h2, h3, h4, h5⟩
    · have hre : ensure_tag s0 [] name false inh er packages kw =
          ensureTagRest (applyEditTag2 s0 name (computeEdits t kw)) [] name false inh er
            packages (applyEdits t (computeEdits t kw)).id
            { changed := true, stdout_lines := [editsStr (computeEdits t kw)] }
            [Call.editTag2 name (computeEdits t kw)] := by
        unfold ensure_tag
        rw [hT]
        dsimp only
        rw [if_neg hed, if_neg (Bool.false_ne_true)]
        rfl
      rw [hre] at hok ⊢
      have hgt1 : getTag (applyEditTag2 s0 name (computeEdits t kw)) name =
          some (applyEdits t (computeEdits t kw)) := by
        rw [getTag_applyEditTag2 s0 name _ t hT name, if_pos (beq_self_eq_true name)]
      have hP1 : (pkgNames (listPackagesOf (applyEditTag2 s0 name (computeEdits t kw))
          (applyEdits t (computeEdits t kw)).id)).Nodup := by
        rw [listPackagesOf_congr _ s0 (applyEditTag2_pkgs s0 name _) _]
        exact hPall _
      obtain ⟨rules, h1, h2, h3, h4, h5⟩ := ensure_tag_post_aux
        (applyEditTag2 s0 name (computeEdits t kw)) [] name inh er packages
        (applyEdits t (computeEdits t kw))
        { changed := true, stdout_lines := [editsStr (computeEdits t kw)] }
        [Call.editTag2 name (computeEdits t kw)] hrl hfl hP1 hgt1 hok
      exact ⟨applyEdits t (computeEdits t kw), rules, h1,
        computeEdits_applyEdits_isEmpty t kw hex, h2, h3, h4, h5⟩
  | none =>
    cases hkp : kw.perm with
    | none =>
      have hre : ensure_tag s0 [] name false inh er packages kw =
          ensureTagRest (applyCreateTag s0 name kw none) [] name false inh er packages
            s0.nextId { changed := true, stdout_lines := [s!"created tag id {s0.nextId}"] }
            [Call.createTag name kw none] := by
        unfold ensure_tag
        rw [hT]
        dsimp only
        rw [if_neg (Bool.false_ne_true), hkp]
        dsimp only
        rw [if_neg (Bool.false_ne_true)]
        rfl
      rw [hre] at hok ⊢
      have hgt1 : getTag (applyCreateTag s0 name kw none) name =
          some { id := s0.nextId, arches := kw.arches, perm := none, locked := kw.locked,
                 maven_support := kw.maven_support, maven_include_all := kw.maven_include_all,
                 extra := kw.extra } := by
        rw [getTag_applyCreateTag s0 name kw none name, if_pos (beq_self_eq_true name)]
        rfl
      have hP1 : (pkgNames (listPackagesOf (applyCreateTag s0 name kw none)
          s0.nextId)).Nodup := by
        rw [listPackagesOf_applyCreateTag s0 name kw none s0.nextId,
            if_pos (beq_self_eq_true s0.nextId)]
        exact List.nodup_nil
      obtain ⟨rules, h1, h2, h3, h4, h5⟩ := ensure_tag_post_aux
        (applyCreateTag s0 name kw none) [] name inh er packages
        { id := s0.nextId, arches := kw.arches, perm := none, locked := kw.locked,
          maven_support := kw.maven_support, maven_include_all := kw.maven_include_all,
          extra := kw.extra }
        { changed := true, stdout_lines := [s!"created tag id {s0.nextId}"] }
        [Call.createTag name kw none] hrl hfl hP1 hgt1 hok
      refine ⟨_, rules, h1, ?_, h2, h3, h4, h5⟩
      exact computeEdits_isEmpty_of_matches _ kw rfl (by rw [hkp]) rfl rfl rfl (fun k => rfl)
    | some l =>
      have hl : ¬ l = "" := by
        intro h
        apply hperm
        rw [hkp, h]
      have hbl : (l == "") = false := beq_eq_false_iff_ne.mpr hl
      cases halk : alookup (build_perm_cache s0.catalog) l with
      | none =>
        exfalso
        obtain ⟨r, hr⟩ := hok
        have herr : (ensure_tag s0 [] name false inh er packages kw).result =
            .error (.unknownPermission l) := by
          unfold ensure_tag
          rw [hT]
          dsimp only
          rw [if_neg (Bool.false_ne_true), hkp]
          dsimp only
          rw [hbl]
          rw [if_pos (show (!false) = true from rfl)]
          have hgd : ((some l : Option String)).getD "" = l := rfl
          rw [hgd]
          rw [get_perm_id_empty s0.catalog l, halk]
          rfl
        rw [herr] at hr
        exact Except.noConfusion hr
      | some i =>
        have hre : ensure_tag s0 [] name false inh er packages kw =
            ensureTagRest (applyCreateTag s0 name kw (some i)) (build_perm_cache s0.catalog)
              name false inh er packages s0.nextId
              { changed := true, stdout_lines := [s!"created tag id {s0.nextId}"] }
              ([Call.getAllPerms] ++ [Call.createTag name kw (some i)]) := by
          unfold ensure_tag
          rw [hT]
          dsimp only
          rw [if_neg (Bool.false_ne_true), hkp]
          dsimp only
          rw [hbl]
          rw [if_pos (show (!false) = true from rfl)]
          have hgd : ((some l : Option String)).getD "" = l := rfl
          rw [hgd]
          rw [get_perm_id_empty s0.catalog l, halk]
          rfl
        rw [hre] at hok ⊢
        have hpe : (some i).bind (idToName s0.catalog) = some l :=
          idToName_of_lookup s0.catalog hcn hci l i halk
        have hgt1 : getTag (applyCreateTag s0 name kw (some i)) name =
            some { id := s0.nextId, arches := kw.arches, perm := some l, locked := kw.locked,
                   maven_support := kw.maven_support,
                   maven_include_all := kw.maven_include_all, extra := kw.extra } := by
          rw [getTag_applyCreateTag s0 name kw (some i) name, if_pos (beq_self_eq_true name)]
          rw [hpe]
        have hP1 : (pkgNames (listPackagesOf (applyCreateTag s0 name kw (some i))
            s0.nextId)).Nodup := by
          rw [listPackagesOf_applyCreateTag s0 name kw (some i) s0.nextId,
              if_pos (beq_self_eq_true s0.nextId)]
          exact List.nodup_nil
        obtain ⟨rules, h1, h2, h3, h4, h5⟩ := ensure_tag_post_aux
          (applyCreateTag s0 name kw (some i)) (build_perm_cache s0.catalog) name inh er
          packages
          { id := s0.nextId, arches := kw.arches, perm := some l, locked := kw.locked,
            maven_support := kw.maven_support, maven_include_all := kw.maven_include_all,
            extra := kw.extra }
          { changed := true, stdout_lines := [s!"created tag id {s0.nextId}"] }
          ([Call.getAllPerms] ++ [Call.createTag name kw (some i)]) hrl hfl hP1 hgt1 hok
        refine ⟨_, rules, h1, ?_, h2, h3, h4, h5⟩
        exact computeEdits_isEmpty_of_matches _ kw rfl (by rw [hkp]) rfl rfl rfl (fun k => rfl)

/-- C3 counterexample.  Tag reconciliation is not idempotent for every desired
state: with the declared packages `[("alice", ["foo"]), ("bob", ["foo"])]`
(the same package under two owners) against a remote tag whose package "foo"
is owned by "carol", the first apply-mode run reassigns "foo" twice (the two
declared pairs fight over the owner), and the second run with the identical
desired state still reports changed = true, because the package section's
ownership snapshot makes a run always leave "foo" owned by the last declared
owner while the first declared pair again sees the wrong owner. -/
theorem tag_reconcile_idempotent_cex :
    ∃ r, (ensure_tag (ensure_tag exState [] "ceph" false [] none exPackages exKw).state
        (ensure_tag exState [] "ceph" false [] none exPackages exKw).cache
        "ceph" false [] none exPackages exKw).result = .ok r ∧ r.changed = true :=
  ⟨{ changed := true, stdout_lines := ["set foo owner alice"] }, rfl, rfl⟩

/-- C3 (amended): running the tag reconciliation twice with the same desired
state and no intervening external change yields changed = false (and an empty
log) on the second run, provided the inputs are well formed: the permission
catalog has no duplicate names or ids, the process starts with an empty
permission cache, the declared permission is not the empty string, the
declared extra keys, declared external-repo names, and the flattened declared
package list have no duplicates (in particular no package is declared under
two owners), each remote package list has no duplicate package names, and the
first run succeeds.  The access-grant absent path is exempted (it always
reports changed = true, see `koji_cg_grant_revoke`); cross-owner duplicate
package declarations break idempotence (see the counterexample). -/
theorem tag_reconcile_idempotent (s0 : RemoteState) (name : String) (inh : List DeclInh)
    (er : Option (List DeclRepo)) (packages : List (String × List String)) (kw : TagKwargs)
    (pc2 : List (String × Nat))
    (hcn : (s0.catalog.map Prod.fst).Nodup) (hci : (s0.catalog.map Prod.snd).Nodup)
    (hperm : ¬ kw.perm = some "") (hex : (kw.extra.map Prod.fst).Nodup)
    (hrl : ((er.getD []).map DeclRepo.repo).Nodup)
    (hfl : (packages.flatMap (fun p => p.2)).Nodup)
    (hpw : ∀ tid ∈ s0.pkgs.map Prod.fst, (pkgNames (listPackagesOf s0 tid)).Nodup)
    (hok : ∃ r, (ensure_tag s0 [] name false inh er packages kw).result = .ok r) :
    (ensure_tag (ensure_tag s0 [] name false inh er packages kw).state pc2
      name false inh er packages kw).result =
      .ok { changed := false, stdout_lines := [] } := by
  obtain ⟨t1, rules, h1, h2, h3, h4, h5, h6⟩ := ensure_tag_post s0 name inh er packages kw
    hcn hci hperm hex hrl hfl hpw hok
  exact ensure_tag_converged _ pc2 name inh er packages kw t1 rules h1 h2 h3 h4 h5 h6

/-- Witness for `tag_reconcile_idempotent`: a concrete second run (tag "ceph"
of the example state, one declared repo at a new priority, one declared owner
with two packages) reports changed = false with an empty log. -/
theorem tag_reconcile_idempotent_witness :
    (ensure_tag (ensure_tag exState [] "ceph" false []
        (some [⟨"centos7-cr", 2⟩]) [("alice", ["foo", "bar"])] exKwA).state []
      "ceph" false [] (some [⟨"centos7-cr", 2⟩]) [("alice", ["foo", "bar"])] exKwA).result =
      .ok { changed := false, stdout_lines := [] } :=
  tag_reconcile_idempotent exState "ceph" [] (some [⟨"centos7-cr", 2⟩])
    [("alice", ["foo", "bar"])] exKwA [] (by decide) (by decide) (by decide) (by decide)
    (by decide) (by decide) (by decide) ⟨_, rfl⟩
